import Mathlib

/-!
# Depot network: a shallow embedding of the message handlers

C strings are lists of characters (the terminating NUL is not stored), a
`struct LinkedList*` is a Lean list of nodes (`[]` is the NULL pointer), and a
function that mutates what its pointer arguments point to returns the new
contents.  What a handler leaves of the line it takes apart is given by a
function of its own (`deliver_withdraw_line_after`, `transfer_line_after`), used
where the line is read again.  A call that does not return normally yields a
`Fault`.
-/

set_option autoImplicit false

namespace Depot

/-! ## Outcomes -/

/-- Ways in which a call fails to return normally. -/
inductive Fault where
  /-- A NULL pointer is dereferenced or a never-opened stream is written. -/
  | undefined
  /-- The call waits for a mutex that is held, or spins in a loop that cannot end. -/
  | hang
  /-- The loop bound given to the model was too small. -/
  | fuel
  deriving DecidableEq, Repr

deriving instance DecidableEq for Except

/-! ## libc -/

/-- The `isdigit` of the C locale. -/
def isdigit (c : Char) : Bool := decide ('0' ≤ c) && decide (c ≤ '9')

/-- The `isspace` of the C locale. -/
def isspace (c : Char) : Bool :=
  c == ' ' || c == '\t' || c == '\n' || c == '\x0b' || c == '\x0c' || c == '\r'

/-- Value of a string of decimal digits, most significant digit first. -/
def decimal (s : List Char) : Nat :=
  s.foldl (fun n c => 10 * n + (c.toNat - '0'.toNat)) 0

/-- Conversion of a mathematical integer to `int` (two's complement, 32 bit).
The sums and differences of `int` values are taken modulo 2^32 with it. -/
def toInt32 (x : Int) : Int := (x + 2147483648) % 4294967296 - 2147483648

/-- The `atoi` of glibc: `(int) strtol(s, NULL, 10)`.  White space is skipped, an
optional sign is read, the longest run of digits is converted, the `long` result
saturates at `LONG_MIN` / `LONG_MAX` and is then truncated to `int`. -/
def atoi (s : List Char) : Int :=
  let s1 := s.dropWhile isspace
  let body : Bool × List Char :=
    match s1 with
    | [] => (false, [])
    | c :: r => if c = '-' then (true, r) else if c = '+' then (false, r) else (false, c :: r)
  let v : Int := (decimal (body.2.takeWhile isdigit) : Nat)
  let l : Int := if body.1 then max (-9223372036854775808) (-v) else min 9223372036854775807 v
  toInt32 l

/-- The `strtok_r(s, delim, &save)` of libc for a non-NULL `s`: the token found
(`none` for NULL) and the string `save` points to afterwards. -/
def strtok_r (s : List Char) (delim : List Char) : Option (List Char) × List Char :=
  let s1 := s.dropWhile (fun c => delim.contains c)
  match s1 with
  | [] => (none, [])
  | _ :: _ =>
    (some (s1.takeWhile (fun c => !delim.contains c)),
      (s1.dropWhile (fun c => !delim.contains c)).tail)

/-- The `strcmp` of libc up to the size of a non-zero result: 0 for equal
strings, negative when the first differing byte is smaller in the first string
or the first string ends first, positive otherwise. -/
def strcmp : List Char → List Char → Int
  | [], [] => 0
  | [], _ :: _ => -1
  | _ :: _, [] => 1
  | a :: s, b :: t => if a = b then strcmp s t else if a < b then -1 else 1

/-! ## util.c -/

/-- Number of occurrences of `symbol` in `string`. -/
def count_symbol (string : List Char) (symbol : Char) : Nat :=
  string.foldl (fun numSymbol c => if c = symbol then numSymbol + 1 else numSymbol) 0

/-- Whether `msg` begins with `string`. -/
def check_string_match (string msg : List Char) : Bool :=
  if msg.length < string.length then false
  else (List.range string.length).all (fun i => msg.get? i == string.get? i)

/-- Whether `string` is free of every character of `invalidChars`. -/
def check_characters (string invalidChars : List Char) : Bool :=
  string.all (fun c => invalidChars.all (fun d => c != d))

/-- Whether every character of `arg` is a digit. -/
def is_a_number (arg : List Char) : Bool :=
  arg.all isdigit

/-! ## linkedLists.h / linkedLists.c -/

/-- A list node used as a resource (`struct LinkedList` with `struct Resource`). -/
structure Resource where
  name : List Char
  quantity : Int
  deriving DecidableEq, Repr

/-- A list node used as a depot (`struct LinkedList` with `struct Depot`).
`port` is `none` for a NULL pointer; `toStream` is the text written so far to
the stream of the field `to`, `none` while that field has not been assigned. -/
structure DepotNode where
  name : List Char
  port : Option (List Char)
  toStream : Option (List Char)
  deriving DecidableEq, Repr

/-- A list node used as a deferral (`struct LinkedList` with `struct Deferral`). -/
structure Deferral where
  name : List Char
  /-- The string `operation` points to; `none` when the pointer does not point
  to a string (NULL, or the position past the terminator of a line). -/
  operation : Option (List Char)
  key : Int
  executed : Bool
  deriving DecidableEq, Repr

/-- Index of the first deferral whose key is `key`. -/
def search_deferrals_by_key (key : Int) : List Deferral → Option Nat
  | [] => none
  | node :: next =>
    if key = node.key then some 0
    else (search_deferrals_by_key key next).map (· + 1)

/-- Number of nodes of a list. -/
def count_items_in_list {α : Type} (first : List α) : Nat :=
  first.foldl (fun count _ => count + 1) 0

/-- Appends the node obtained from `malloc` to the list and returns the list
with the position of the new node.  `fresh` is what the allocated memory holds:
`malloc` does not clear it and `add_item` assigns only the `next` pointer. -/
def add_item {α : Type} (first : List α) (fresh : α) : Except Fault (List α × Nat) :=
  match first with
  | [] => .error .undefined
  | _ :: _ => .ok (first ++ [fresh], first.length)

/-- Index of the first node whose name equals `search` (`strcmp` returns 0).
`name` reads the field `name` of a node. -/
def search_list_by_name {α : Type} (name : α → List Char) (search : List Char) :
    List α → Option Nat
  | [] => none
  | node :: next =>
    if name node = search then some 0
    else (search_list_by_name name search next).map (· + 1)

/-- Replaces node `i` of a list by `f` of it. -/
def assign {α : Type} (f : α → α) : Nat → List α → List α
  | _, [] => []
  | 0, node :: next => f node :: next
  | i + 1, node :: next => node :: assign f i next

/-! ## messaging.c -/

/-- The macro DELIVER. -/
def DELIVER : Nat := 0

/-- The macro WITHDRAW. -/
def WITHDRAW : Nat := 1

/-- The macro MIN_TRANSFER_MSG_SIZE. -/
def MIN_TRANSFER_MSG_SIZE : Nat := 14

/-- The macro MIN_DEFER_MSG_SIZE. -/
def MIN_DEFER_MSG_SIZE : Nat := 8

/-- The macro MIN_EXECUTE_MSG_SIZE. -/
def MIN_EXECUTE_MSG_SIZE : Nat := 9

/-- The macro MAX_CONNECT_MSG_SIZE. -/
def MAX_CONNECT_MSG_SIZE : Nat := 13

/-- The macro MIN_IM_MSG_SIZE. -/
def MIN_IM_MSG_SIZE : Nat := 6

/-- The string literal `" \n\r:"` of the characters a name may not contain. -/
def invalid : List Char := [' ', '\n', '\r', ':']

/-- A `char*` handed to a function that reads the string: NULL is dereferenced. -/
def deref (p : Option (List Char)) : Except Fault (List Char) :=
  match p with
  | none => .error .undefined
  | some s => .ok s

/-- Validation of a Deliver or Withdraw line.  The tokens are taken from a copy
of the message; a missing token is a NULL pointer that the next check reads. -/
def check_deliver_withdraw_message (message commandString : List Char) :
    Except Fault Bool :=
  if message.length < commandString.length + 4 then .ok false
  else if !check_string_match commandString message then .ok false
  else if count_symbol message ':' ≠ 2 then .ok false
  else
    let t1 := strtok_r message [':']
    let t2 := strtok_r t1.2 [':']
    let t3 := strtok_r t2.2 [':']
    match deref t2.1 with
    | .error e => .error e
    | .ok quantity =>
      if !is_a_number quantity then .ok false
      else if atoi quantity ≤ 0 then .ok false
      else
        match deref t3.1 with
        | .error e => .error e
        | .ok type => if !check_characters type invalid then .ok false else .ok true

/-- Handler of a Deliver or Withdraw line: the resource list and the state of
`dataLock` (`true` when held) after the call.  `fresh` is the content of the
node `add_item` allocates when the resource does not exist yet. -/
def handle_deliver_withdraw_message (message : List Char) (firstResource : List Resource)
    (dataLock : Bool) (command : Nat) (fresh : Resource) :
    Except Fault (List Resource × Bool) :=
  let commandString := if command = DELIVER then "Deliver".toList else "Withdraw".toList
  match check_deliver_withdraw_message message commandString with
  | .error e => .error e
  | .ok false => .ok (firstResource, dataLock)
  | .ok true =>
    let t1 := strtok_r message [':']
    let t2 := strtok_r t1.2 [':']
    let t3 := strtok_r t2.2 [':']
    -- pthread_mutex_lock(dataLock)
    if dataLock then .error .hang
    else
      match deref t3.1 with
      | .error e => .error e
      | .ok type =>
        let found : Except Fault (List Resource × Nat) :=
          match search_list_by_name Resource.name type firstResource with
          | some i => .ok (firstResource, i)
          | none =>
            match add_item firstResource fresh with
            | .error e => .error e
            | .ok (list, i) => .ok (assign (fun r => { r with name := type }) i list, i)
        match found, deref t2.1 with
        | .error e, _ => .error e
        | _, .error e => .error e
        | .ok (list, resource), .ok quantity =>
          if command = DELIVER then
            .ok (assign (fun r => { r with quantity := toInt32 (r.quantity + atoi quantity) })
              resource list, false)
          else
            .ok (assign (fun r => { r with quantity := toInt32 (r.quantity - atoi quantity) })
              resource list, false)

/-- Validation of a Transfer line: length, the word `Transfer`, three colons. -/
def check_transfer_message (message : List Char) : Bool :=
  if message.length < MIN_TRANSFER_MSG_SIZE then false
  else if !check_string_match "Transfer".toList message then false
  else if count_symbol message ':' ≠ 3 then false
  else true

/-- The call `search_list_by_name(search, firstItem)` with a `search` that may
be NULL: `strcmp` reads it as soon as the list has a node. -/
def search_list_by_pointer {α : Type} (name : α → List Char) (search : Option (List Char))
    (firstItem : List α) : Except Fault (Option Nat) :=
  match firstItem, search with
  | [], _ => .ok none
  | _ :: _, none => .error .undefined
  | _ :: _, some s => .ok (search_list_by_name name s firstItem)

/-- The call `fprintf(node->type.depot.to, ...)` followed by `fflush` on node
`i` of the depot list: `text` is added to what that stream has received. -/
def fprintf_to (i : Nat) (text : List Char) (thisDepot : List DepotNode) :
    Except Fault (List DepotNode) :=
  match thisDepot.get? i with
  | none => .error .undefined
  | some node =>
    match node.toStream with
    | none => .error .undefined
    | some written =>
      .ok (assign (fun n => { n with toStream := some (written ++ text) }) i thisDepot)

/-- Handler of a Transfer line: the resource list, the depot list and the state
of `dataLock` after the call.  `destIsName` is the outcome of the pointer
comparison `dest == thisDepot->name`; `fresh` is the content of the node
`add_item` allocates when the resource does not exist yet. -/
def handle_transfer_message (message : List Char) (firstResource : List Resource)
    (thisDepot : List DepotNode) (dataLock : Bool) (fresh : Resource) (destIsName : Bool) :
    Except Fault (List Resource × List DepotNode × Bool) :=
  if !check_transfer_message message then .ok (firstResource, thisDepot, dataLock)
  else
    let t1 := strtok_r message [':']
    let t2 := strtok_r t1.2 [':']
    let t3 := strtok_r t2.2 [':']
    let t4 := strtok_r t3.2 [':']
    -- cannot transfer to self
    if destIsName then .ok (firstResource, thisDepot, dataLock)
    -- pthread_mutex_lock(dataLock)
    else if dataLock then .error .hang
    else
      match search_list_by_pointer DepotNode.name t4.1 thisDepot with
      | .error e => .error e
      | .ok none => .ok (firstResource, thisDepot, true)
      | .ok (some destination) =>
        match search_list_by_pointer Resource.name t3.1 firstResource, deref t3.1,
          deref t2.1 with
        | .error e, _, _ => .error e
        | _, .error e, _ => .error e
        | _, _, .error e => .error e
        | .ok searched, .ok type, .ok quantity =>
          let found : Except Fault (List Resource × Nat) :=
            match searched with
            | some i => .ok (firstResource, i)
            | none =>
              match add_item firstResource fresh with
              | .error e => .error e
              | .ok (list, i) => .ok (assign (fun r => { r with name := type }) i list, i)
          match found with
          | .error e => .error e
          | .ok (list, resource) =>
            match fprintf_to destination
              ("Deliver:".toList ++ quantity ++ ":".toList ++ type ++ "\n".toList) thisDepot with
            | .error e => .error e
            | .ok depots =>
              .ok (assign (fun r => { r with quantity := toInt32 (r.quantity - atoi quantity) })
                resource list, depots, false)

/-- Validation of the `Defer:k:` part of a Defer line. -/
def check_defer_message (message : List Char) : Except Fault Bool :=
  if message.length < MIN_DEFER_MSG_SIZE then .ok false
  else if !check_string_match "Defer".toList message then .ok false
  else
    let t1 := strtok_r message [':']
    let t2 := strtok_r t1.2 [':']
    match deref t2.1 with
    | .error e => .error e
    | .ok key =>
      if !is_a_number key then .ok false
      else if atoi key < 0 then .ok false
      else .ok true

/-- Validation of an Execute line. -/
def check_execute_message (message : List Char) : Except Fault Bool :=
  if message.length < MIN_EXECUTE_MSG_SIZE then .ok false
  else if !check_string_match "Execute".toList message then .ok false
  else
    let t1 := strtok_r message [':']
    let t2 := strtok_r t1.2 [':']
    match deref t2.1 with
    | .error e => .error e
    | .ok key =>
      if !is_a_number key then .ok false
      else if atoi key < 0 then .ok false
      else .ok true

/-- The loop of `handle_execute_message`: as long as the search finds a deferral
with the key, that deferral is marked executed and its key becomes -1.  `fuel`
bounds the number of searches. -/
def execute_loop (key : Int) : Nat → List Deferral → Except Fault (List Deferral)
  | 0, _ => .error .fuel
  | fuel + 1, firstDeferral =>
    match search_deferrals_by_key key firstDeferral with
    | none => .ok firstDeferral
    | some deferral =>
      execute_loop key fuel
        (assign (fun d => { d with executed := true, key := -1 }) deferral firstDeferral)

/-- Handler of an Execute line: the deferral list and the state of `dataLock`
after the call. -/
def handle_execute_message (fuel : Nat) (message : List Char) (firstDeferral : List Deferral)
    (dataLock : Bool) : Except Fault (List Deferral × Bool) :=
  match check_execute_message message with
  | .error e => .error e
  | .ok false => .ok (firstDeferral, dataLock)
  | .ok true =>
    let t1 := strtok_r message [':']
    let t2 := strtok_r t1.2 [':']
    match deref t2.1 with
    | .error e => .error e
    | .ok key =>
      -- pthread_mutex_lock(dataLock)
      if dataLock then .error .hang
      else
        match execute_loop (atoi key) fuel firstDeferral with
        | .error e => .error e
        | .ok list => .ok (list, false)

/-- Validation of a Connect line. -/
def check_connect_message (message : List Char) : Except Fault Bool :=
  if message.length ≠ MAX_CONNECT_MSG_SIZE then .ok false
  else if !check_string_match "Connect".toList message then .ok false
  else if count_symbol message ':' ≠ 1 then .ok false
  else
    let t1 := strtok_r message [':']
    let t2 := strtok_r t1.2 [':']
    match deref t2.1 with
    | .error e => .error e
    | .ok port => if !is_a_number port then .ok false else .ok true

/-! ## network.c -/

/-- The macro BLANK_DEFER_LENGTH. -/
def BLANK_DEFER_LENGTH : Nat := 7

/-- The depot data that a `struct ConnectionWrapper` points to, with the state
of `dataLock` (`true` when held) and the number of `defer_thread` instances
that `pthread_create` has made and that have not started yet. -/
structure ConnectionWrapper where
  thisDepot : List DepotNode
  firstResource : List Resource
  firstDeferral : List Deferral
  dataLock : Bool
  created : Nat
  deriving DecidableEq, Repr

/-- What a handler depends on besides the line and the depot data. -/
structure Env where
  /-- Content of a node that `malloc` returns for a new resource. -/
  freshResource : Resource
  /-- Content of a node that `malloc` returns for a new depot. -/
  freshDepot : DepotNode
  /-- Content of a node that `malloc` returns for a new deferral. -/
  freshDeferral : Deferral
  /-- Outcome of the pointer comparison `dest == thisDepot->name`. -/
  destIsName : Bool
  /-- Whether `getaddrinfo` and `connect` succeed for a port. -/
  connects : List Char → Bool
  /-- The string formed by the bytes that follow the first three bytes of the
  block `malloc(3)` returns in `handle_messages`: empty when the fourth byte is
  NUL. -/
  blockTail : List Char

/-- Handler of a Defer line.  The copy of the line is taken apart; the line
itself is not written to.  The operation is the pointer `message +
splitPosition`, which is only stored: it is the position past the terminator
of the line, and not a string, when the colon after the key is missing. -/
def handle_defer_message (message : List Char) (connection : ConnectionWrapper)
    (fresh : Deferral) : Except Fault ConnectionWrapper :=
  match check_defer_message message with
  | .error e => .error e
  | .ok false => .ok connection
  | .ok true =>
    let t1 := strtok_r message [':']
    let t2 := strtok_r t1.2 [':']
    match deref t2.1 with
    | .error e => .error e
    | .ok key =>
      let splitPosition := BLANK_DEFER_LENGTH + key.length
      let operation : Option (List Char) :=
        if message.length < splitPosition then none else some (message.drop splitPosition)
      -- pthread_mutex_lock(connection->dataLock)
      if connection.dataLock then .error .hang
      else
        match add_item connection.firstDeferral fresh with
        | .error e => .error e
        | .ok (list, newDeferral) =>
          .ok { connection with
            firstDeferral := assign (fun d => { d with
              executed := false, key := atoi key, name := "new".toList,
              operation := operation }) newDeferral list
            dataLock := false
            created := connection.created + 1 }

/-- The part of `start_communication_threads` that acts on the depot data: a
node named `new` with a newly opened stream is added and the IM line is written
to that stream.  The `port` field of the new node is not assigned. -/
def start_communication_threads (connection : ConnectionWrapper) (fresh : DepotNode) :
    Except Fault ConnectionWrapper :=
  -- pthread_mutex_lock(connection->dataLock)
  if connection.dataLock then .error .hang
  else
    match add_item connection.thisDepot fresh with
    | .error e => .error e
    | .ok (list, newDepot) =>
      let depots := assign (fun n => { n with toStream := some [], name := "new".toList })
        newDepot list
      match depots.head? with
      | none => .error .undefined
      | some self =>
        match deref self.port with
        | .error e => .error e
        | .ok port =>
          match fprintf_to newDepot
            ("IM:".toList ++ port ++ ":".toList ++ self.name ++ "\n".toList) depots with
          | .error e => .error e
          | .ok written => .ok { connection with thisDepot := written, dataLock := false }

/-- The part of `connect_to_depot` that acts on the depot data. -/
def connect_to_depot (port : List Char) (wrapper : ConnectionWrapper) (env : Env) :
    Except Fault ConnectionWrapper :=
  if env.connects port then start_communication_threads wrapper env.freshDepot
  else .ok wrapper

/-- The loop of `handle_connect_message` over the depot list: whether a node
holds the port.  On a node whose port is NULL the loop continues without moving
to the next node. -/
def port_is_connected (port : List Char) : List DepotNode → Except Fault Bool
  | [] => .ok false
  | node :: next =>
    match node.port with
    | none => .error .hang
    | some p => if p = port then .ok true else port_is_connected port next

/-- Handler of a Connect line. -/
def handle_connect_message (message : List Char) (connection : ConnectionWrapper)
    (env : Env) : Except Fault ConnectionWrapper :=
  match check_connect_message message with
  | .error e => .error e
  | .ok false => .ok connection
  | .ok true =>
    let t1 := strtok_r message [':']
    let t2 := strtok_r t1.2 [':']
    match deref t2.1 with
    | .error e => .error e
    | .ok port =>
      match port_is_connected port connection.thisDepot with
      | .error e => .error e
      | .ok true => .ok connection
      | .ok false => connect_to_depot port connection env

/-- The first byte of a line, NUL for the empty line. -/
def first_letter (message : List Char) : Char := message.headD (Char.ofNat 0)

/-- Dispatch of a line taken from the channel.  For a line that begins with
`D`, `strncpy` copies three bytes into a block of three bytes (a shorter line is
padded with NUL) and `strcmp` compares the block with `Del`: after three copied
bytes there is no terminator, so the string compared goes on with the bytes the
memory holds after them (`env.blockTail`). -/
def handle_messages (fuel : Nat) (message : List Char) (connection : ConnectionWrapper)
    (env : Env) : Except Fault ConnectionWrapper :=
  let firstLetter := first_letter message
  if firstLetter = 'C' then handle_connect_message message connection env
  else if firstLetter = 'D' then
    let firstThreeLetters :=
      if message.length < 3 then message else message.take 3 ++ env.blockTail
    if strcmp firstThreeLetters "Del".toList = 0 then
      match handle_deliver_withdraw_message message connection.firstResource
        connection.dataLock DELIVER env.freshResource with
      | .error e => .error e
      | .ok (resources, lock) =>
        .ok { connection with firstResource := resources, dataLock := lock }
    else handle_defer_message message connection env.freshDeferral
  else if firstLetter = 'W' then
    match handle_deliver_withdraw_message message connection.firstResource
      connection.dataLock WITHDRAW env.freshResource with
    | .error e => .error e
    | .ok (resources, lock) =>
      .ok { connection with firstResource := resources, dataLock := lock }
  else if firstLetter = 'T' then
    match handle_transfer_message message connection.firstResource connection.thisDepot
      connection.dataLock env.freshResource env.destIsName with
    | .error e => .error e
    | .ok (resources, depots, lock) =>
      .ok { connection with firstResource := resources, thisDepot := depots, dataLock := lock }
  else if firstLetter = 'E' then
    match handle_execute_message fuel message connection.firstDeferral
      connection.dataLock with
    | .error e => .error e
    | .ok (deferrals, lock) =>
      .ok { connection with firstDeferral := deferrals, dataLock := lock }
  else .ok connection

/-- First part of `defer_thread`: under the lock the first deferral named `new`
is renamed `ready`; its position is returned.  When there is none the thread
returns and the lock stays held. -/
def defer_thread_claim (connection : ConnectionWrapper) :
    Except Fault (ConnectionWrapper × Option Nat) :=
  -- pthread_mutex_lock(connection->dataLock)
  if connection.dataLock then .error .hang
  else
    match search_list_by_name Deferral.name "new".toList connection.firstDeferral with
    | none => .ok ({ connection with dataLock := true }, none)
    | some deferral =>
      .ok ({ connection with
        firstDeferral := assign (fun d => { d with name := "ready".toList }) deferral
          connection.firstDeferral
        dataLock := false }, some deferral)

/-- The string at `message` after `handle_deliver_withdraw_message(message,
...)`: once the copy has passed the validation the handler calls `strtok_r` on
the line itself, and the first call writes the terminator over the colon that
ends the first token. -/
def deliver_withdraw_line_after (message : List Char) (command : Nat) : List Char :=
  let commandString := if command = DELIVER then "Deliver".toList else "Withdraw".toList
  match check_deliver_withdraw_message message commandString with
  | .ok true => (strtok_r message [':']).1.getD message
  | _ => message

/-- The string at `message` after `handle_transfer_message(message, ...)`: once
the line has passed the validation the handler calls `strtok_r` on the line
itself. -/
def transfer_line_after (message : List Char) : List Char :=
  if !check_transfer_message message then message
  else (strtok_r message [':']).1.getD message

/-- Last part of `defer_thread`, run once `executed` of the deferral at position
`deferral` is true: the `switch` on the first letter of the held operation.
The handler is given the pointer `operation` of the deferral, so what its
`strtok_r` calls write is written to the string the deferral holds. -/
def defer_thread_dispatch (deferral : Nat) (connection : ConnectionWrapper)
    (env : Env) : Except Fault ConnectionWrapper :=
  match connection.firstDeferral.get? deferral with
  | none => .error .undefined
  | some node =>
    match deref node.operation with
    | .error e => .error e
    | .ok operation =>
      let firstLetter := first_letter operation
      if firstLetter = 'D' then
        match handle_deliver_withdraw_message operation connection.firstResource
          connection.dataLock DELIVER env.freshResource with
        | .error e => .error e
        | .ok (resources, lock) =>
          .ok { connection with
            firstResource := resources
            dataLock := lock
            firstDeferral := assign (fun d => { d with
              operation := some (deliver_withdraw_line_after operation DELIVER) })
              deferral connection.firstDeferral }
      else if firstLetter = 'W' then
        match handle_deliver_withdraw_message operation connection.firstResource
          connection.dataLock WITHDRAW env.freshResource with
        | .error e => .error e
        | .ok (resources, lock) =>
          .ok { connection with
            firstResource := resources
            dataLock := lock
            firstDeferral := assign (fun d => { d with
              operation := some (deliver_withdraw_line_after operation WITHDRAW) })
              deferral connection.firstDeferral }
      else if firstLetter = 'T' then
        match handle_transfer_message operation connection.firstResource
          connection.thisDepot connection.dataLock env.freshResource env.destIsName with
        | .error e => .error e
        | .ok (resources, depots, lock) =>
          .ok { connection with
            firstResource := resources
            thisDepot := depots
            dataLock := lock
            firstDeferral := assign (fun d => { d with
              operation := some (transfer_line_after operation) })
              deferral connection.firstDeferral }
      else .ok connection

/-! ## main.c -/

/-- The loop of `set_args` over `argv[4]`, `argv[5]`, ...: an argument at an
even position adds a node and names it, the argument after it sets the quantity
of that node. -/
def set_args_loop (fresh : Resource) : List (List Char) → List Resource → List Resource
  | [], firstResource => firstResource
  | [name], firstResource => firstResource ++ [{ fresh with name := name }]
  | name :: quantity :: rest, firstResource =>
    set_args_loop fresh rest (firstResource ++ [{ name := name, quantity := atoi quantity }])

/-- The three lists after `set_args`; the arguments `thisDepot`, `firstResource`
and `firstDeferral` are the head nodes as `main` allocated them and `fresh` is
the content of the nodes `add_item` allocates.  A missing `argv[i]` reads as
the empty string. -/
def set_args (argv : List (List Char)) (thisDepot : DepotNode) (firstResource : Resource)
    (firstDeferral : Deferral) (fresh : Resource) :
    List DepotNode × List Resource × List Deferral :=
  let depot := { thisDepot with name := argv.getD 1 [] }
  let deferral := { firstDeferral with executed := true, key := -1, name := "first".toList }
  if argv.length < 3 then
    ([depot], [{ firstResource with name := "XXXX".toList, quantity := 0 }], [deferral])
  else
    ([depot],
      set_args_loop fresh (argv.drop 4)
        [{ firstResource with name := argv.getD 2 [], quantity := atoi (argv.getD 3 []) }],
      [deferral])

/-! ## A sequential schedule of the threads -/

/-- A depot between two lines: the depot data and, for every `defer_thread`
that spins in its waiting loop, the position of the deferral it waits on, in
the order in which the threads were created. -/
structure Process where
  connection : ConnectionWrapper
  waiting : List Nat
  deriving DecidableEq, Repr

/-- Runs the `defer_thread` instances that were created and have not started,
one after the other, up to their waiting loop. -/
def start_defer_threads : Nat → Process → Except Fault Process
  | 0, process => .ok process
  | n + 1, process =>
    match defer_thread_claim process.connection with
    | .error e => .error e
    | .ok (connection, claimed) =>
      start_defer_threads n
        { connection := { connection with created := connection.created - 1 }
          waiting := process.waiting ++ claimed.toList }

/-- Lets the waiting threads whose deferral has `executed` set leave the loop
and dispatch their operation, one after the other in the order of `threads`;
`kept` collects the threads that go on waiting. -/
def run_released (env : Env) :
    List Nat → ConnectionWrapper → List Nat → Except Fault Process
  | [], connection, kept => .ok { connection := connection, waiting := kept }
  | deferral :: threads, connection, kept =>
    match connection.firstDeferral.get? deferral with
    | none => .error .undefined
    | some d =>
      if d.executed then
        match defer_thread_dispatch deferral connection env with
        | .error e => .error e
        | .ok after => run_released env threads after kept
      else run_released env threads connection (kept ++ [deferral])

/-- One line under the sequential schedule: the action thread handles the line,
then the defer threads it created run to their waiting loop, then the released
threads dispatch in the order of their creation. -/
def receive (fuel : Nat) (env : Env) (process : Process) (message : List Char) :
    Except Fault Process :=
  match handle_messages fuel message process.connection env with
  | .error e => .error e
  | .ok connection =>
    match start_defer_threads connection.created
      { connection := connection, waiting := process.waiting } with
    | .error e => .error e
    | .ok started => run_released env started.waiting started.connection []

/-- A sequence of lines under the sequential schedule. -/
def receive_all (fuel : Nat) (env : Env) (process : Process) (lines : List (List Char)) :
    Except Fault Process :=
  lines.foldlM (receive fuel env) process

/-- An environment in which the memory `malloc` returns is zero-filled, the
destination of a Transfer is not the pointer `thisDepot->name` and no other
depot can be reached. -/
def zero_filled : Env :=
  { freshResource := ⟨[], 0⟩
    freshDepot := ⟨[], none, none⟩
    freshDeferral := ⟨[], none, 0, false⟩
    destIsName := false
    connects := fun _ => false
    blockTail := [] }

/-- The depot once `main` has run `set_args` on zero-filled head nodes and
`start_server` has stored the port; no connection has been made yet. -/
def started (argv : List (List Char)) (port : List Char) : Process :=
  let lists := set_args argv ⟨[], none, none⟩ ⟨[], 0⟩ ⟨[], none, 0, false⟩ ⟨[], 0⟩
  { connection :=
      { thisDepot := lists.1.map (fun n => { n with port := some port })
        firstResource := lists.2.1
        firstDeferral := lists.2.2
        dataLock := false
        created := 0 }
    waiting := [] }

/-- The deferral tables a depot can hold: the table `set_args` builds, and every
table that a call of `handle_defer_message` or `handle_execute_message` that
returns, or the first or the last part of a `defer_thread`, makes from such a
table. -/
inductive ReachableDeferrals : List Deferral → Prop where
  | init (argv : List (List Char)) (thisDepot : DepotNode) (firstResource : Resource)
      (firstDeferral : Deferral) (fresh : Resource) :
      ReachableDeferrals (set_args argv thisDepot firstResource firstDeferral fresh).2.2
  | defer (message : List Char) (connection after : ConnectionWrapper) (fresh : Deferral) :
      ReachableDeferrals connection.firstDeferral →
      handle_defer_message message connection fresh = .ok after →
      ReachableDeferrals after.firstDeferral
  | execute (fuel : Nat) (message : List Char) (firstDeferral after : List Deferral)
      (dataLock lock : Bool) :
      ReachableDeferrals firstDeferral →
      handle_execute_message fuel message firstDeferral dataLock = .ok (after, lock) →
      ReachableDeferrals after
  | claim (connection after : ConnectionWrapper) (claimed : Option Nat) :
      ReachableDeferrals connection.firstDeferral →
      defer_thread_claim connection = .ok (after, claimed) →
      ReachableDeferrals after.firstDeferral
  | dispatch (deferral : Nat) (connection after : ConnectionWrapper) (env : Env) :
      ReachableDeferrals connection.firstDeferral →
      defer_thread_dispatch deferral connection env = .ok after →
      ReachableDeferrals after.firstDeferral

/-! ## messaging.c and network.c: the handshake -/

/-- Validation of an IM line. -/
def check_im_message (message : List Char) : Except Fault Bool :=
  if message.length < MIN_IM_MSG_SIZE then .ok false
  else if !check_string_match "IM".toList message then .ok false
  else if count_symbol message ':' ≠ 2 then .ok false
  else
    let t1 := strtok_r message [':']
    let t2 := strtok_r t1.2 [':']
    let t3 := strtok_r t2.2 [':']
    match deref t2.1 with
    | .error e => .error e
    | .ok port =>
      if !is_a_number port then .ok false
      else
        match deref t3.1 with
        | .error e => .error e
        | .ok name => if !check_characters name invalid then .ok false else .ok true

/-- Handler of an IM line: the depot data after the call and the value
returned (`false` closes the connection). -/
def handle_im_message (message : List Char) (connection : ConnectionWrapper) :
    Except Fault (ConnectionWrapper × Bool) :=
  match check_im_message message with
  | .error e => .error e
  | .ok false => .ok (connection, false)
  | .ok true =>
    let t1 := strtok_r message [':']
    let t2 := strtok_r t1.2 [':']
    let t3 := strtok_r t2.2 [':']
    -- pthread_mutex_lock(connection->dataLock)
    if connection.dataLock then .error .hang
    else
      match search_list_by_name DepotNode.name "new".toList connection.thisDepot with
      | none => .ok ({ connection with dataLock := false }, true)
      | some newDepot =>
        match deref t3.1 with
        | .error e => .error e
        | .ok name =>
          .ok ({ connection with
            thisDepot := assign (fun n => { n with name := name, port := t2.1 })
              newDepot connection.thisDepot
            dataLock := false }, true)

/-- The effect of `action_thread` on the depot data when the channel delivers
`lines` in this order: the first line goes to `handle_im_message`; if that
returns false no further line is handled, otherwise every further line goes to
`handle_messages`.  The environment is taken to be the same for every line. -/
def action_thread (fuel : Nat) (lines : List (List Char)) (connection : ConnectionWrapper)
    (env : Env) : Except Fault ConnectionWrapper :=
  match lines with
  | [] => .ok connection
  | string :: rest =>
    match handle_im_message string connection with
    | .error e => .error e
    | .ok (opened, connectionOpen) =>
      if connectionOpen then
        rest.foldlM (fun c line => handle_messages fuel line c env) opened
      else .ok opened

/-! ## main.c: the arguments -/

/-- The macro MIN_ARGS. -/
def MIN_ARGS : Nat := 2

/-- The macro NUM_ARG_ERR. -/
def NUM_ARG_ERR : Nat := 1

/-- The macro NAME_ERR. -/
def NAME_ERR : Nat := 2

/-- The macro QUANTITY_ERR. -/
def QUANTITY_ERR : Nat := 3

/-- The loop of `check_args` from position `i` on; `args` is `argv[i]`,
`argv[i+1]`, ... -/
def check_args_loop : Nat → List (List Char) → Nat
  | _, [] => 0
  | i, arg :: args =>
    if i % 2 = 0 then
      if arg = [] then NAME_ERR
      else if !check_characters arg invalid then NAME_ERR
      else check_args_loop (i + 1) args
    else
      if arg = [] then QUANTITY_ERR
      else if !is_a_number arg then QUANTITY_ERR
      else if atoi arg < 0 then QUANTITY_ERR
      else check_args_loop (i + 1) args

/-- The status `check_args` returns for the command line `argv` (`argc` is its
length). -/
def check_args (argv : List (List Char)) : Nat :=
  if argv.length < MIN_ARGS then NUM_ARG_ERR
  else if argv.getD 1 [] = [] then NUM_ARG_ERR
  else if !check_characters (argv.getD 1 []) invalid then NAME_ERR
  else if argv.length > 2 then
    if argv.getD 2 [] = [] then NUM_ARG_ERR
    else if argv.length % 2 ≠ 0 then QUANTITY_ERR
    else check_args_loop 2 (argv.drop 2)
  else 0

/-! ## main.c: the display -/

/-- The comparison `string_compare` of util.c on the two strings pointed to. -/
def string_compare (string1 string2 : List Char) : Int := strcmp string1 string2

/-- The array after `qsort` with `string_compare`: the strings in an order in
which `string_compare` of an earlier and a later one is never positive.  Equal
strings cannot be told apart, so every sorting procedure gives this array. -/
def qsort (names : List (List Char)) : List (List Char) :=
  names.insertionSort (fun a b => string_compare a b ≤ 0)

/-- The text `printf` writes for `%i`. -/
def print_int (n : Int) : List Char :=
  if n < 0 then '-' :: Nat.toDigits 10 n.natAbs else Nat.toDigits 10 n.toNat

/-- The second loop over the goods in `display_depot_data`: for every sorted
name the list is searched for that name and the quantity of the node found is
printed unless it is 0. -/
def print_goods (firstResource : List Resource) : List (List Char) → Except Fault (List Char)
  | [] => .ok []
  | name :: goodNames =>
    match search_list_by_name Resource.name name firstResource with
    | none => .error .undefined
    | some node =>
      match firstResource.get? node, print_goods firstResource goodNames with
      | none, _ => .error .undefined
      | _, .error e => .error e
      | some resource, .ok rest =>
        if resource.quantity ≠ 0 then
          .ok (name ++ " ".toList ++ print_int resource.quantity ++ "\n".toList ++ rest)
        else .ok rest

/-- The lines `display_depot_data` prints between `Goods:` and `Neighbours:`. -/
def display_goods (firstResource : List Resource) : Except Fault (List Char) :=
  print_goods firstResource (qsort (firstResource.map Resource.name))

/-- The lines `display_depot_data` prints after `Neighbours:`. -/
def display_neighbours (thisDepot : List DepotNode) : List Char :=
  let neighbourCount : Int := (count_items_in_list thisDepot : Int) - 1
  if neighbourCount < 1 then []
  else (qsort (thisDepot.tail.map DepotNode.name)).flatMap (fun name => name ++ "\n".toList)

/-- The text `display_depot_data` writes to standard output. -/
def display_depot_data (thisDepot : List DepotNode) (firstResource : List Resource) :
    Except Fault (List Char) :=
  match display_goods firstResource with
  | .error e => .error e
  | .ok goods =>
    .ok ("Goods:\n".toList ++ goods ++ "Neighbours:\n".toList ++ display_neighbours thisDepot)

/-- The text `display_err` writes to standard error. -/
def display_err (status : Nat) : List Char :=
  if status = NUM_ARG_ERR then "Usage: 2310depot name {goods qty}\n".toList
  else if status = NAME_ERR then "Invalid name(s)\n".toList
  else if status = QUANTITY_ERR then "Invalid quantity\n".toList
  else []

/-! ## channel.c: the queue -/

/-- The macro QUEUE_CAPACITY. -/
def QUEUE_CAPACITY : Int := 50

/-- The `struct Queue`: `data` gives the content of `data[i]`. -/
structure Queue (α : Type) where
  data : Int → α
  writeEnd : Int
  readEnd : Int

/-- A new queue; `memory` is the content of the array `malloc` returns. -/
def new_queue {α : Type} (memory : Int → α) : Queue α :=
  { data := memory, readEnd := -1, writeEnd := 0 }

/-- The queue after `write_queue(queue, data)` and the value returned. -/
def write_queue {α : Type} (queue : Queue α) (data : α) : Queue α × Bool :=
  if queue.writeEnd = queue.readEnd then (queue, false)
  else
    let stored := { queue with data := Function.update queue.data queue.writeEnd data }
    let marked := if stored.readEnd = -1 then { stored with readEnd := stored.writeEnd } else stored
    ({ marked with writeEnd := Int.tmod (marked.writeEnd + 1) QUEUE_CAPACITY }, true)

/-- The queue after `read_queue(queue, &output)` and the value stored in
`output`: `none` when the call returns false. -/
def read_queue {α : Type} (queue : Queue α) : Queue α × Option α :=
  if queue.readEnd = -1 then (queue, none)
  else
    let output := queue.data queue.readEnd
    let moved := { queue with readEnd := Int.tmod (queue.readEnd + 1) QUEUE_CAPACITY }
    (if moved.readEnd = moved.writeEnd then { moved with readEnd := -1 } else moved, some output)

/-- A call on a queue: `write_queue` with a value, or `read_queue`. -/
inductive QueueCall (α : Type) where
  | write (data : α)
  | read

/-- What a call on a queue returns: the Boolean of `write_queue`, or the value
read by `read_queue` (`none` when it returns false). -/
inductive QueueResult (α : Type) where
  | wrote (success : Bool)
  | got (output : Option α)
  deriving DecidableEq, Repr

/-- One call on the queue of channel.c. -/
def queue_call {α : Type} (queue : Queue α) : QueueCall α → Queue α × QueueResult α
  | .write data => ((write_queue queue data).1, .wrote (write_queue queue data).2)
  | .read => ((read_queue queue).1, .got (read_queue queue).2)

/-- A sequence of calls on the queue of channel.c: the queue at the end and
what the calls returned. -/
def queue_calls {α : Type} (queue : Queue α) :
    List (QueueCall α) → Queue α × List (QueueResult α)
  | [] => (queue, [])
  | call :: calls =>
    ((queue_calls (queue_call queue call).1 calls).1,
      (queue_call queue call).2 :: (queue_calls (queue_call queue call).1 calls).2)

/-- The bounded FIFO of the specification, a list of the items pushed and not
yet popped: a push is refused when the list holds `capacity` items and adds the
item at the end otherwise. -/
def fifo_push {α : Type} (capacity : Nat) (items : List α) (item : α) : List α × Bool :=
  if items.length = capacity then (items, false) else (items ++ [item], true)

/-- The bounded FIFO of the specification: a pop takes the item at the front,
and returns nothing when the list is empty. -/
def fifo_pop {α : Type} (items : List α) : List α × Option α :=
  match items with
  | [] => ([], none)
  | item :: rest => (rest, some item)

/-- One call on the FIFO of the specification. -/
def fifo_call {α : Type} (capacity : Nat) (items : List α) :
    QueueCall α → List α × QueueResult α
  | .write data => ((fifo_push capacity items data).1, .wrote (fifo_push capacity items data).2)
  | .read => ((fifo_pop items).1, .got (fifo_pop items).2)

/-- A sequence of calls on the FIFO of the specification. -/
def fifo_calls {α : Type} (capacity : Nat) (items : List α) :
    List (QueueCall α) → List α × List (QueueResult α)
  | [] => (items, [])
  | call :: calls =>
    ((fifo_calls capacity (fifo_call capacity items call).1 calls).1,
      (fifo_call capacity items call).2 :: (fifo_calls capacity (fifo_call capacity items call).1 calls).2)

/-- The queue `queue` holds exactly the items of the list `items`, oldest
first: the write index is in the array, the read index is -1 for no item and
otherwise in the array with the write index `items.length` slots after it
(modulo the capacity), and the slots from the read index on hold the items. -/
def Holds {α : Type} (queue : Queue α) (items : List α) : Prop :=
  0 ≤ queue.writeEnd ∧ queue.writeEnd < 50 ∧ items.length ≤ 50
  ∧ (items = [] → queue.readEnd = -1)
  ∧ (items ≠ [] → 0 ≤ queue.readEnd ∧ queue.readEnd < 50
      ∧ queue.writeEnd = (queue.readEnd + items.length) % 50)
  ∧ ∀ i : Nat, i < items.length →
      items.get? i = some (queue.data ((queue.readEnd + (i : Int)) % 50))

/-- Number of items written and not yet read, counted on what the calls
returned: the writes that returned true less the reads that returned true. -/
def unread {α : Type} : List (QueueResult α) → Int
  | [] => 0
  | .wrote true :: results => unread results + 1
  | .wrote false :: results => unread results
  | .got (some _) :: results => unread results - 1
  | .got none :: results => unread results

/-! ## channel.c: the channel -/

/-- The `struct Channel` between two calls: `signal` is the value of the
semaphore and `queue` the queue.  The mutex `queueLock` is locked and unlocked
inside each call and is free between the calls. -/
structure Channel (α : Type) where
  signal : Nat
  queue : Queue α

/-- A new channel: the semaphore is initialised with 1 and the queue is new. -/
def new_channel {α : Type} (memory : Int → α) : Channel α :=
  { signal := 1, queue := new_queue memory }

/-- The channel after `write_channel(channel, data)` and the value returned:
`write_queue` under the mutex, then `sem_post`, whatever `write_queue`
returned. -/
def write_channel {α : Type} (channel : Channel α) (data : α) : Channel α × Bool :=
  let output := write_queue channel.queue data
  ({ signal := channel.signal + 1, queue := output.1 }, output.2)

/-- The channel after `read_channel(channel, &out)` and the value stored in
`out` (`none` when the call returns false): `sem_wait`, which does not return
while the semaphore is 0, then `read_queue` under the mutex. -/
def read_channel {α : Type} (channel : Channel α) : Except Fault (Channel α × Option α) :=
  -- sem_wait(&channel->signal)
  if channel.signal = 0 then .error .hang
  else
    let output := read_queue channel.queue
    .ok ({ signal := channel.signal - 1, queue := output.1 }, output.2)

/-- The channels that calls of `write_channel` and calls of `read_channel` that
return, one after the other, make from a new channel. -/
inductive ReachableChannel {α : Type} (memory : Int → α) : Channel α → Prop where
  | new : ReachableChannel memory (new_channel memory)
  | write (channel : Channel α) (data : α) :
      ReachableChannel memory channel →
      ReachableChannel memory (write_channel channel data).1
  | read (channel after : Channel α) (out : Option α) :
      ReachableChannel memory channel →
      read_channel channel = .ok (after, out) →
      ReachableChannel memory after

/-! ## The command lines the specification admits -/

/-- A name in the specification's words: not empty and without any of the
characters space, newline, carriage return and colon. -/
def spec_valid_name (name : List Char) : Bool :=
  decide (name ≠ []) && name.all (fun c => c != ' ' && c != '\n' && c != '\r' && c != ':')

/-- A quantity in the specification's words: a non-empty string of decimal
digits. -/
def spec_valid_quantity (qty : List Char) : Bool :=
  decide (qty ≠ []) && qty.all (fun c => decide ('0' ≤ c) && decide (c ≤ '9'))

/-- The arguments after the depot name are complete (good, qty) pairs of a valid
name and a valid quantity. -/
def spec_valid_pairs : List (List Char) → Bool
  | [] => true
  | [_] => false
  | good :: qty :: rest =>
    spec_valid_name good && spec_valid_quantity qty && spec_valid_pairs rest

/-- The command lines of the specification: a depot name is present and valid,
and the remaining arguments are valid pairs.  `argv[0]` is the program name. -/
def spec_valid_command_line : List (List Char) → Bool
  | _ :: name :: rest => spec_valid_name name && spec_valid_pairs rest
  | _ => false

/-- The second components of the (good, qty) pairs. -/
def quantities : List (List Char) → List (List Char)
  | _ :: qty :: rest => qty :: quantities rest
  | _ => []

/-! ## Lemmas on the text utilities -/

theorem strtok_r_token (a b : List Char) (ha : a ≠ []) (hc : ∀ c ∈ a, c ≠ ':') :
    strtok_r (a ++ ':' :: b) [':'] = (some a, b) := by
  cases a with
  | nil => exact absurd rfl ha
  | cons x a =>
    have hx : x ≠ ':' := hc x (List.mem_cons_self _ _)
    have h1 : ∀ c ∈ a, (!decide (c = ':')) = true := by
      intro c hmem
      have := hc c (List.mem_cons_of_mem _ hmem)
      simp [this]
    have h2 : List.takeWhile (fun c => !decide (c = ':')) (a ++ ':' :: b) = a := by
      rw [List.takeWhile_append_of_pos h1]; simp
    have h3 : List.dropWhile (fun c => !decide (c = ':')) (a ++ ':' :: b) = ':' :: b := by
      rw [List.dropWhile_append_of_pos h1]; simp
    simp [strtok_r, hx, h2, h3]

theorem strtok_r_last (a : List Char) (ha : a ≠ []) (hc : ∀ c ∈ a, c ≠ ':') :
    strtok_r a [':'] = (some a, []) := by
  cases a with
  | nil => exact absurd rfl ha
  | cons x a =>
    have hx : x ≠ ':' := hc x (List.mem_cons_self _ _)
    have h1 : ∀ c ∈ a, (!decide (c = ':')) = true := by
      intro c hmem
      have := hc c (List.mem_cons_of_mem _ hmem)
      simp [this]
    have h3 : List.dropWhile (fun c => !decide (c = ':')) a = [] := by
      rw [List.dropWhile_eq_nil_iff]; exact h1
    have h4 : ∀ c ∈ a, ¬ c = ':' := fun c hmem => hc c (List.mem_cons_of_mem _ hmem)
    simpa [strtok_r, hx, h3] using h4

theorem count_symbol_acc (s : List Char) (symbol : Char) (n : Nat) :
    s.foldl (fun numSymbol c => if c = symbol then numSymbol + 1 else numSymbol) n
      = n + count_symbol s symbol := by
  induction s generalizing n with
  | nil => simp [count_symbol]
  | cons c s ih =>
    simp only [count_symbol, List.foldl_cons]
    rw [ih, ih (if c = symbol then 0 + 1 else 0)]
    split <;> omega

theorem count_symbol_cons (c : Char) (s : List Char) (symbol : Char) :
    count_symbol (c :: s) symbol = (if c = symbol then 1 else 0) + count_symbol s symbol := by
  simp only [count_symbol, List.foldl_cons]
  rw [count_symbol_acc]
  simp [count_symbol]

theorem count_symbol_append (a b : List Char) (symbol : Char) :
    count_symbol (a ++ b) symbol = count_symbol a symbol + count_symbol b symbol := by
  induction a with
  | nil => simp [count_symbol]
  | cons c a ih => simp only [List.cons_append, count_symbol_cons, ih]; omega

theorem count_symbol_absent (a : List Char) (symbol : Char) (h : ∀ c ∈ a, c ≠ symbol) :
    count_symbol a symbol = 0 := by
  induction a with
  | nil => simp [count_symbol]
  | cons c a ih =>
    rw [count_symbol_cons, ih (fun d hd => h d (List.mem_cons_of_mem _ hd))]
    simp [h c (List.mem_cons_self _ _)]

theorem check_string_match_start (string rest : List Char) :
    check_string_match string (string ++ rest) = true := by
  unfold check_string_match
  have hlen : ¬ (string ++ rest).length < string.length := by simp
  rw [if_neg hlen]
  rw [List.all_eq_true]
  intro i hi
  have hi2 : i < string.length := List.mem_range.mp hi
  simp [List.getElem?_append_left hi2]

theorem check_characters_invalid (t : List Char)
    (hc : ∀ c ∈ t, c ≠ ' ' ∧ c ≠ '\n' ∧ c ≠ '\r' ∧ c ≠ ':') :
    check_characters t invalid = true := by
  unfold check_characters invalid
  rw [List.all_eq_true]
  intro c hmem
  obtain ⟨h1, h2, h3, h4⟩ := hc c hmem
  simp [h1, h2, h3, h4]

theorem is_a_number_digits (qs : List Char) (hd : ∀ c ∈ qs, '0' ≤ c ∧ c ≤ '9') :
    is_a_number qs = true := by
  unfold is_a_number
  rw [List.all_eq_true]
  intro c hmem
  simp [isdigit, hd c hmem]

theorem digit_ne_colon (qs : List Char) (hd : ∀ c ∈ qs, '0' ≤ c ∧ c ≤ '9') :
    ∀ c ∈ qs, c ≠ ':' := by
  intro c hmem hcc
  have h := (hd c hmem).2
  rw [hcc] at h
  exact absurd h (by decide)

theorem toInt32_of_range (x : Int) (h1 : -2147483648 ≤ x) (h2 : x ≤ 2147483647) :
    toInt32 x = x := by
  unfold toInt32
  omega

theorem takeWhile_isdigit (qs : List Char) (hd : ∀ c ∈ qs, '0' ≤ c ∧ c ≤ '9') :
    qs.takeWhile isdigit = qs := by
  rw [List.takeWhile_eq_self_iff]
  intro c hmem
  simp [isdigit, hd c hmem]

theorem atoi_digits (qs : List Char) (hq : qs ≠ []) (hd : ∀ c ∈ qs, '0' ≤ c ∧ c ≤ '9')
    (h2 : decimal qs ≤ 2147483647) : atoi qs = (decimal qs : Int) := by
  cases qs with
  | nil => exact absurd rfl hq
  | cons x qs =>
    have hx := hd x (List.mem_cons_self _ _)
    have hne : ∀ d : Char, ¬ ('0' ≤ d) → x ≠ d := by
      intro d hd0 hxd
      rw [hxd] at hx
      exact hd0 hx.1
    have hsp : isspace x = false := by
      simp [isspace, hne ' ' (by decide), hne '\t' (by decide), hne '\n' (by decide),
        hne '\x0b' (by decide), hne '\x0c' (by decide), hne '\r' (by decide)]
    have hminus : x ≠ '-' := hne '-' (by decide)
    have hplus : x ≠ '+' := hne '+' (by decide)
    have hdrop : List.dropWhile isspace (x :: qs) = x :: qs := by
      simp [List.dropWhile, hsp]
    have h3 : ((decimal (x :: qs) : Nat) : Int) ≤ 2147483647 := by exact_mod_cast h2
    have h4 : (0 : Int) ≤ (decimal (x :: qs) : Nat) := Int.ofNat_nonneg _
    unfold atoi
    rw [hdrop]
    simp only [if_neg hminus, if_neg hplus, takeWhile_isdigit (x :: qs) hd,
      Bool.false_eq_true, if_false]
    rw [min_eq_right (by omega)]
    exact toInt32_of_range _ (by omega) h3

/-! ## Lemmas on the lists -/

theorem search_list_by_name_first {α : Type} (name : α → List Char) (t : List Char)
    (pre post : List α) (x : α) (hpre : ∀ r ∈ pre, name r ≠ t) (hx : name x = t) :
    search_list_by_name name t (pre ++ x :: post) = some pre.length := by
  induction pre with
  | nil => simp [search_list_by_name, hx]
  | cons r pre ih =>
    have hr : name r ≠ t := hpre r (List.mem_cons_self _ _)
    simp [search_list_by_name, hr, ih (fun r hmem => hpre r (List.mem_cons_of_mem _ hmem))]

theorem search_list_by_name_none {α : Type} (name : α → List Char) (t : List Char)
    (l : List α) (h : ∀ r ∈ l, name r ≠ t) : search_list_by_name name t l = none := by
  induction l with
  | nil => rfl
  | cons r l ih =>
    have hr : name r ≠ t := h r (List.mem_cons_self _ _)
    simp [search_list_by_name, hr, ih (fun r hmem => h r (List.mem_cons_of_mem _ hmem))]

theorem assign_at {α : Type} (f : α → α) (pre post : List α) (x : α) :
    assign f pre.length (pre ++ x :: post) = pre ++ f x :: post := by
  induction pre with
  | nil => rfl
  | cons r pre ih => simp [assign, ih]

/-! ## Lemmas on Deliver and Withdraw -/

theorem check_deliver_withdraw_message_ok (cs qs t : List Char)
    (hcs : ∀ c ∈ cs, c ≠ ':') (hcs0 : cs ≠ [])
    (hq : qs ≠ []) (hd : ∀ c ∈ qs, '0' ≤ c ∧ c ≤ '9')
    (h1 : 1 ≤ decimal qs) (h2 : decimal qs ≤ 2147483647)
    (ht : t ≠ []) (hc : ∀ c ∈ t, c ≠ ' ' ∧ c ≠ '\n' ∧ c ≠ '\r' ∧ c ≠ ':') :
    check_deliver_withdraw_message (cs ++ ':' :: (qs ++ ':' :: t)) cs = .ok true := by
  have hlen : ¬ (cs ++ ':' :: (qs ++ ':' :: t)).length < cs.length + 4 := by
    have := List.length_pos.mpr hq
    have := List.length_pos.mpr ht
    simp only [List.length_append, List.length_cons]
    omega
  have hcount : count_symbol (cs ++ ':' :: (qs ++ ':' :: t)) ':' = 2 := by
    rw [count_symbol_append, count_symbol_cons, count_symbol_append, count_symbol_cons,
      count_symbol_absent cs ':' hcs, count_symbol_absent qs ':' (digit_ne_colon qs hd),
      count_symbol_absent t ':' (fun c hmem => (hc c hmem).2.2.2)]
    simp
  have hatoi : ¬ atoi qs ≤ 0 := by
    rw [atoi_digits qs hq hd h2]
    have : (1 : Int) ≤ (decimal qs : Nat) := by exact_mod_cast h1
    omega
  unfold check_deliver_withdraw_message
  rw [if_neg hlen]
  simp only [check_string_match_start, hcount, strtok_r_token cs _ hcs0 hcs,
    strtok_r_token qs t hq (digit_ne_colon qs hd),
    strtok_r_last t ht (fun c hmem => (hc c hmem).2.2.2), deref,
    is_a_number_digits qs hd, check_characters_invalid t hc, if_neg hatoi]
  simp

theorem deliver_line (qs t : List Char) :
    "Deliver:".toList ++ qs ++ ":".toList ++ t = "Deliver".toList ++ ':' :: (qs ++ ':' :: t) := by
  simp

theorem withdraw_line (qs t : List Char) :
    "Withdraw:".toList ++ qs ++ ":".toList ++ t
      = "Withdraw".toList ++ ':' :: (qs ++ ':' :: t) := by
  simp

theorem handle_deliver_found (pre post : List Resource) (v : Int) (qs t : List Char)
    (fresh : Resource)
    (hq : qs ≠ []) (hd : ∀ c ∈ qs, '0' ≤ c ∧ c ≤ '9')
    (h1 : 1 ≤ decimal qs) (h2 : decimal qs ≤ 2147483647)
    (ht : t ≠ []) (hc : ∀ c ∈ t, c ≠ ' ' ∧ c ≠ '\n' ∧ c ≠ '\r' ∧ c ≠ ':')
    (hpre : ∀ r ∈ pre, r.name ≠ t) :
    handle_deliver_withdraw_message ("Deliver:".toList ++ qs ++ ":".toList ++ t)
        (pre ++ ⟨t, v⟩ :: post) false DELIVER fresh
      = .ok (pre ++ ⟨t, toInt32 (v + decimal qs)⟩ :: post, false) := by
  have hcs : ∀ c ∈ "Deliver".toList, c ≠ ':' := by decide
  rw [deliver_line]
  unfold handle_deliver_withdraw_message
  simp only [if_pos rfl, if_true, Bool.false_eq_true, if_false]
  rw [check_deliver_withdraw_message_ok "Deliver".toList qs t hcs (by decide) hq hd h1 h2 ht hc,
    strtok_r_token "Deliver".toList _ (by decide) hcs,
    strtok_r_token qs t hq (digit_ne_colon qs hd),
    strtok_r_last t ht (fun c hmem => (hc c hmem).2.2.2)]
  simp only [deref, search_list_by_name_first Resource.name t pre post ⟨t, v⟩ hpre rfl,
    assign_at, atoi_digits qs hq hd h2]

theorem handle_withdraw_found (pre post : List Resource) (v : Int) (qs t : List Char)
    (fresh : Resource)
    (hq : qs ≠ []) (hd : ∀ c ∈ qs, '0' ≤ c ∧ c ≤ '9')
    (h1 : 1 ≤ decimal qs) (h2 : decimal qs ≤ 2147483647)
    (ht : t ≠ []) (hc : ∀ c ∈ t, c ≠ ' ' ∧ c ≠ '\n' ∧ c ≠ '\r' ∧ c ≠ ':')
    (hpre : ∀ r ∈ pre, r.name ≠ t) :
    handle_deliver_withdraw_message ("Withdraw:".toList ++ qs ++ ":".toList ++ t)
        (pre ++ ⟨t, v⟩ :: post) false WITHDRAW fresh
      = .ok (pre ++ ⟨t, toInt32 (v - decimal qs)⟩ :: post, false) := by
  have hcs : ∀ c ∈ "Withdraw".toList, c ≠ ':' := by decide
  have hcmd : ¬ WITHDRAW = DELIVER := by decide
  rw [withdraw_line]
  unfold handle_deliver_withdraw_message
  simp only [if_neg hcmd, Bool.false_eq_true, if_false]
  rw [check_deliver_withdraw_message_ok "Withdraw".toList qs t hcs (by decide) hq hd h1 h2 ht hc,
    strtok_r_token "Withdraw".toList _ (by decide) hcs,
    strtok_r_token qs t hq (digit_ne_colon qs hd),
    strtok_r_last t ht (fun c hmem => (hc c hmem).2.2.2)]
  simp only [deref, search_list_by_name_first Resource.name t pre post ⟨t, v⟩ hpre rfl,
    assign_at, atoi_digits qs hq hd h2]

theorem assign_appended {α : Type} (f : α → α) (l : List α) (x : α) :
    assign f l.length (l ++ [x]) = l ++ [f x] :=
  assign_at f l [] x

theorem add_item_ok {α : Type} (l : List α) (fresh : α) (h : l ≠ []) :
    add_item l fresh = .ok (l ++ [fresh], l.length) := by
  cases l with
  | nil => exact absurd rfl h
  | cons x l => rfl

theorem handle_deliver_absent (inv : List Resource) (qs t : List Char) (fresh : Resource)
    (hq : qs ≠ []) (hd : ∀ c ∈ qs, '0' ≤ c ∧ c ≤ '9')
    (h1 : 1 ≤ decimal qs) (h2 : decimal qs ≤ 2147483647)
    (ht : t ≠ []) (hc : ∀ c ∈ t, c ≠ ' ' ∧ c ≠ '\n' ∧ c ≠ '\r' ∧ c ≠ ':')
    (hinv : inv ≠ []) (habs : ∀ r ∈ inv, r.name ≠ t) :
    handle_deliver_withdraw_message ("Deliver:".toList ++ qs ++ ":".toList ++ t)
        inv false DELIVER fresh
      = .ok (inv ++ [⟨t, toInt32 (fresh.quantity + decimal qs)⟩], false) := by
  have hcs : ∀ c ∈ "Deliver".toList, c ≠ ':' := by decide
  rw [deliver_line]
  unfold handle_deliver_withdraw_message
  simp only [if_pos rfl, if_true, Bool.false_eq_true, if_false]
  rw [check_deliver_withdraw_message_ok "Deliver".toList qs t hcs (by decide) hq hd h1 h2 ht hc,
    strtok_r_token "Deliver".toList _ (by decide) hcs,
    strtok_r_token qs t hq (digit_ne_colon qs hd),
    strtok_r_last t ht (fun c hmem => (hc c hmem).2.2.2)]
  simp only [deref, search_list_by_name_none Resource.name t inv habs, add_item_ok inv fresh hinv,
    assign_appended, atoi_digits qs hq hd h2]

theorem handle_withdraw_absent (inv : List Resource) (qs t : List Char) (fresh : Resource)
    (hq : qs ≠ []) (hd : ∀ c ∈ qs, '0' ≤ c ∧ c ≤ '9')
    (h1 : 1 ≤ decimal qs) (h2 : decimal qs ≤ 2147483647)
    (ht : t ≠ []) (hc : ∀ c ∈ t, c ≠ ' ' ∧ c ≠ '\n' ∧ c ≠ '\r' ∧ c ≠ ':')
    (hinv : inv ≠ []) (habs : ∀ r ∈ inv, r.name ≠ t) :
    handle_deliver_withdraw_message ("Withdraw:".toList ++ qs ++ ":".toList ++ t)
        inv false WITHDRAW fresh
      = .ok (inv ++ [⟨t, toInt32 (fresh.quantity - decimal qs)⟩], false) := by
  have hcs : ∀ c ∈ "Withdraw".toList, c ≠ ':' := by decide
  have hcmd : ¬ WITHDRAW = DELIVER := by decide
  rw [withdraw_line]
  unfold handle_deliver_withdraw_message
  simp only [if_neg hcmd, Bool.false_eq_true, if_false]
  rw [check_deliver_withdraw_message_ok "Withdraw".toList qs t hcs (by decide) hq hd h1 h2 ht hc,
    strtok_r_token "Withdraw".toList _ (by decide) hcs,
    strtok_r_token qs t hq (digit_ne_colon qs hd),
    strtok_r_last t ht (fun c hmem => (hc c hmem).2.2.2)]
  simp only [deref, search_list_by_name_none Resource.name t inv habs, add_item_ok inv fresh hinv,
    assign_appended, atoi_digits qs hq hd h2]

/-! ## Lemmas on Transfer -/

theorem transfer_line (qs t dest : List Char) :
    "Transfer:".toList ++ qs ++ ":".toList ++ t ++ ":".toList ++ dest
      = "Transfer".toList ++ ':' :: (qs ++ ':' :: (t ++ ':' :: dest)) := by
  simp

theorem check_transfer_message_ok (qs t dest : List Char)
    (hq : qs ≠ []) (hqc : ∀ c ∈ qs, c ≠ ':')
    (ht : t ≠ []) (htc : ∀ c ∈ t, c ≠ ':')
    (hdest : dest ≠ []) (hdc : ∀ c ∈ dest, c ≠ ':') :
    check_transfer_message ("Transfer".toList ++ ':' :: (qs ++ ':' :: (t ++ ':' :: dest)))
      = true := by
  have hcs : ∀ c ∈ "Transfer".toList, c ≠ ':' := by decide
  have hlen : ¬ ("Transfer".toList ++ ':' :: (qs ++ ':' :: (t ++ ':' :: dest))).length
      < MIN_TRANSFER_MSG_SIZE := by
    have := List.length_pos.mpr hq
    have := List.length_pos.mpr ht
    have := List.length_pos.mpr hdest
    have h8 : "Transfer".toList.length = 8 := by decide
    simp only [List.length_append, List.length_cons, h8, MIN_TRANSFER_MSG_SIZE]
    omega
  have hcount : count_symbol ("Transfer".toList ++ ':' :: (qs ++ ':' :: (t ++ ':' :: dest))) ':'
      = 3 := by
    rw [count_symbol_append, count_symbol_cons, count_symbol_append, count_symbol_cons,
      count_symbol_append, count_symbol_cons,
      count_symbol_absent _ ':' hcs, count_symbol_absent qs ':' hqc,
      count_symbol_absent t ':' htc, count_symbol_absent dest ':' hdc]
    simp
  unfold check_transfer_message
  rw [if_neg hlen, check_string_match_start, hcount]
  simp

theorem get?_at {α : Type} (pre post : List α) (x : α) :
    (pre ++ x :: post).get? pre.length = some x := by
  induction pre with
  | nil => rfl
  | cons r pre ih => simpa using ih

theorem fprintf_to_at (pre post : List DepotNode) (d : DepotNode) (w text : List Char)
    (hw : d.toStream = some w) :
    fprintf_to pre.length text (pre ++ d :: post)
      = .ok (pre ++ { d with toStream := some (w ++ text) } :: post) := by
  unfold fprintf_to
  rw [get?_at]
  simp only [hw, assign_at]

theorem transfer_tokens (qs t dest : List Char)
    (hq : qs ≠ []) (hqc : ∀ c ∈ qs, c ≠ ':')
    (ht : t ≠ []) (htc : ∀ c ∈ t, c ≠ ':')
    (hdest : dest ≠ []) (hdc : ∀ c ∈ dest, c ≠ ':') :
    let m := "Transfer".toList ++ ':' :: (qs ++ ':' :: (t ++ ':' :: dest))
    (strtok_r (strtok_r m [':']).2 [':']).1 = some qs
    ∧ (strtok_r (strtok_r (strtok_r m [':']).2 [':']).2 [':']).1 = some t
    ∧ (strtok_r (strtok_r (strtok_r (strtok_r m [':']).2 [':']).2 [':']).2 [':']).1
        = some dest := by
  have hcs : ∀ c ∈ "Transfer".toList, c ≠ ':' := by decide
  intro m
  have e1 : strtok_r m [':'] = (some "Transfer".toList, qs ++ ':' :: (t ++ ':' :: dest)) :=
    strtok_r_token "Transfer".toList _ (by decide) hcs
  have e2 := strtok_r_token qs (t ++ ':' :: dest) hq hqc
  have e3 := strtok_r_token t dest ht htc
  have e4 := strtok_r_last dest hdest hdc
  rw [e1]
  simp only [e2, e3, e4, and_self]

/-- Effect of a well-formed Transfer line whose destination is the peer `d`,
the first depot node named `dest`, given what the search in the resource list
does (`found`) . -/
theorem handle_transfer_sends (inv : List Resource) (dpre dpost : List DepotNode)
    (d : DepotNode) (w qs t dest : List Char) (fresh : Resource)
    (hq : qs ≠ []) (hqc : ∀ c ∈ qs, c ≠ ':')
    (ht : t ≠ []) (htc : ∀ c ∈ t, c ≠ ':')
    (hdest : dest ≠ []) (hdc : ∀ c ∈ dest, c ≠ ':')
    (hdpre : ∀ n ∈ dpre, n.name ≠ dest) (hd : d.name = dest) (hw : d.toStream = some w)
    (hinv : inv ≠ []) :
    handle_transfer_message ("Transfer:".toList ++ qs ++ ":".toList ++ t ++ ":".toList ++ dest)
        inv (dpre ++ d :: dpost) false fresh false
      = .ok
        (match search_list_by_name Resource.name t inv with
          | some i => assign (fun r => { r with quantity := toInt32 (r.quantity - atoi qs) }) i inv
          | none => inv ++ [⟨t, toInt32 (fresh.quantity - atoi qs)⟩],
         dpre ++ { d with toStream := some (w ++ ("Deliver:".toList ++ qs ++ ":".toList ++ t
            ++ "\n".toList)) } :: dpost,
         false) := by
  obtain ⟨k2, k3, k4⟩ := transfer_tokens qs t dest hq hqc ht htc hdest hdc
  have hdepots : dpre ++ d :: dpost ≠ [] := by simp
  rw [transfer_line]
  unfold handle_transfer_message
  rw [check_transfer_message_ok qs t dest hq hqc ht htc hdest hdc]
  simp only [Bool.not_true, Bool.false_eq_true, if_false]
  rw [k2, k3, k4]
  cases hinv' : inv with
  | nil => exact absurd hinv' hinv
  | cons r0 inv0 =>
    cases hdl : dpre ++ d :: dpost with
    | nil => exact absurd hdl hdepots
    | cons n0 ns =>
      simp only [search_list_by_pointer, deref]
      rw [← hdl, ← hinv', search_list_by_name_first DepotNode.name dest dpre dpost d hdpre hd]
      cases hs : search_list_by_name Resource.name t inv with
      | some i => simp only [fprintf_to_at dpre dpost d w _ hw]
      | none =>
        simp only [add_item_ok inv fresh hinv, assign_appended,
          fprintf_to_at dpre dpost d w _ hw]

/-! ## Lemmas on Execute and Defer -/

theorem search_deferrals_by_key_some (k : Int) (l : List Deferral) (i : Nat)
    (h : search_deferrals_by_key k l = some i) :
    ∃ pre d post, l = pre ++ d :: post ∧ i = pre.length ∧ d.key = k
      ∧ ∀ x ∈ pre, x.key ≠ k := by
  induction l generalizing i with
  | nil => simp [search_deferrals_by_key] at h
  | cons x l ih =>
    unfold search_deferrals_by_key at h
    by_cases hx : k = x.key
    · rw [if_pos hx] at h
      refine ⟨[], x, l, rfl, ?_, hx.symm, by simp⟩
      simpa using (Option.some.inj h).symm
    · rw [if_neg hx] at h
      cases hs : search_deferrals_by_key k l with
      | none => rw [hs] at h; simp at h
      | some j =>
        rw [hs] at h
        obtain ⟨pre, d, post, hl, hj, hd, hpre⟩ := ih j hs
        refine ⟨x :: pre, d, post, by rw [hl]; rfl, ?_, hd, ?_⟩
        · simp only [Option.map_some', Option.some.injEq] at h
          simp only [List.length_cons]
          omega
        · intro y hy
          rcases List.mem_cons.mp hy with e | e
          · rw [e]; exact fun hh => hx hh.symm
          · exact hpre y e

theorem search_deferrals_by_key_none (k : Int) (l : List Deferral)
    (h : search_deferrals_by_key k l = none) : ∀ x ∈ l, x.key ≠ k := by
  induction l with
  | nil => simp
  | cons x l ih =>
    unfold search_deferrals_by_key at h
    by_cases hx : k = x.key
    · rw [if_pos hx] at h; simp at h
    · rw [if_neg hx] at h
      have hs : search_deferrals_by_key k l = none := by
        cases hh : search_deferrals_by_key k l with
        | none => rfl
        | some j => rw [hh] at h; simp at h
      intro y hy
      rcases List.mem_cons.mp hy with e | e
      · rw [e]; exact fun hh => hx hh.symm
      · exact ih hs y e

theorem map_release_of_absent (k : Int) (l : List Deferral) (h : ∀ x ∈ l, x.key ≠ k) :
    l.map (fun d => if d.key = k then { d with executed := true, key := -1 } else d) = l := by
  induction l with
  | nil => rfl
  | cons x l ih =>
    have hx : x.key ≠ k := h x (List.mem_cons_self _ _)
    simp only [List.map_cons, if_neg hx, ih (fun y hy => h y (List.mem_cons_of_mem _ hy))]

theorem execute_loop_releases (k : Int) (hk : k ≠ -1) (fuel : Nat) (l : List Deferral)
    (hfuel : l.countP (fun d => decide (d.key = k)) < fuel) :
    execute_loop k fuel l
      = .ok (l.map (fun d => if d.key = k then { d with executed := true, key := -1 } else d)) := by
  induction fuel generalizing l with
  | zero => omega
  | succ fuel ih =>
    unfold execute_loop
    cases hs : search_deferrals_by_key k l with
    | none =>
      simp only
      rw [map_release_of_absent k l (search_deferrals_by_key_none k l hs)]
    | some i =>
      obtain ⟨pre, d, post, hl, hi, hd, hpre⟩ := search_deferrals_by_key_some k l i hs
      have hpre0 : pre.countP (fun d => decide (d.key = k)) = 0 := by
        rw [List.countP_eq_zero]
        intro x hx
        simpa using hpre x hx
      have hk' : ¬ ((-1 : Int) = k) := fun hh => hk hh.symm
      simp only
      rw [hl, hi, assign_at, ih]
      · simp only [List.map_append, List.map_cons, if_pos hd, if_neg hk']
      · rw [hl] at hfuel
        simp only [List.countP_append, List.countP_cons, hpre0, hd, decide_True, if_true,
          hk', decide_False, Bool.false_eq_true, if_false] at hfuel ⊢
        omega

theorem execute_line (ks : List Char) :
    "Execute:".toList ++ ks = "Execute".toList ++ ':' :: ks := by
  simp

theorem check_execute_message_ok (ks : List Char) (hq : ks ≠ [])
    (hd : ∀ c ∈ ks, '0' ≤ c ∧ c ≤ '9') (h2 : decimal ks ≤ 2147483647) :
    check_execute_message ("Execute".toList ++ ':' :: ks) = .ok true := by
  have hcs : ∀ c ∈ "Execute".toList, c ≠ ':' := by decide
  have hlen : ¬ ("Execute".toList ++ ':' :: ks).length < MIN_EXECUTE_MSG_SIZE := by
    have := List.length_pos.mpr hq
    have h7 : "Execute".toList.length = 7 := by decide
    simp only [List.length_append, List.length_cons, h7, MIN_EXECUTE_MSG_SIZE]
    omega
  have hatoi : ¬ atoi ks < 0 := by
    rw [atoi_digits ks hq hd h2]
    have : (0 : Int) ≤ (decimal ks : Nat) := Int.ofNat_nonneg _
    omega
  unfold check_execute_message
  rw [if_neg hlen, check_string_match_start, strtok_r_token "Execute".toList ks (by decide) hcs]
  simp only [strtok_r_last ks hq (digit_ne_colon ks hd), deref, is_a_number_digits ks hd,
    if_neg hatoi]
  simp

theorem handle_execute_message_releases (fuel : Nat) (ks : List Char) (l : List Deferral)
    (hq : ks ≠ []) (hd : ∀ c ∈ ks, '0' ≤ c ∧ c ≤ '9') (h2 : decimal ks ≤ 2147483647)
    (hfuel : l.countP (fun d => decide (d.key = (decimal ks : Int))) < fuel) :
    handle_execute_message fuel ("Execute:".toList ++ ks) l false
      = .ok (l.map (fun d => if d.key = (decimal ks : Int)
          then { d with executed := true, key := -1 } else d), false) := by
  have hcs : ∀ c ∈ "Execute".toList, c ≠ ':' := by decide
  have hk : ((decimal ks : Nat) : Int) ≠ -1 := by
    have : (0 : Int) ≤ (decimal ks : Nat) := Int.ofNat_nonneg _
    omega
  rw [execute_line]
  unfold handle_execute_message
  rw [check_execute_message_ok ks hq hd h2]
  simp only [Bool.false_eq_true, if_false]
  rw [strtok_r_token "Execute".toList ks (by decide) hcs]
  simp only [strtok_r_last ks hq (digit_ne_colon ks hd), deref, atoi_digits ks hq hd h2,
    execute_loop_releases _ hk fuel l hfuel]

theorem defer_line (ks op : List Char) :
    "Defer:".toList ++ ks ++ ":".toList ++ op = "Defer".toList ++ ':' :: (ks ++ ':' :: op) := by
  simp

theorem check_defer_message_ok (ks op : List Char) (hq : ks ≠ [])
    (hd : ∀ c ∈ ks, '0' ≤ c ∧ c ≤ '9') (h2 : decimal ks ≤ 2147483647) :
    check_defer_message ("Defer".toList ++ ':' :: (ks ++ ':' :: op)) = .ok true := by
  have hcs : ∀ c ∈ "Defer".toList, c ≠ ':' := by decide
  have hlen : ¬ ("Defer".toList ++ ':' :: (ks ++ ':' :: op)).length < MIN_DEFER_MSG_SIZE := by
    have := List.length_pos.mpr hq
    have h5 : "Defer".toList.length = 5 := by decide
    simp only [List.length_append, List.length_cons, h5, MIN_DEFER_MSG_SIZE]
    omega
  have hatoi : ¬ atoi ks < 0 := by
    rw [atoi_digits ks hq hd h2]
    have : (0 : Int) ≤ (decimal ks : Nat) := Int.ofNat_nonneg _
    omega
  unfold check_defer_message
  rw [if_neg hlen, check_string_match_start,
    strtok_r_token "Defer".toList (ks ++ ':' :: op) (by decide) hcs]
  simp only [strtok_r_token ks op hq (digit_ne_colon ks hd), deref, is_a_number_digits ks hd,
    if_neg hatoi]
  simp

theorem drop_defer_head (ks op : List Char) :
    ("Defer".toList ++ ':' :: (ks ++ ':' :: op)).drop (BLANK_DEFER_LENGTH + ks.length) = op := by
  have e : "Defer".toList ++ ':' :: (ks ++ ':' :: op)
      = ("Defer".toList ++ ':' :: (ks ++ [':'])) ++ op := by simp
  have hl : ("Defer".toList ++ ':' :: (ks ++ [':'])).length = BLANK_DEFER_LENGTH + ks.length := by
    have h5 : "Defer".toList.length = 5 := by decide
    simp only [List.length_append, List.length_cons, List.length_nil, h5, BLANK_DEFER_LENGTH]
    omega
  rw [e, ← hl, List.drop_left]

theorem handle_defer_message_appends (ks op : List Char) (c : ConnectionWrapper)
    (fresh : Deferral) (hq : ks ≠ []) (hd : ∀ c ∈ ks, '0' ≤ c ∧ c ≤ '9')
    (h2 : decimal ks ≤ 2147483647) (hl : c.firstDeferral ≠ []) (hlock : c.dataLock = false) :
    handle_defer_message ("Defer:".toList ++ ks ++ ":".toList ++ op) c fresh
      = .ok { c with
          firstDeferral := c.firstDeferral ++ [⟨"new".toList, some op, (decimal ks : Int), false⟩]
          dataLock := false
          created := c.created + 1 } := by
  have hcs : ∀ c ∈ "Defer".toList, c ≠ ':' := by decide
  have hlen : ¬ ("Defer".toList ++ ':' :: (ks ++ ':' :: op)).length
      < BLANK_DEFER_LENGTH + ks.length := by
    have h5 : "Defer".toList.length = 5 := by decide
    simp only [List.length_append, List.length_cons, h5, BLANK_DEFER_LENGTH]
    omega
  rw [defer_line]
  unfold handle_defer_message
  rw [check_defer_message_ok ks op hq hd h2]
  simp only
  rw [strtok_r_token "Defer".toList (ks ++ ':' :: op) (by decide) hcs]
  simp only [strtok_r_token ks op hq (digit_ne_colon ks hd), deref, if_neg hlen, hlock,
    Bool.false_eq_true, if_false, add_item_ok _ fresh hl, assign_appended, drop_defer_head,
    atoi_digits ks hq hd h2]

theorem assign_forall {α : Type} (P : α → Prop) (f : α → α) (hf : ∀ x, P x → P (f x))
    (i : Nat) (l : List α) (h : ∀ x ∈ l, P x) : ∀ x ∈ assign f i l, P x := by
  induction l generalizing i with
  | nil => intro x hx; simp [assign] at hx
  | cons y l ih =>
    cases i with
    | zero =>
      intro x hx
      simp only [assign, List.mem_cons] at hx
      rcases hx with e | e
      · rw [e]; exact hf y (h y (List.mem_cons_self _ _))
      · exact h x (List.mem_cons_of_mem _ e)
    | succ i =>
      intro x hx
      simp only [assign, List.mem_cons] at hx
      rcases hx with e | e
      · rw [e]; exact h y (List.mem_cons_self _ _)
      · exact ih i (fun z hz => h z (List.mem_cons_of_mem _ hz)) x e

theorem execute_loop_keeps (P : Deferral → Prop)
    (hP : ∀ d : Deferral, P { d with executed := true, key := -1 })
    (k : Int) (fuel : Nat) (l after : List Deferral) (h : ∀ d ∈ l, P d)
    (hrun : execute_loop k fuel l = .ok after) : ∀ d ∈ after, P d := by
  induction fuel generalizing l with
  | zero => simp [execute_loop] at hrun
  | succ fuel ih =>
    unfold execute_loop at hrun
    cases hs : search_deferrals_by_key k l with
    | none =>
      rw [hs] at hrun
      simp only [Except.ok.injEq] at hrun
      rw [← hrun]; exact h
    | some i =>
      rw [hs] at hrun
      exact ih _ (assign_forall P _ (fun d _ => hP d) i l h) hrun

theorem handle_execute_message_keeps (P : Deferral → Prop)
    (hP : ∀ d : Deferral, P { d with executed := true, key := -1 })
    (fuel : Nat) (message : List Char) (l after : List Deferral) (dataLock lock : Bool)
    (h : ∀ d ∈ l, P d)
    (hrun : handle_execute_message fuel message l dataLock = .ok (after, lock)) :
    ∀ d ∈ after, P d := by
  unfold handle_execute_message at hrun
  cases hchk : check_execute_message message with
  | error e => rw [hchk] at hrun; simp at hrun
  | ok b =>
    rw [hchk] at hrun
    cases b with
    | false =>
      simp only [Except.ok.injEq, Prod.mk.injEq] at hrun
      rw [← hrun.1]; exact h
    | true =>
      simp only at hrun
      cases hkey : deref (strtok_r (strtok_r message [':']).2 [':']).1 with
      | error e => rw [hkey] at hrun; simp at hrun
      | ok key =>
        rw [hkey] at hrun
        simp only at hrun
        cases dataLock with
        | true => simp at hrun
        | false =>
          simp only [Bool.false_eq_true, if_false] at hrun
          cases hloop : execute_loop (atoi key) fuel l with
          | error e => rw [hloop] at hrun; simp at hrun
          | ok list =>
            rw [hloop] at hrun
            simp only [Except.ok.injEq, Prod.mk.injEq] at hrun
            rw [← hrun.1]
            exact execute_loop_keeps P hP _ fuel l list h hloop

theorem check_defer_message_key (message : List Char)
    (h : check_defer_message message = .ok true) :
    ∃ key, deref (strtok_r (strtok_r message [':']).2 [':']).1 = .ok key ∧ 0 ≤ atoi key := by
  unfold check_defer_message at h
  split at h
  · simp at h
  · split at h
    · simp at h
    · simp only at h
      cases hkey : deref (strtok_r (strtok_r message [':']).2 [':']).1 with
      | error e => rw [hkey] at h; simp at h
      | ok key =>
        rw [hkey] at h
        simp only at h
        split at h
        · simp at h
        · split at h
          · simp at h
          · exact ⟨key, rfl, by omega⟩

theorem handle_defer_message_keeps (P : Deferral → Prop)
    (hP : ∀ (name : List Char) (op : Option (List Char)) (k : Int), 0 ≤ k →
      P ⟨name, op, k, false⟩)
    (message : List Char) (c after : ConnectionWrapper) (fresh : Deferral)
    (h : ∀ d ∈ c.firstDeferral, P d)
    (hrun : handle_defer_message message c fresh = .ok after) :
    ∀ d ∈ after.firstDeferral, P d := by
  unfold handle_defer_message at hrun
  cases hchk : check_defer_message message with
  | error e => rw [hchk] at hrun; simp at hrun
  | ok b =>
    rw [hchk] at hrun
    cases b with
    | false =>
      simp only [Except.ok.injEq] at hrun
      rw [← hrun]; exact h
    | true =>
      obtain ⟨key, hkey, hpos⟩ := check_defer_message_key message hchk
      simp only at hrun
      rw [hkey] at hrun
      simp only at hrun
      split at hrun
      · simp at hrun
      · cases hl : c.firstDeferral with
        | nil => rw [hl] at hrun; simp [add_item] at hrun
        | cons x l =>
          rw [add_item_ok _ fresh (by rw [hl]; simp)] at hrun
          simp only [assign_appended, Except.ok.injEq] at hrun
          rw [← hrun]
          intro d hd
          simp only [List.mem_append, List.mem_singleton] at hd
          rcases hd with e | e
          · exact h d e
          · rw [e]; exact hP _ _ _ hpos

theorem defer_thread_claim_keeps (P : Deferral → Prop)
    (hP : ∀ d : Deferral, P d → P { d with name := "ready".toList })
    (c after : ConnectionWrapper) (claimed : Option Nat)
    (h : ∀ d ∈ c.firstDeferral, P d)
    (hrun : defer_thread_claim c = .ok (after, claimed)) :
    ∀ d ∈ after.firstDeferral, P d := by
  unfold defer_thread_claim at hrun
  split at hrun
  · simp at hrun
  · split at hrun
    · simp only [Except.ok.injEq, Prod.mk.injEq] at hrun
      rw [← hrun.1]; exact h
    · simp only [Except.ok.injEq, Prod.mk.injEq] at hrun
      rw [← hrun.1]
      exact assign_forall P _ hP _ _ h

theorem defer_thread_dispatch_keeps (P : Deferral → Prop)
    (hP : ∀ (d : Deferral) (op : Option (List Char)), P d → P { d with operation := op })
    (deferral : Nat) (c after : ConnectionWrapper) (env : Env)
    (h : ∀ d ∈ c.firstDeferral, P d)
    (hrun : defer_thread_dispatch deferral c env = .ok after) :
    ∀ d ∈ after.firstDeferral, P d := by
  unfold defer_thread_dispatch at hrun
  split at hrun
  · simp at hrun
  · split at hrun
    · simp at hrun
    · simp only at hrun
      split at hrun
      · split at hrun
        · simp at hrun
        · simp only [Except.ok.injEq] at hrun
          rw [← hrun]
          exact assign_forall P _ (fun d hd => hP d _ hd) deferral c.firstDeferral h
      · split at hrun
        · split at hrun
          · simp at hrun
          · simp only [Except.ok.injEq] at hrun
            rw [← hrun]
            exact assign_forall P _ (fun d hd => hP d _ hd) deferral c.firstDeferral h
        · split at hrun
          · split at hrun
            · simp at hrun
            · simp only [Except.ok.injEq] at hrun
              rw [← hrun]
              exact assign_forall P _ (fun d hd => hP d _ hd) deferral c.firstDeferral h
          · simp only [Except.ok.injEq] at hrun
            rw [← hrun]
            exact h

/-! ## Lemmas on the handshake -/

theorem im_line (port name : List Char) :
    "IM:".toList ++ port ++ ":".toList ++ name = "IM".toList ++ ':' :: (port ++ ':' :: name) := by
  simp

theorem check_im_message_ok (port name : List Char)
    (hp : port ≠ []) (hd : ∀ c ∈ port, '0' ≤ c ∧ c ≤ '9')
    (hn : name ≠ []) (hc : ∀ c ∈ name, c ≠ ' ' ∧ c ≠ '\n' ∧ c ≠ '\r' ∧ c ≠ ':') :
    check_im_message ("IM".toList ++ ':' :: (port ++ ':' :: name)) = .ok true := by
  have hcs : ∀ c ∈ "IM".toList, c ≠ ':' := by decide
  have hlen : ¬ ("IM".toList ++ ':' :: (port ++ ':' :: name)).length < MIN_IM_MSG_SIZE := by
    have := List.length_pos.mpr hp
    have := List.length_pos.mpr hn
    have h2 : "IM".toList.length = 2 := by decide
    simp only [List.length_append, List.length_cons, h2, MIN_IM_MSG_SIZE]
    omega
  have hcount : count_symbol ("IM".toList ++ ':' :: (port ++ ':' :: name)) ':' = 2 := by
    rw [count_symbol_append, count_symbol_cons, count_symbol_append, count_symbol_cons,
      count_symbol_absent _ ':' hcs, count_symbol_absent port ':' (digit_ne_colon port hd),
      count_symbol_absent name ':' (fun c hmem => (hc c hmem).2.2.2)]
    simp
  unfold check_im_message
  rw [if_neg hlen, check_string_match_start, hcount,
    strtok_r_token "IM".toList _ (by decide) hcs]
  simp only [strtok_r_token port name hp (digit_ne_colon port hd),
    strtok_r_last name hn (fun c hmem => (hc c hmem).2.2.2), deref,
    is_a_number_digits port hd, check_characters_invalid name hc]
  simp

theorem handle_im_message_fills (port name : List Char) (c : ConnectionWrapper)
    (hp : port ≠ []) (hd : ∀ c ∈ port, '0' ≤ c ∧ c ≤ '9')
    (hn : name ≠ []) (hc : ∀ c ∈ name, c ≠ ' ' ∧ c ≠ '\n' ∧ c ≠ '\r' ∧ c ≠ ':')
    (hlock : c.dataLock = false) :
    handle_im_message ("IM:".toList ++ port ++ ":".toList ++ name) c
      = .ok (match search_list_by_name DepotNode.name "new".toList c.thisDepot with
          | none => { c with dataLock := false }
          | some i => { c with
              thisDepot := assign (fun n => { n with name := name, port := some port }) i
                c.thisDepot
              dataLock := false }, true) := by
  have hcs : ∀ c ∈ "IM".toList, c ≠ ':' := by decide
  rw [im_line]
  unfold handle_im_message
  rw [check_im_message_ok port name hp hd hn hc]
  simp only [hlock, Bool.false_eq_true, if_false]
  rw [strtok_r_token "IM".toList _ (by decide) hcs]
  simp only [strtok_r_token port name hp (digit_ne_colon port hd),
    strtok_r_last name hn (fun c hmem => (hc c hmem).2.2.2), deref]
  cases search_list_by_name DepotNode.name "new".toList c.thisDepot <;> rfl

theorem handle_im_message_keeps_head (message : List Char) (c after : ConnectionWrapper)
    (self : DepotNode) (peers : List DepotNode) (returned : Bool)
    (hlist : c.thisDepot = self :: peers) (hname : self.name ≠ "new".toList)
    (hrun : handle_im_message message c = .ok (after, returned)) :
    after.thisDepot.head? = some self := by
  unfold handle_im_message at hrun
  cases hchk : check_im_message message with
  | error e => rw [hchk] at hrun; simp at hrun
  | ok b =>
    rw [hchk] at hrun
    cases b with
    | false =>
      simp only [Except.ok.injEq, Prod.mk.injEq] at hrun
      rw [← hrun.1, hlist]; rfl
    | true =>
      simp only at hrun
      split at hrun
      · simp at hrun
      · rw [hlist] at hrun
        simp only [search_list_by_name, if_neg hname] at hrun
        cases hs : search_list_by_name DepotNode.name "new".toList peers with
        | none =>
          rw [hs] at hrun
          simp only [Option.map_none', Except.ok.injEq, Prod.mk.injEq] at hrun
          rw [← hrun.1]; rfl
        | some i =>
          rw [hs] at hrun
          simp only [Option.map_some'] at hrun
          split at hrun
          · simp at hrun
          · simp only [Except.ok.injEq, Prod.mk.injEq] at hrun
            rw [← hrun.1]
            rfl

/-! ## Lemmas on the queue -/

theorem holds_new_queue {α : Type} (memory : Int → α) : Holds (new_queue memory) [] := by
  unfold Holds new_queue
  simp

theorem write_queue_holds {α : Type} (q : Queue α) (l : List α) (x : α) (h : Holds q l) :
    (write_queue q x).2 = (fifo_push 50 l x).2
    ∧ Holds (write_queue q x).1 (fifo_push 50 l x).1 := by
  obtain ⟨hw0, hw1, hlen, hempty, hfull, hdata⟩ := h
  unfold write_queue fifo_push
  by_cases h50 : l.length = 50
  · have hne : l ≠ [] := by
      intro hl; rw [hl] at h50; simp at h50
    obtain ⟨hr0, hr1, hw⟩ := hfull hne
    have heq : q.writeEnd = q.readEnd := by rw [hw, h50]; omega
    rw [if_pos heq, if_pos h50]
    exact ⟨rfl, hw0, hw1, hlen, hempty, hfull, hdata⟩
  · rw [if_neg h50]
    have hlt : l.length < 50 := by omega
    by_cases hl : l = []
    · have hr : q.readEnd = -1 := hempty hl
      have hneq : ¬ q.writeEnd = q.readEnd := by omega
      rw [if_neg hneq]
      simp only [hr, if_true, hl, List.nil_append]
      rw [Int.tmod_eq_emod (by omega) (by decide)]
      refine ⟨trivial, ?_, ?_, ?_, ?_, ?_, ?_⟩
      · show 0 ≤ (q.writeEnd + 1) % QUEUE_CAPACITY
        unfold QUEUE_CAPACITY; omega
      · show (q.writeEnd + 1) % QUEUE_CAPACITY < 50
        unfold QUEUE_CAPACITY; omega
      · simp
      · intro hh; simp at hh
      · intro _
        refine ⟨hw0, hw1, ?_⟩
        show (q.writeEnd + 1) % QUEUE_CAPACITY = (q.writeEnd + ((1 : Nat) : Int)) % 50
        unfold QUEUE_CAPACITY; simp
      · intro i hi
        have hi0 : i = 0 := by simpa using hi
        subst hi0
        have hidx : (q.writeEnd + ((0 : Nat) : Int)) % 50 = q.writeEnd := by omega
        show [x].get? 0 = some (Function.update q.data q.writeEnd x
          ((q.writeEnd + ((0 : Nat) : Int)) % 50))
        rw [hidx]
        simp
    · obtain ⟨hr0, hr1, hw⟩ := hfull hl
      have hpos : 0 < l.length := List.length_pos.mpr hl
      have hneq : ¬ q.writeEnd = q.readEnd := by omega
      have hr : ¬ q.readEnd = -1 := by omega
      rw [if_neg hneq]
      simp only [if_neg hr]
      rw [Int.tmod_eq_emod (by omega) (by decide)]
      refine ⟨trivial, ?_, ?_, ?_, ?_, ?_, ?_⟩
      · show 0 ≤ (q.writeEnd + 1) % QUEUE_CAPACITY
        unfold QUEUE_CAPACITY; omega
      · show (q.writeEnd + 1) % QUEUE_CAPACITY < 50
        unfold QUEUE_CAPACITY; omega
      · simp only [List.length_append, List.length_singleton]; omega
      · intro hh; simp at hh
      · intro _
        refine ⟨hr0, hr1, ?_⟩
        show (q.writeEnd + 1) % QUEUE_CAPACITY
          = (q.readEnd + (((l ++ [x]).length : Nat) : Int)) % 50
        unfold QUEUE_CAPACITY
        simp only [List.length_append, List.length_singleton]
        push_cast
        omega
      · intro i hi
        show (l ++ [x]).get? i = some (Function.update q.data q.writeEnd x
          ((q.readEnd + (i : Int)) % 50))
        simp only [List.length_append, List.length_singleton] at hi
        by_cases hin : i < l.length
        · have hidx : (q.readEnd + (i : Int)) % 50 ≠ q.writeEnd := by omega
          rw [Function.update_noteq hidx, List.get?_eq_getElem?, List.getElem?_append_left hin,
            ← List.get?_eq_getElem?]
          exact hdata i hin
        · have hie : i = l.length := by omega
          have hidx : (q.readEnd + (i : Int)) % 50 = q.writeEnd := by rw [hie]; omega
          rw [hidx, Function.update_same, hie]
          simp

theorem read_queue_holds {α : Type} (q : Queue α) (l : List α) (h : Holds q l) :
    (read_queue q).2 = (fifo_pop l).2 ∧ Holds (read_queue q).1 (fifo_pop l).1 := by
  obtain ⟨hw0, hw1, hlen, hempty, hfull, hdata⟩ := h
  unfold read_queue fifo_pop
  cases l with
  | nil =>
    have hr : q.readEnd = -1 := hempty rfl
    rw [if_pos hr]
    exact ⟨rfl, hw0, hw1, hlen, hempty, hfull, hdata⟩
  | cons x l =>
    obtain ⟨hr0, hr1, hw⟩ := hfull (by simp)
    have hr : ¬ q.readEnd = -1 := by omega
    have h0 := hdata 0 (by simp)
    have hidx0 : (q.readEnd + ((0 : Nat) : Int)) % 50 = q.readEnd := by omega
    rw [hidx0] at h0
    simp only [List.get?_cons_zero, Option.some.injEq] at h0
    simp only [List.length_cons] at hw hlen
    push_cast at hw
    rw [if_neg hr]
    simp only
    rw [Int.tmod_eq_emod (by omega) (by decide)]
    refine ⟨by rw [h0], ?_⟩
    by_cases hl : l = []
    · have hlen0 : l.length = 0 := by rw [hl]; rfl
      have hmeet : (q.readEnd + 1) % QUEUE_CAPACITY = q.writeEnd := by
        unfold QUEUE_CAPACITY; rw [hw, hlen0]; simp
      rw [if_pos hmeet, hl]
      refine ⟨hw0, hw1, by simp, fun _ => rfl, fun hh => absurd rfl hh, ?_⟩
      intro i hi; simp at hi
    · have hpos : 0 < l.length := List.length_pos.mpr hl
      have hmeet : ¬ (q.readEnd + 1) % QUEUE_CAPACITY = q.writeEnd := by
        unfold QUEUE_CAPACITY; omega
      rw [if_neg hmeet]
      refine ⟨hw0, hw1, by omega, fun hh => absurd hh hl, ?_, ?_⟩
      · intro _
        refine ⟨?_, ?_, ?_⟩
        · show 0 ≤ (q.readEnd + 1) % QUEUE_CAPACITY
          unfold QUEUE_CAPACITY; omega
        · show (q.readEnd + 1) % QUEUE_CAPACITY < 50
          unfold QUEUE_CAPACITY; omega
        · show q.writeEnd = ((q.readEnd + 1) % QUEUE_CAPACITY + (l.length : Int)) % 50
          unfold QUEUE_CAPACITY; omega
      · intro i hi
        have h1 := hdata (i + 1) (by simp only [List.length_cons]; omega)
        have hidx : (q.readEnd + ((i + 1 : Nat) : Int)) % 50
            = ((q.readEnd + 1) % 50 + (i : Int)) % 50 := by
          push_cast; omega
        rw [hidx] at h1
        simpa [QUEUE_CAPACITY] using h1

theorem queue_calls_refine {α : Type} (calls : List (QueueCall α)) (q : Queue α) (l : List α)
    (h : Holds q l) :
    (queue_calls q calls).2 = (fifo_calls 50 l calls).2
    ∧ Holds (queue_calls q calls).1 (fifo_calls 50 l calls).1 := by
  induction calls generalizing q l with
  | nil => exact ⟨rfl, h⟩
  | cons call calls ih =>
    have hstep : (queue_call q call).2 = (fifo_call 50 l call).2
        ∧ Holds (queue_call q call).1 (fifo_call 50 l call).1 := by
      cases call with
      | write x =>
        have := write_queue_holds q l x h
        exact ⟨by simp only [queue_call, fifo_call, this.1], this.2⟩
      | read =>
        have := read_queue_holds q l h
        exact ⟨by simp only [queue_call, fifo_call, this.1], this.2⟩
    have hrest := ih _ _ hstep.2
    simp only [queue_calls, fifo_calls]
    exact ⟨by rw [hstep.1, hrest.1], hrest.2⟩

theorem fifo_calls_length {α : Type} (capacity : Nat) (calls : List (QueueCall α))
    (l : List α) :
    (((fifo_calls capacity l calls).1.length : Nat) : Int)
      = (l.length : Int) + unread (fifo_calls capacity l calls).2 := by
  induction calls generalizing l with
  | nil => simp [fifo_calls, unread]
  | cons call calls ih =>
    simp only [fifo_calls]
    rw [ih]
    cases call with
    | write x =>
      simp only [fifo_call, fifo_push]
      by_cases h : l.length = capacity
      · simp only [if_pos h, unread]
      · simp only [if_neg h, unread, List.length_append, List.length_singleton]
        push_cast
        omega
    | read =>
      cases l with
      | nil => simp only [fifo_call, fifo_pop, unread]
      | cons y l =>
        simp only [fifo_call, fifo_pop, unread, List.length_cons]
        push_cast
        omega

theorem fifo_writes {α : Type} (capacity : Nat) (xs : List α) (l : List α)
    (hl : l.length ≤ capacity) :
    (fifo_calls capacity l (xs.map QueueCall.write)).2
      = List.replicate (min xs.length (capacity - l.length)) (QueueResult.wrote true)
        ++ List.replicate (xs.length - (capacity - l.length)) (QueueResult.wrote false) := by
  induction xs generalizing l with
  | nil => simp [fifo_calls]
  | cons x xs ih =>
    simp only [List.map_cons, fifo_calls, fifo_call, fifo_push]
    by_cases h : l.length = capacity
    · simp only [if_pos h]
      rw [ih l hl, h]
      simp [List.replicate_succ]
    · simp only [if_neg h]
      have hlt : l.length < capacity := by omega
      rw [ih (l ++ [x]) (by simp only [List.length_append, List.length_singleton]; omega)]
      simp only [List.length_append, List.length_singleton, List.length_cons]
      have e1 : min (xs.length + 1) (capacity - l.length)
          = min xs.length (capacity - (l.length + 1)) + 1 := by omega
      have e2 : xs.length + 1 - (capacity - l.length)
          = xs.length - (capacity - (l.length + 1)) := by omega
      rw [e1, e2, List.replicate_succ]
      rfl

theorem fifo_reads {α : Type} (capacity : Nat) (l : List α) :
    (fifo_calls capacity l (List.replicate l.length QueueCall.read)).2
      = l.map (fun v => QueueResult.got (some v)) := by
  induction l with
  | nil => rfl
  | cons x l ih =>
    simp only [List.length_cons, List.replicate_succ, fifo_calls, fifo_call, fifo_pop,
      List.map_cons, ih]

theorem write_queue_refused {α : Type} (q : Queue α) (x : α)
    (h : (write_queue q x).2 = false) : (write_queue q x).1 = q := by
  unfold write_queue at h ⊢
  by_cases heq : q.writeEnd = q.readEnd
  · rw [if_pos heq]
  · rw [if_neg heq] at h
    simp at h

theorem read_queue_empty {α : Type} (q : Queue α)
    (h : (read_queue q).2 = none) : (read_queue q).1 = q := by
  unfold read_queue at h ⊢
  by_cases heq : q.readEnd = -1
  · rw [if_pos heq]
  · rw [if_neg heq] at h
    simp at h

/-! ## Lemmas on what the validators accept -/

theorem check_string_match_begins (string msg : List Char)
    (h : check_string_match string msg = true) : ∃ rest, msg = string ++ rest := by
  unfold check_string_match at h
  by_cases hlen : msg.length < string.length
  · rw [if_pos hlen] at h
    simp at h
  · rw [if_neg hlen, List.all_eq_true] at h
    refine ⟨msg.drop string.length, ?_⟩
    have htake : msg.take string.length = string := by
      apply List.ext_getElem?
      intro i
      rw [List.getElem?_take]
      by_cases hi : i < string.length
      · rw [if_pos hi]
        have := h i (List.mem_range.mpr hi)
        simpa using this
      · rw [if_neg hi]
        exact (List.getElem?_eq_none (by omega)).symm
    calc msg = msg.take string.length ++ msg.drop string.length :=
          (List.take_append_drop _ _).symm
      _ = string ++ msg.drop string.length := by rw [htake]

theorem check_im_message_word (m : List Char) (h : check_im_message m = .ok true) :
    check_string_match "IM".toList m = true ∧ count_symbol m ':' = 2 := by
  unfold check_im_message at h
  split at h
  · simp at h
  · split at h
    · simp at h
    · split at h
      · simp at h
      · rename_i _ hm hc
        exact ⟨by simpa using hm, by simpa using hc⟩

theorem check_connect_message_word (m : List Char) (h : check_connect_message m = .ok true) :
    check_string_match "Connect".toList m = true ∧ count_symbol m ':' = 1 := by
  unfold check_connect_message at h
  split at h
  · simp at h
  · split at h
    · simp at h
    · split at h
      · simp at h
      · rename_i _ hm hc
        exact ⟨by simpa using hm, by simpa using hc⟩

theorem check_deliver_withdraw_message_word (m word : List Char)
    (h : check_deliver_withdraw_message m word = .ok true) :
    check_string_match word m = true ∧ count_symbol m ':' = 2 := by
  unfold check_deliver_withdraw_message at h
  split at h
  · simp at h
  · split at h
    · simp at h
    · split at h
      · simp at h
      · rename_i _ hm hc
        exact ⟨by simpa using hm, by simpa using hc⟩

theorem check_transfer_message_word (m : List Char) (h : check_transfer_message m = true) :
    check_string_match "Transfer".toList m = true ∧ count_symbol m ':' = 3 := by
  unfold check_transfer_message at h
  split at h
  · simp at h
  · split at h
    · simp at h
    · split at h
      · simp at h
      · rename_i _ hm hc
        exact ⟨by simpa using hm, by simpa using hc⟩

theorem check_defer_message_word (m : List Char) (h : check_defer_message m = .ok true) :
    check_string_match "Defer".toList m = true := by
  unfold check_defer_message at h
  split at h
  · simp at h
  · split at h
    · simp at h
    · rename_i _ hm
      simpa using hm

theorem check_execute_message_word (m : List Char) (h : check_execute_message m = .ok true) :
    check_string_match "Execute".toList m = true := by
  unfold check_execute_message at h
  split at h
  · simp at h
  · split at h
    · simp at h
    · rename_i _ hm
      simpa using hm

/-! ## Lemmas on rejected Deliver and Withdraw lines -/

theorem count_symbol_zero (t : List Char) (symbol : Char) (h : count_symbol t symbol = 0) :
    ∀ c ∈ t, c ≠ symbol := by
  induction t with
  | nil => simp
  | cons x t ih =>
    rw [count_symbol_cons] at h
    by_cases hx : x = symbol
    · rw [if_pos hx] at h; omega
    · rw [if_neg hx] at h
      intro c hc
      rcases List.mem_cons.mp hc with e | e
      · rw [e]; exact hx
      · exact ih (by omega) c e

theorem strtok_r_skip (s : List Char) : strtok_r (':' :: s) [':'] = strtok_r s [':'] := by
  simp [strtok_r]

theorem is_a_number_false (q : List Char) (h : ∃ c ∈ q, ¬ ('0' ≤ c ∧ c ≤ '9')) :
    is_a_number q = false := by
  obtain ⟨c, hc, hbad⟩ := h
  cases hn : is_a_number q with
  | false => rfl
  | true =>
    unfold is_a_number at hn
    rw [List.all_eq_true] at hn
    have := hn c hc
    simp only [isdigit, Bool.and_eq_true, decide_eq_true_eq] at this
    exact absurd this hbad

theorem is_a_number_true (q : List Char) (h : is_a_number q = true) :
    ∀ c ∈ q, '0' ≤ c ∧ c ≤ '9' := by
  intro c hc
  unfold is_a_number at h
  rw [List.all_eq_true] at h
  have := h c hc
  simpa [isdigit] using this

theorem check_characters_false (t : List Char)
    (h : ∃ c ∈ t, c = ' ' ∨ c = '\n' ∨ c = '\r' ∨ c = ':') :
    check_characters t invalid = false := by
  obtain ⟨c, hc, hbad⟩ := h
  cases hn : check_characters t invalid with
  | false => rfl
  | true =>
    unfold check_characters invalid at hn
    rw [List.all_eq_true] at hn
    have := hn c hc
    simp only [List.all_cons, List.all_nil, Bool.and_true, Bool.and_eq_true, bne_iff_ne,
      ne_eq] at this
    obtain ⟨h1, h2, h3, h4⟩ := this
    rcases hbad with e | e | e | e
    · exact absurd e h1
    · exact absurd e h2
    · exact absurd e h3
    · exact absurd e h4

theorem check_deliver_withdraw_message_rejects (cs a q t : List Char)
    (hcs0 : cs ≠ []) (hcs : ∀ c ∈ cs, c ≠ ':')
    (ha : ∀ c ∈ a, c ≠ ':') (hq : ∀ c ∈ q, c ≠ ':')
    (hbad : (∃ c ∈ q, ¬ ('0' ≤ c ∧ c ≤ '9'))
      ∨ (q ≠ [] ∧ (∀ c ∈ q, '0' ≤ c ∧ c ≤ '9') ∧ decimal q = 0)
      ∨ (∃ c ∈ t, c = ' ' ∨ c = '\n' ∨ c = '\r' ∨ c = ':')) :
    check_deliver_withdraw_message (a ++ ':' :: (q ++ ':' :: t)) cs = .ok false := by
  unfold check_deliver_withdraw_message
  by_cases hlen : (a ++ ':' :: (q ++ ':' :: t)).length < cs.length + 4
  · rw [if_pos hlen]
  rw [if_neg hlen]
  by_cases hm : check_string_match cs (a ++ ':' :: (q ++ ':' :: t)) = true
  swap
  · simp [hm]
  by_cases hcount : count_symbol (a ++ ':' :: (q ++ ':' :: t)) ':' = 2
  swap
  · simp [hm, hcount]
  simp only [hm, hcount, Bool.not_true, Bool.false_eq_true, if_false, ne_eq, not_true_eq_false]
  -- the word is there, so the first field is not empty
  have ha0 : a ≠ [] := by
    intro hnil
    obtain ⟨rest, hrest⟩ := check_string_match_begins _ _ hm
    rw [hnil] at hrest
    cases cs with
    | nil => exact hcs0 rfl
    | cons x cs =>
      simp only [List.nil_append, List.cons_append, List.cons.injEq] at hrest
      exact hcs x (List.mem_cons_self _ _) hrest.1.symm
  -- two colons in all, so none in the last field
  have ht : ∀ c ∈ t, c ≠ ':' := by
    apply count_symbol_zero
    rw [count_symbol_append, count_symbol_cons, count_symbol_append, count_symbol_cons,
      count_symbol_absent a ':' ha, count_symbol_absent q ':' hq] at hcount
    simp only [if_true] at hcount
    omega
  rw [strtok_r_token a _ ha0 ha]
  simp only
  by_cases hq0 : q = []
  · -- the quantity field is empty: the second token is the last field
    have hbadt : ∃ c ∈ t, c = ' ' ∨ c = '\n' ∨ c = '\r' ∨ c = ':' := by
      rcases hbad with h | h | h
      · obtain ⟨c, hc, _⟩ := h; rw [hq0] at hc; simp at hc
      · exact absurd hq0 h.1
      · exact h
    obtain ⟨c, hc, hcbad⟩ := hbadt
    have ht0 : t ≠ [] := List.ne_nil_of_mem hc
    have hnd : ¬ ('0' ≤ c ∧ c ≤ '9') := by
      rcases hcbad with e | e | e | e <;> rw [e] <;> decide
    rw [hq0, List.nil_append, strtok_r_skip, strtok_r_last t ht0 ht]
    simp only [deref, is_a_number_false t ⟨c, hc, hnd⟩, Bool.not_false, if_true]
  · rw [strtok_r_token q t hq0 hq]
    simp only [deref]
    cases hnum : is_a_number q with
    | false => simp
    | true =>
      have hd := is_a_number_true q hnum
      simp only [Bool.not_true, Bool.false_eq_true, if_false]
      by_cases hatoi : atoi q ≤ 0
      · rw [if_pos hatoi]
      · rw [if_neg hatoi]
        rcases hbad with h | h | h
        · obtain ⟨c, hc, hcbad⟩ := h
          exact absurd (hd c hc) hcbad
        · exfalso
          apply hatoi
          rw [atoi_digits q hq0 hd (by omega), h.2.2]
          simp
        · obtain ⟨c, hc, hcbad⟩ := h
          have ht0 : t ≠ [] := List.ne_nil_of_mem hc
          rw [strtok_r_last t ht0 ht]
          simp only [check_characters_false t ⟨c, hc, hcbad⟩, Bool.not_false, if_true]

theorem handle_deliver_withdraw_message_ignores (a q t : List Char) (inv : List Resource)
    (dataLock : Bool) (fresh : Resource)
    (ha : ∀ c ∈ a, c ≠ ':') (hq : ∀ c ∈ q, c ≠ ':')
    (hbad : (∃ c ∈ q, ¬ ('0' ≤ c ∧ c ≤ '9'))
      ∨ (q ≠ [] ∧ (∀ c ∈ q, '0' ≤ c ∧ c ≤ '9') ∧ decimal q = 0)
      ∨ (∃ c ∈ t, c = ' ' ∨ c = '\n' ∨ c = '\r' ∨ c = ':')) :
    handle_deliver_withdraw_message (a ++ ':' :: (q ++ ':' :: t)) inv dataLock DELIVER fresh
      = .ok (inv, dataLock)
    ∧ handle_deliver_withdraw_message (a ++ ':' :: (q ++ ':' :: t)) inv dataLock WITHDRAW fresh
      = .ok (inv, dataLock) := by
  have hD := check_deliver_withdraw_message_rejects "Deliver".toList a q t (by decide)
    (by decide) ha hq hbad
  have hW := check_deliver_withdraw_message_rejects "Withdraw".toList a q t (by decide)
    (by decide) ha hq hbad
  have hcmd : ¬ WITHDRAW = DELIVER := by decide
  constructor
  · unfold handle_deliver_withdraw_message
    simp only [if_pos rfl, if_true]
    rw [hD]
  · unfold handle_deliver_withdraw_message
    simp only [if_neg hcmd]
    rw [hW]

/-! ## Lemmas on the command line -/

theorem check_characters_bad (t : List Char) (h : check_characters t invalid = false) :
    ∃ c ∈ t, c = ' ' ∨ c = '\n' ∨ c = '\r' ∨ c = ':' := by
  by_contra hno
  have hall : ∀ c ∈ t, c ≠ ' ' ∧ c ≠ '\n' ∧ c ≠ '\r' ∧ c ≠ ':' := by
    intro c hc
    refine ⟨?_, ?_, ?_, ?_⟩ <;> intro hbad <;> exact hno ⟨c, hc, by simp [hbad]⟩
  rw [check_characters_invalid t hall] at h
  exact Bool.noConfusion h

theorem spec_valid_name_eq (name : List Char) :
    spec_valid_name name = (decide (name ≠ []) && check_characters name invalid) := by
  have hall : ∀ l : List Char,
      l.all (fun c => c != ' ' && c != '\n' && c != '\r' && c != ':')
        = l.all (fun c => invalid.all (fun d => c != d)) := by
    intro l
    induction l with
    | nil => rfl
    | cons c l ih =>
      simp only [List.all_cons, ih]
      congr 1
      simp [invalid, Bool.and_assoc]
  unfold spec_valid_name check_characters
  rw [hall]

theorem spec_valid_quantity_eq (qty : List Char) :
    spec_valid_quantity qty = (decide (qty ≠ []) && is_a_number qty) := by
  rfl

theorem spec_valid_pairs_even :
    ∀ args : List (List Char), spec_valid_pairs args = true → args.length % 2 = 0
  | [], _ => rfl
  | [_], h => by simp [spec_valid_pairs] at h
  | _ :: _ :: rest, h => by
    have hrest : spec_valid_pairs rest = true := by
      simp only [spec_valid_pairs, Bool.and_eq_true] at h
      exact h.2
    have := spec_valid_pairs_even rest hrest
    simp only [List.length_cons]
    omega

theorem check_args_loop_accepts :
    ∀ (args : List (List Char)) (i : Nat), i % 2 = 0 → args.length % 2 = 0 →
      (check_args_loop i args = 0
        ↔ spec_valid_pairs args = true ∧ ∀ qty ∈ quantities args, 0 ≤ atoi qty)
  | [], _, _, _ => by simp [check_args_loop, spec_valid_pairs, quantities]
  | [_], _, _, hlen => by simp at hlen
  | good :: qty :: rest, i, hi, hlen => by
    have ih := check_args_loop_accepts rest (i + 1 + 1) (by omega)
      (by simp only [List.length_cons] at hlen; omega)
    have hi1 : ¬ (i + 1) % 2 = 0 := by omega
    have hname : NAME_ERR ≠ 0 := by decide
    have hqty : QUANTITY_ERR ≠ 0 := by decide
    simp only [check_args_loop, if_pos hi, if_neg hi1, spec_valid_pairs, spec_valid_name_eq,
      spec_valid_quantity_eq, quantities, List.mem_cons, forall_eq_or_imp]
    by_cases hg : good = []
    · simp [hg, hname]
    · cases hgc : check_characters good invalid with
      | false => simp [hg, hname]
      | true =>
        by_cases hq : qty = []
        · simp [hg, hq, hqty]
        · cases hqn : is_a_number qty with
          | false => simp [hg, hq, hqty]
          | true =>
            by_cases hneg : atoi qty < 0
            · have hno : ¬ 0 ≤ atoi qty := by omega
              simp [hg, hq, hneg, hno, hqty]
            · have hyes : 0 ≤ atoi qty := by omega
              simp [hg, hq, hneg, hyes, ih]

theorem check_args_loop_range :
    ∀ (args : List (List Char)) (i : Nat),
      check_args_loop i args = 0 ∨ check_args_loop i args = 2 ∨ check_args_loop i args = 3
  | [], _ => Or.inl rfl
  | arg :: args, i => by
    have ih := check_args_loop_range args (i + 1)
    simp only [check_args_loop]
    split
    · split
      · exact Or.inr (Or.inl rfl)
      · split
        · exact Or.inr (Or.inl rfl)
        · exact ih
    · split
      · exact Or.inr (Or.inr rfl)
      · split
        · exact Or.inr (Or.inr rfl)
        · split
          · exact Or.inr (Or.inr rfl)
          · exact ih

theorem check_args_loop_name_err :
    ∀ (args : List (List Char)) (i : Nat), check_args_loop i args = 2 →
      ∃ j, j < args.length ∧ (i + j) % 2 = 0
        ∧ (args.getD j [] = [] ∨ ∃ c ∈ args.getD j [], c = ' ' ∨ c = '\n' ∨ c = '\r' ∨ c = ':')
  | [], _, h => by simp [check_args_loop] at h
  | arg :: args, i, h => by
    have hq : QUANTITY_ERR ≠ 2 := by decide
    have step : check_args_loop (i + 1) args = 2 →
        ∃ j, j < (arg :: args).length ∧ (i + j) % 2 = 0
          ∧ ((arg :: args).getD j [] = []
            ∨ ∃ c ∈ (arg :: args).getD j [], c = ' ' ∨ c = '\n' ∨ c = '\r' ∨ c = ':') := by
      intro hrec
      obtain ⟨j, hj, hpar, hbad⟩ := check_args_loop_name_err args (i + 1) hrec
      refine ⟨j + 1, by simp only [List.length_cons]; omega, by omega, ?_⟩
      simpa using hbad
    simp only [check_args_loop] at h
    split at h
    · rename_i hi
      split at h
      · rename_i hempty
        exact ⟨0, by simp, by simpa using hi, Or.inl (by simpa using hempty)⟩
      · split at h
        · rename_i hchk
          have hfalse : check_characters arg invalid = false := by simpa using hchk
          exact ⟨0, by simp, by simpa using hi,
            Or.inr (by simpa using check_characters_bad arg hfalse)⟩
        · exact step h
    · split at h
      · exact absurd h hq
      · split at h
        · exact absurd h hq
        · split at h
          · exact absurd h hq
          · exact step h

/-! ## Lemmas on the display -/

theorem strcmp_total (a b : List Char) : strcmp a b ≤ 0 ∨ strcmp b a ≤ 0 := by
  induction a generalizing b with
  | nil => cases b <;> simp [strcmp]
  | cons x s ih =>
    cases b with
    | nil => right; simp [strcmp]
    | cons y t =>
      simp only [strcmp]
      by_cases hxy : x = y
      · subst hxy
        simpa using ih t
      · have hyx : ¬ y = x := fun h => hxy h.symm
        simp only [if_neg hxy, if_neg hyx]
        rcases lt_or_gt_of_ne hxy with h | h
        · left
          simp [h]
        · right
          simp [h]

theorem strcmp_trans (a b c : List Char) (hab : strcmp a b ≤ 0) (hbc : strcmp b c ≤ 0) :
    strcmp a c ≤ 0 := by
  induction a generalizing b c with
  | nil => cases c <;> simp [strcmp]
  | cons x s ih =>
    cases b with
    | nil => simp [strcmp] at hab
    | cons y t =>
      cases c with
      | nil => simp [strcmp] at hbc
      | cons z u =>
        simp only [strcmp] at hab hbc ⊢
        by_cases hxy : x = y
        · subst hxy
          rw [if_pos rfl] at hab
          by_cases hxz : x = z
          · subst hxz
            rw [if_pos rfl] at hbc ⊢
            exact ih t u hab hbc
          · rw [if_neg hxz] at hbc ⊢
            exact hbc
        · rw [if_neg hxy] at hab
          have hlt : x < y := by
            by_contra hno
            rw [if_neg hno] at hab
            exact absurd hab (by decide)
          by_cases hyz : y = z
          · subst hyz
            rw [if_neg hxy, if_pos hlt]
            decide
          · rw [if_neg hyz] at hbc
            have hlt2 : y < z := by
              by_contra hno
              rw [if_neg hno] at hbc
              exact absurd hbc (by decide)
            have hxz : x < z := lt_trans hlt hlt2
            rw [if_neg (ne_of_lt hxz), if_pos hxz]
            decide

instance string_compare_total : IsTotal (List Char) (fun a b => string_compare a b ≤ 0) :=
  ⟨strcmp_total⟩

instance string_compare_trans : IsTrans (List Char) (fun a b => string_compare a b ≤ 0) :=
  ⟨strcmp_trans⟩

theorem search_list_by_name_mem {α : Type} (name : α → List Char) (t : List Char)
    (l : List α) (h : ∃ r ∈ l, name r = t) :
    ∃ i, search_list_by_name name t l = some i ∧ i < l.length := by
  induction l with
  | nil =>
    obtain ⟨r, hr, _⟩ := h
    cases hr
  | cons x l ih =>
    by_cases hx : name x = t
    · exact ⟨0, by simp [search_list_by_name, hx], by simp⟩
    · obtain ⟨r, hr, hname⟩ := h
      have hrl : r ∈ l := by
        rcases List.mem_cons.mp hr with h | h
        · subst h
          exact absurd hname hx
        · exact h
      obtain ⟨i, hi, hlt⟩ := ih ⟨r, hrl, hname⟩
      exact ⟨i + 1, by simp [search_list_by_name, hx, hi], by simp only [List.length_cons]; omega⟩

theorem port_is_connected_set (port : List Char) (thisDepot : List DepotNode)
    (hset : ∀ node ∈ thisDepot, node.port ≠ none) :
    port_is_connected port thisDepot
      = .ok (decide (∃ node ∈ thisDepot, node.port = some port)) := by
  induction thisDepot with
  | nil => simp [port_is_connected]
  | cons node next ih =>
    have hnext := ih (fun n hn => hset n (List.mem_cons_of_mem _ hn))
    unfold port_is_connected
    cases hp : node.port with
    | none => exact absurd hp (hset node (List.mem_cons_self _ _))
    | some p =>
      simp only
      by_cases heq : p = port
      · rw [if_pos heq]
        simp [hp, heq]
      · rw [if_neg heq, hnext]
        simp [hp, heq]

theorem check_execute_message_key (message : List Char)
    (h : check_execute_message message = .ok true) :
    ∃ key, deref (strtok_r (strtok_r message [':']).2 [':']).1 = .ok key ∧ 0 ≤ atoi key := by
  unfold check_execute_message at h
  split at h
  · simp at h
  · split at h
    · simp at h
    · simp only at h
      cases hkey : deref (strtok_r (strtok_r message [':']).2 [':']).1 with
      | error e => rw [hkey] at h; simp at h
      | ok key =>
        rw [hkey] at h
        simp only at h
        split at h
        · simp at h
        · split at h
          · simp at h
          · exact ⟨key, rfl, by omega⟩

theorem execute_loop_exhausts (k : Int) (hk : k ≠ -1) (fuel : Nat) (l : List Deferral)
    (hfuel : fuel ≤ l.countP (fun d => decide (d.key = k))) :
    execute_loop k fuel l = .error .fuel := by
  induction fuel generalizing l with
  | zero => rfl
  | succ fuel ih =>
    unfold execute_loop
    cases hs : search_deferrals_by_key k l with
    | none =>
      have h0 : l.countP (fun d => decide (d.key = k)) = 0 := by
        rw [List.countP_eq_zero]
        intro x hx
        simpa using search_deferrals_by_key_none k l hs x hx
      omega
    | some i =>
      obtain ⟨pre, d, post, hl, hi, hd, hpre⟩ := search_deferrals_by_key_some k l i hs
      have hpre0 : pre.countP (fun d => decide (d.key = k)) = 0 := by
        rw [List.countP_eq_zero]
        intro x hx
        simpa using hpre x hx
      have hk' : ¬ ((-1 : Int) = k) := fun hh => hk hh.symm
      simp only
      rw [hl, hi, assign_at, ih]
      rw [hl] at hfuel
      simp only [List.countP_append, List.countP_cons, hpre0, hd, decide_True, if_true,
        hk', decide_False, Bool.false_eq_true, if_false] at hfuel ⊢
      omega

theorem execute_loop_never (fuel : Nat) (l : List Deferral) (h : ∃ d ∈ l, d.key = -1) :
    execute_loop (-1) fuel l = .error .fuel := by
  induction fuel generalizing l with
  | zero => rfl
  | succ fuel ih =>
    unfold execute_loop
    cases hs : search_deferrals_by_key (-1) l with
    | none =>
      obtain ⟨d, hd, hkey⟩ := h
      exact absurd hkey (search_deferrals_by_key_none (-1) l hs d hd)
    | some i =>
      obtain ⟨pre, d, post, hl, hi, _, _⟩ := search_deferrals_by_key_some (-1) l i hs
      simp only
      rw [hl, hi, assign_at]
      exact ih _ ⟨{ d with executed := true, key := -1 }, by simp, rfl⟩

/-! ## Lemmas on the channel -/

theorem reachable_channel_signal {α : Type} (memory : Int → α) (channel : Channel α)
    (h : ReachableChannel memory channel) :
    ∃ items, Holds channel.queue items ∧ items.length ≤ channel.signal := by
  induction h with
  | new => exact ⟨[], holds_new_queue memory, Nat.zero_le _⟩
  | write channel data _ ih =>
    obtain ⟨items, hholds, hlen⟩ := ih
    refine ⟨(fifo_push 50 items data).1, (write_queue_holds channel.queue items data hholds).2, ?_⟩
    simp only [write_channel]
    unfold fifo_push
    split
    · simp only
      omega
    · simp only [List.length_append, List.length_singleton]
      omega
  | read channel after out _ hrun ih =>
    obtain ⟨items, hholds, hlen⟩ := ih
    unfold read_channel at hrun
    split at hrun
    · simp at hrun
    · rename_i hsignal
      simp only [Except.ok.injEq, Prod.mk.injEq] at hrun
      rw [← hrun.1]
      refine ⟨(fifo_pop items).1, (read_queue_holds channel.queue items hholds).2, ?_⟩
      cases items with
      | nil => simp [fifo_pop]
      | cons x rest =>
        simp only [fifo_pop, List.length_cons] at hlen ⊢
        omega

theorem read_channel_returns {α : Type} (channel : Channel α) (items : List α)
    (hholds : Holds channel.queue items) (hsignal : 0 < channel.signal) :
    ∃ after, read_channel channel = .ok (after, items.head?) := by
  have hout : (read_queue channel.queue).2 = items.head? := by
    rw [(read_queue_holds channel.queue items hholds).1]
    cases items <;> rfl
  unfold read_channel
  rw [if_neg (by omega)]
  exact ⟨{ signal := channel.signal - 1, queue := (read_queue channel.queue).1 }, by
    simp only [hout]⟩

/-! ## Lemmas on the names of the inventory -/

theorem assign_names (f : Resource → Resource) (hf : ∀ r, (f r).name = r.name) (i : Nat)
    (l : List Resource) : (assign f i l).map Resource.name = l.map Resource.name := by
  induction l generalizing i with
  | nil => cases i <;> rfl
  | cons r l ih =>
    cases i with
    | zero => simp [assign, hf]
    | succ i => simp [assign, ih]

theorem assign_quantity_names (g : Resource → Int) (i : Nat) (l : List Resource) :
    (assign (fun r => { r with quantity := g r }) i l).map Resource.name
      = l.map Resource.name :=
  assign_names (fun r => { r with quantity := g r }) (fun _ => rfl) i l

theorem search_list_by_name_absent {α : Type} (name : α → List Char) (t : List Char)
    (l : List α) (h : search_list_by_name name t l = none) : t ∉ l.map name := by
  intro hmem
  obtain ⟨r, hr, hname⟩ := List.mem_map.mp hmem
  obtain ⟨i, hi, _⟩ := search_list_by_name_mem name t l ⟨r, hr, hname⟩
  rw [hi] at h
  exact Option.noConfusion h

theorem add_item_named (type : List Char) (inv list : List Resource) (fresh : Resource)
    (i : Nat) (h : add_item inv fresh = .ok (list, i)) :
    (assign (fun r => { r with name := type }) i list).map Resource.name
      = inv.map Resource.name ++ [type] := by
  cases inv with
  | nil => simp [add_item] at h
  | cons x inv =>
    simp only [add_item, Except.ok.injEq, Prod.mk.injEq] at h
    rw [← h.1, ← h.2, assign_appended]
    simp

theorem handle_deliver_withdraw_message_names (message : List Char) (inv after : List Resource)
    (dataLock lock : Bool) (command : Nat) (fresh : Resource)
    (h : handle_deliver_withdraw_message message inv dataLock command fresh = .ok (after, lock)) :
    after.map Resource.name = inv.map Resource.name
    ∨ ∃ type, type ∉ inv.map Resource.name
        ∧ after.map Resource.name = inv.map Resource.name ++ [type] := by
  unfold handle_deliver_withdraw_message at h
  simp only at h
  split at h
  · simp at h
  · simp only [Except.ok.injEq, Prod.mk.injEq] at h
    exact Or.inl (by rw [h.1])
  · split at h
    · simp at h
    · cases htype : deref (strtok_r (strtok_r (strtok_r message [':']).2 [':']).2 [':']).1 with
      | error e => rw [htype] at h; simp at h
      | ok type =>
        rw [htype] at h
        simp only at h
        cases hquantity : deref (strtok_r (strtok_r message [':']).2 [':']).1 with
        | error e =>
          rw [hquantity] at h
          split at h <;> simp_all
        | ok quantity =>
          rw [hquantity] at h
          cases hs : search_list_by_name Resource.name type inv with
          | some i =>
            rw [hs] at h
            simp only at h
            split at h
            · simp only [Except.ok.injEq, Prod.mk.injEq] at h
              exact Or.inl (by rw [← h.1]; exact assign_quantity_names _ _ _)
            · simp only [Except.ok.injEq, Prod.mk.injEq] at h
              exact Or.inl (by rw [← h.1]; exact assign_quantity_names _ _ _)
          | none =>
            rw [hs] at h
            cases hadd : add_item inv fresh with
            | error e => rw [hadd] at h; simp at h
            | ok added =>
              obtain ⟨list, i⟩ := added
              rw [hadd] at h
              simp only at h
              refine Or.inr ⟨type, search_list_by_name_absent _ _ _ hs, ?_⟩
              split at h
              · simp only [Except.ok.injEq, Prod.mk.injEq] at h
                rw [← h.1]
                exact (assign_quantity_names _ _ _).trans
                  (add_item_named type inv list fresh i hadd)
              · simp only [Except.ok.injEq, Prod.mk.injEq] at h
                rw [← h.1]
                exact (assign_quantity_names _ _ _).trans
                  (add_item_named type inv list fresh i hadd)

theorem search_list_by_pointer_none {α : Type} (name : α → List Char) (pointer : Option (List Char))
    (type : List Char) (l : List α) (hp : deref pointer = .ok type)
    (h : search_list_by_pointer name pointer l = .ok none) :
    search_list_by_name name type l = none := by
  cases pointer with
  | none => simp [deref] at hp
  | some s =>
    simp only [deref, Except.ok.injEq] at hp
    subst hp
    cases l with
    | nil => rfl
    | cons x l =>
      simp only [search_list_by_pointer, Except.ok.injEq] at h
      exact h

theorem handle_transfer_message_names (message : List Char) (inv after : List Resource)
    (thisDepot depots : List DepotNode) (dataLock lock : Bool) (fresh : Resource)
    (destIsName : Bool)
    (h : handle_transfer_message message inv thisDepot dataLock fresh destIsName
      = .ok (after, depots, lock)) :
    after.map Resource.name = inv.map Resource.name
    ∨ ∃ type, type ∉ inv.map Resource.name
        ∧ after.map Resource.name = inv.map Resource.name ++ [type] := by
  unfold handle_transfer_message at h
  simp only at h
  split at h
  · simp only [Except.ok.injEq, Prod.mk.injEq] at h
    exact Or.inl (by rw [h.1])
  · split at h
    · simp only [Except.ok.injEq, Prod.mk.injEq] at h
      exact Or.inl (by rw [h.1])
    · split at h
      · simp at h
      · split at h
        · simp at h
        · simp only [Except.ok.injEq, Prod.mk.injEq] at h
          exact Or.inl (by rw [h.1])
        · split at h
          · simp at h
          · simp at h
          · simp at h
          · rename_i searched type quantity hsearched htype hquantity
            cases searched with
            | some i =>
              simp only at h
              split at h
              · simp at h
              · simp only [Except.ok.injEq, Prod.mk.injEq] at h
                exact Or.inl (by rw [← h.1]; exact assign_quantity_names _ _ _)
            | none =>
              have habsent := search_list_by_pointer_none Resource.name _ type inv htype hsearched
              cases hadd : add_item inv fresh with
              | error e => rw [hadd] at h; simp at h
              | ok added =>
                obtain ⟨list, i⟩ := added
                rw [hadd] at h
                simp only at h
                split at h
                · simp at h
                · simp only [Except.ok.injEq, Prod.mk.injEq] at h
                  refine Or.inr ⟨type, search_list_by_name_absent _ _ _ habsent, ?_⟩
                  rw [← h.1]
                  exact (assign_quantity_names _ _ _).trans
                    (add_item_named type inv list fresh i hadd)

theorem names_step_distinct (before after : List (List Char)) (hdistinct : before.Nodup)
    (h : after = before ∨ ∃ type, type ∉ before ∧ after = before ++ [type]) :
    after.Nodup ∧ before <+: after ∧ after.length ≤ before.length + 1 := by
  rcases h with h | ⟨type, habsent, h⟩
  · rw [h]
    exact ⟨hdistinct, List.prefix_refl _, Nat.le_succ _⟩
  · rw [h]
    refine ⟨?_, List.prefix_append _ _, by simp⟩
    rw [List.nodup_append]
    refine ⟨hdistinct, List.nodup_singleton _, ?_⟩
    intro a ha hb
    rw [List.mem_singleton] at hb
    rw [hb] at ha
    exact habsent ha

/-- A second `Execute:k` handled by `handle_messages` directly after the first
one returns the state the first one returned (`0 ≤ k ≤ 2^31 - 1`, lock free). -/
theorem handle_messages_execute_twice (fuel : Nat) (ks : List Char) (c : ConnectionWrapper)
    (env : Env)
    (hq : ks ≠ []) (hd : ∀ c ∈ ks, '0' ≤ c ∧ c ≤ '9') (h2 : decimal ks ≤ 2147483647)
    (hlock : c.dataLock = false)
    (hfuel : c.firstDeferral.countP (fun d => decide (d.key = (decimal ks : Int))) < fuel) :
    ∃ c1, handle_messages fuel ("Execute:".toList ++ ks) c env = .ok c1
      ∧ handle_messages fuel ("Execute:".toList ++ ks) c1 env = .ok c1 := by
  have hk : ¬ ((-1 : Int) = (decimal ks : Nat)) := by
    have : (0 : Int) ≤ (decimal ks : Nat) := Int.ofNat_nonneg _
    omega
  have hE : first_letter ("Execute:".toList ++ ks) = 'E' := rfl
  have hmsg : ∀ c' : ConnectionWrapper, c'.dataLock = false →
      c'.firstDeferral.countP (fun d => decide (d.key = (decimal ks : Int))) < fuel →
      handle_messages fuel ("Execute:".toList ++ ks) c' env
        = .ok { c' with
            firstDeferral := c'.firstDeferral.map (fun d => if d.key = (decimal ks : Int)
              then { d with executed := true, key := -1 } else d)
            dataLock := false } := by
    intro c' hl hf
    unfold handle_messages
    simp only [hE]
    rw [hl, handle_execute_message_releases fuel ks _ hq hd h2 hf]
    have hC : ¬ ('E' = 'C') := by decide
    have hD : ¬ ('E' = 'D') := by decide
    have hW : ¬ ('E' = 'W') := by decide
    have hT : ¬ ('E' = 'T') := by decide
    simp only [if_neg hC, if_neg hD, if_neg hW, if_neg hT, if_true]
  refine ⟨_, hmsg c hlock hfuel, ?_⟩
  have hnone : ∀ x ∈ c.firstDeferral.map (fun d => if d.key = (decimal ks : Int)
      then { d with executed := true, key := -1 } else d), x.key ≠ (decimal ks : Int) := by
    intro d hmem
    obtain ⟨x, _, hx⟩ := List.mem_map.mp hmem
    by_cases hxk : x.key = (decimal ks : Int)
    · rw [if_pos hxk] at hx
      rw [← hx]
      exact hk
    · rw [if_neg hxk] at hx
      rw [← hx]
      exact hxk
  have hcount : (c.firstDeferral.map (fun d => if d.key = (decimal ks : Int)
      then { d with executed := true, key := -1 } else d)).countP
        (fun d => decide (d.key = (decimal ks : Int))) < fuel := by
    have h0 : (c.firstDeferral.map (fun d => if d.key = (decimal ks : Int)
        then { d with executed := true, key := -1 } else d)).countP
          (fun d => decide (d.key = (decimal ks : Int))) = 0 := by
      rw [List.countP_eq_zero]
      intro x hx
      simpa using hnone x hx
    omega
  rw [hmsg _ rfl hcount]
  simp only [map_release_of_absent _ _ hnone]


/-! ## Theorems -/

/-- C1: when the inventory holds an entry named `t` (the first one, with quantity
`v`), the line `Deliver:q:t` with `1 ≤ q ≤ 2^31 - 1` and a valid name `t` sets
that entry to `v + q` and `Withdraw:q:t` sets it to `v - q`, in `int` arithmetic
and without any stock check; all the other entries stay as they are and the lock
is released.  The `int` result is the exact sum or difference whenever that
value is representable, which covers every withdrawal from a stock `v ≥ 0`. -/
theorem deliver_withdraw_existing_entry (pre post : List Resource) (v : Int)
    (qs t : List Char) (fresh : Resource)
    (hq : qs ≠ []) (hd : ∀ c ∈ qs, '0' ≤ c ∧ c ≤ '9')
    (h1 : 1 ≤ decimal qs) (h2 : decimal qs ≤ 2147483647)
    (ht : t ≠ []) (hc : ∀ c ∈ t, c ≠ ' ' ∧ c ≠ '\n' ∧ c ≠ '\r' ∧ c ≠ ':')
    (hpre : ∀ r ∈ pre, r.name ≠ t) :
    handle_deliver_withdraw_message ("Deliver:".toList ++ qs ++ ":".toList ++ t)
        (pre ++ ⟨t, v⟩ :: post) false DELIVER fresh
      = .ok (pre ++ ⟨t, toInt32 (v + decimal qs)⟩ :: post, false)
    ∧ handle_deliver_withdraw_message ("Withdraw:".toList ++ qs ++ ":".toList ++ t)
        (pre ++ ⟨t, v⟩ :: post) false WITHDRAW fresh
      = .ok (pre ++ ⟨t, toInt32 (v - decimal qs)⟩ :: post, false)
    ∧ (-2147483648 ≤ v + decimal qs → v + decimal qs ≤ 2147483647 →
        toInt32 (v + decimal qs) = v + decimal qs)
    ∧ (-2147483648 ≤ v - decimal qs → v - decimal qs ≤ 2147483647 →
        toInt32 (v - decimal qs) = v - decimal qs)
    ∧ (0 ≤ v → v ≤ 2147483647 → toInt32 (v - decimal qs) = v - decimal qs) := by
  refine ⟨handle_deliver_found pre post v qs t fresh hq hd h1 h2 ht hc hpre,
    handle_withdraw_found pre post v qs t fresh hq hd h1 h2 ht hc hpre,
    fun ha hb => toInt32_of_range _ ha hb, fun ha hb => toInt32_of_range _ ha hb, ?_⟩
  intro ha hb
  have h3 : ((decimal qs : Nat) : Int) ≤ 2147483647 := by exact_mod_cast h2
  have h4 : (0 : Int) ≤ (decimal qs : Nat) := Int.ofNat_nonneg _
  exact toInt32_of_range _ (by omega) (by omega)

/-- Witness of C1: stock `apple 3`, lines `Deliver:5:apple` and `Withdraw:5:apple`. -/
theorem deliver_withdraw_existing_entry_witness :
    handle_deliver_withdraw_message "Deliver:5:apple".toList
        [⟨"XXXX".toList, 0⟩, ⟨"apple".toList, 3⟩] false DELIVER ⟨[], 0⟩
      = .ok ([⟨"XXXX".toList, 0⟩, ⟨"apple".toList, 8⟩], false)
    ∧ handle_deliver_withdraw_message "Withdraw:5:apple".toList
        [⟨"XXXX".toList, 0⟩, ⟨"apple".toList, 3⟩] false WITHDRAW ⟨[], 0⟩
      = .ok ([⟨"XXXX".toList, 0⟩, ⟨"apple".toList, -2⟩], false) := by
  have h := deliver_withdraw_existing_entry [⟨"XXXX".toList, 0⟩] [] 3 "5".toList
    "apple".toList ⟨[], 0⟩ (by decide) (by decide) (by decide) (by decide) (by decide)
    (by decide) (by decide)
  exact ⟨by simpa [decimal, toInt32] using h.1, by simpa [decimal, toInt32] using h.2.1⟩


/-- C2: for `depot A` (inventory `XXXX 0`) the line `Deliver:4:banana` appends one
entry named `banana` whose quantity is 4 added to whatever the allocated node
held: 11 when the quantity bytes of the block held 7, and 4 only when they held
0.  `Withdraw:4:banana` likewise gives 3 instead of -4. -/
theorem deliver_new_entry_reads_unassigned_quantity :
    handle_deliver_withdraw_message "Deliver:4:banana".toList [⟨"XXXX".toList, 0⟩] false
        DELIVER ⟨[], 7⟩
      = .ok ([⟨"XXXX".toList, 0⟩, ⟨"banana".toList, 11⟩], false)
    ∧ handle_deliver_withdraw_message "Withdraw:4:banana".toList [⟨"XXXX".toList, 0⟩] false
        WITHDRAW ⟨[], 7⟩
      = .ok ([⟨"XXXX".toList, 0⟩, ⟨"banana".toList, 3⟩], false)
    ∧ handle_deliver_withdraw_message "Deliver:4:banana".toList [⟨"XXXX".toList, 0⟩] false
        DELIVER ⟨[], 0⟩
      = .ok ([⟨"XXXX".toList, 0⟩, ⟨"banana".toList, 4⟩], false) := by
  decide

/-- Counterexample to C3: depot `A` with `apple 10` and the peer `B` receives
`Transfer:3000000000:apple:B`, whose quantity is a positive decimal integer.
`atoi` converts it to -1294967296, so the quantity of `apple` is raised to
1294967306 and not lowered by 3000000000; with a quantity of twenty digits it
is raised by 1. -/
theorem transfer_of_large_quantity_raises_stock :
    handle_transfer_message "Transfer:3000000000:apple:B".toList
        [⟨"XXXX".toList, 0⟩, ⟨"apple".toList, 10⟩]
        [⟨"A".toList, some "40000".toList, none⟩, ⟨"B".toList, some "40001".toList, some []⟩]
        false ⟨[], 0⟩ false
      = .ok ([⟨"XXXX".toList, 0⟩, ⟨"apple".toList, 1294967306⟩],
        [⟨"A".toList, some "40000".toList, none⟩,
          ⟨"B".toList, some "40001".toList, some "Deliver:3000000000:apple\n".toList⟩],
        false)
    ∧ handle_transfer_message "Transfer:99999999999999999999:apple:B".toList
        [⟨"XXXX".toList, 0⟩, ⟨"apple".toList, 10⟩]
        [⟨"A".toList, some "40000".toList, none⟩, ⟨"B".toList, some "40001".toList, some []⟩]
        false ⟨[], 0⟩ false
      = .ok ([⟨"XXXX".toList, 0⟩, ⟨"apple".toList, 11⟩],
        [⟨"A".toList, some "40000".toList, none⟩,
          ⟨"B".toList, some "40001".toList,
            some "Deliver:99999999999999999999:apple\n".toList⟩],
        false) := by
  decide

/-- C3 as amended: a well-formed line `Transfer:q:t:D` whose `q` is at most
`2^31 - 1`, so that it fits in an `int` (`t` and `D` valid names), and whose `D`
names a peer after the head and differs from the head's name (so that the
pointer comparison with the own name is false) takes `q` from the quantity of
`t` once, in `int` arithmetic: the first entry named `t` goes from `v` to
`v - q`, and when there is none an entry `t` is appended whose allocated
quantity field is lowered by `q`.  The first peer named `D` receives the one
line `Deliver:q:t` on its stream, every other node of the depot list is as
before, and the lock is released. -/
theorem transfer_to_known_peer (inv : List Resource) (self d : DepotNode)
    (before after : List DepotNode) (w qs t dest : List Char) (fresh : Resource)
    (hq : qs ≠ []) (hd : ∀ c ∈ qs, '0' ≤ c ∧ c ≤ '9') (h2 : decimal qs ≤ 2147483647)
    (ht : t ≠ []) (hc : ∀ c ∈ t, c ≠ ' ' ∧ c ≠ '\n' ∧ c ≠ '\r' ∧ c ≠ ':')
    (hdest : dest ≠ []) (hdc : ∀ c ∈ dest, c ≠ ' ' ∧ c ≠ '\n' ∧ c ≠ '\r' ∧ c ≠ ':')
    (hself : self.name ≠ dest) (hbefore : ∀ n ∈ before, n.name ≠ dest)
    (hname : d.name = dest) (hw : d.toStream = some w) :
    (∀ (rpre rpost : List Resource) (v : Int),
      inv = rpre ++ ⟨t, v⟩ :: rpost → (∀ r ∈ rpre, r.name ≠ t) →
      handle_transfer_message
          ("Transfer:".toList ++ qs ++ ":".toList ++ t ++ ":".toList ++ dest)
          inv (self :: before ++ d :: after) false fresh false
        = .ok (rpre ++ ⟨t, toInt32 (v - decimal qs)⟩ :: rpost,
          self :: before ++ { d with toStream := some (w ++ ("Deliver:".toList ++ qs
            ++ ":".toList ++ t ++ "\n".toList)) } :: after,
          false))
    ∧ (inv ≠ [] → (∀ r ∈ inv, r.name ≠ t) →
      handle_transfer_message
          ("Transfer:".toList ++ qs ++ ":".toList ++ t ++ ":".toList ++ dest)
          inv (self :: before ++ d :: after) false fresh false
        = .ok (inv ++ [⟨t, toInt32 (fresh.quantity - decimal qs)⟩],
          self :: before ++ { d with toStream := some (w ++ ("Deliver:".toList ++ qs
            ++ ":".toList ++ t ++ "\n".toList)) } :: after,
          false)) := by
  have hpre : ∀ n ∈ self :: before, n.name ≠ dest := by
    intro n hn
    rcases List.mem_cons.mp hn with h | h
    · rw [h]; exact hself
    · exact hbefore n h
  have key := fun (hinv : inv ≠ []) =>
    handle_transfer_sends inv (self :: before) after d w qs t dest fresh hq
      (digit_ne_colon qs hd) ht (fun c hmem => (hc c hmem).2.2.2) hdest
      (fun c hmem => (hdc c hmem).2.2.2) hpre hname hw hinv
  rw [atoi_digits qs hq hd h2] at key
  constructor
  · intro rpre rpost v hinv hrpre
    have hne : inv ≠ [] := by rw [hinv]; simp
    rw [key hne, hinv,
      search_list_by_name_first Resource.name t rpre rpost ⟨t, v⟩ hrpre rfl]
    simp only [assign_at]
  · intro hne habs
    rw [key hne, search_list_by_name_none Resource.name t inv habs]

/-- Witness of C3 as amended: depot `A` with `apple 10` and the peer `B`; the line
`Transfer:3:apple:B` leaves `apple 7` and writes `Deliver:3:apple` to `B`. -/
theorem transfer_to_known_peer_witness :
    handle_transfer_message "Transfer:3:apple:B".toList
        [⟨"XXXX".toList, 0⟩, ⟨"apple".toList, 10⟩]
        [⟨"A".toList, some "40000".toList, none⟩,
          ⟨"B".toList, some "40001".toList, some "IM:40000:A\n".toList⟩]
        false ⟨[], 0⟩ false
      = .ok ([⟨"XXXX".toList, 0⟩, ⟨"apple".toList, 7⟩],
        [⟨"A".toList, some "40000".toList, none⟩,
          ⟨"B".toList, some "40001".toList, some "IM:40000:A\nDeliver:3:apple\n".toList⟩],
        false) := by
  have h := (transfer_to_known_peer [⟨"XXXX".toList, 0⟩, ⟨"apple".toList, 10⟩]
    ⟨"A".toList, some "40000".toList, none⟩
    ⟨"B".toList, some "40001".toList, some "IM:40000:A\n".toList⟩ [] []
    "IM:40000:A\n".toList "3".toList "apple".toList "B".toList ⟨[], 0⟩
    (by decide) (by decide) (by decide) (by decide) (by decide) (by decide)
    (by decide) (by decide) (by decide) rfl rfl).1 [⟨"XXXX".toList, 0⟩] [] 10 rfl (by decide)
  simpa [decimal, toInt32] using h

/-- C4: depot `A` receives `Transfer:3:apple:A`.  The destination is a pointer
into the line, so it is never the pointer `thisDepot->name` and the test for a
transfer to self is false; the search then finds the head node itself, whose
stream was never assigned, and the call runs into undefined behaviour where it
had to return without doing anything.  (Were the head's stream open, `apple`
would go to -3 and a Deliver line would be written to it.)  The call returns
with nothing changed only if the two pointers are the same. -/
theorem transfer_to_own_name_is_not_ignored :
    handle_transfer_message "Transfer:3:apple:A".toList [⟨"XXXX".toList, 0⟩]
        [⟨"A".toList, some "40000".toList, none⟩] false ⟨[], 0⟩ false
      = .error .undefined
    ∧ handle_transfer_message "Transfer:3:apple:A".toList [⟨"XXXX".toList, 0⟩]
        [⟨"A".toList, some "40000".toList, some []⟩] false ⟨[], 0⟩ false
      = .ok ([⟨"XXXX".toList, 0⟩, ⟨"apple".toList, -3⟩],
          [⟨"A".toList, some "40000".toList, some "Deliver:3:apple\n".toList⟩], false)
    ∧ handle_transfer_message "Transfer:3:apple:A".toList [⟨"XXXX".toList, 0⟩]
        [⟨"A".toList, some "40000".toList, none⟩] false ⟨[], 0⟩ true
      = .ok ([⟨"XXXX".toList, 0⟩], [⟨"A".toList, some "40000".toList, none⟩], false) := by
  decide

/-- C5: depot `A`, which knows no depot `B`, receives `Transfer:3:apple:B`.  The
lists are unchanged and nothing is written, but the call returns with
`dataLock` held, and the next handler then waits for the lock for ever. -/
theorem transfer_to_unknown_depot_keeps_lock :
    handle_transfer_message "Transfer:3:apple:B".toList [⟨"XXXX".toList, 0⟩]
        [⟨"A".toList, some "40000".toList, none⟩] false ⟨[], 0⟩ false
      = .ok ([⟨"XXXX".toList, 0⟩], [⟨"A".toList, some "40000".toList, none⟩], true)
    ∧ handle_deliver_withdraw_message "Deliver:4:banana".toList [⟨"XXXX".toList, 0⟩] true
        DELIVER ⟨[], 0⟩
      = .error .hang := by
  decide

/-- C6: for a key `k` with `0 ≤ k ≤ 2^31 - 1` (written with any number of leading
zeros, `k = 0` included) and a free lock, `Execute:k` returns once the loop may
run more often than there are deferrals with key `k`; afterwards every deferral
whose key was `k` has `executed = true` and key -1, every other deferral (the
head with key -1 among them) is as before, and no deferral has key `k`. -/
theorem execute_releases_every_match (fuel : Nat) (ks : List Char) (l : List Deferral)
    (hq : ks ≠ []) (hd : ∀ c ∈ ks, '0' ≤ c ∧ c ≤ '9') (h2 : decimal ks ≤ 2147483647)
    (hfuel : l.countP (fun d => decide (d.key = (decimal ks : Int))) < fuel) :
    ∃ l', handle_execute_message fuel ("Execute:".toList ++ ks) l false = .ok (l', false)
      ∧ l' = l.map (fun d => if d.key = (decimal ks : Int)
          then { d with executed := true, key := -1 } else d)
      ∧ ∀ d ∈ l', d.key ≠ (decimal ks : Int) := by
  refine ⟨_, handle_execute_message_releases fuel ks l hq hd h2 hfuel, rfl, ?_⟩
  intro d hmem
  have hk : ¬ ((-1 : Int) = (decimal ks : Nat)) := by
    have : (0 : Int) ≤ (decimal ks : Nat) := Int.ofNat_nonneg _
    omega
  obtain ⟨x, _, hx⟩ := List.mem_map.mp hmem
  by_cases hxk : x.key = (decimal ks : Int)
  · rw [if_pos hxk] at hx
    rw [← hx]
    exact hk
  · rw [if_neg hxk] at hx
    rw [← hx]
    exact hxk

/-- Witness of C6: `Execute:0` on a table with the head and three deferrals. -/
theorem execute_releases_every_match_witness :
    ∃ l', handle_execute_message 3 "Execute:0".toList
        [⟨"first".toList, none, -1, true⟩, ⟨"ready".toList, some "Deliver:1:x".toList, 0, false⟩,
          ⟨"ready".toList, some "Deliver:2:x".toList, 8, false⟩,
          ⟨"ready".toList, some "Deliver:3:x".toList, 0, false⟩] false = .ok (l', false)
      ∧ l' = [⟨"first".toList, none, -1, true⟩, ⟨"ready".toList, some "Deliver:1:x".toList, -1, true⟩,
          ⟨"ready".toList, some "Deliver:2:x".toList, 8, false⟩,
          ⟨"ready".toList, some "Deliver:3:x".toList, -1, true⟩]
      ∧ ∀ d ∈ l', d.key ≠ 0 := by
  obtain ⟨l', h1, h2, h3⟩ := execute_releases_every_match 3 "0".toList
    [⟨"first".toList, none, -1, true⟩, ⟨"ready".toList, some "Deliver:1:x".toList, 0, false⟩,
      ⟨"ready".toList, some "Deliver:2:x".toList, 8, false⟩,
      ⟨"ready".toList, some "Deliver:3:x".toList, 0, false⟩] (by decide) (by decide) (by decide)
    (by decide)
  refine ⟨l', h1, ?_, ?_⟩
  · rw [h2]; decide
  · simpa [decimal] using h3

/-- C7: scenario e handled by `depot A` under the sequential schedule, when the
block `malloc` returns for the new entry `x` holds 7 in its quantity field
(`add_item` does not assign it, and the first released `Deliver:1:x` adds 1 to
it): `x` stands at 10 after the first and after the second `Execute:7` and at
110 after `Execute:8`, where the specification has 3 and 103; 3 and 103 are
what the same lines give when that field holds 0. -/
theorem scenario_e_counts_from_unassigned_quantity :
    Except.map (fun p => p.connection.firstResource)
        (receive_all 3 { zero_filled with freshResource := ⟨[], 7⟩ }
          (started ["depot".toList, "A".toList] "40000".toList)
          ["Defer:7:Deliver:1:x".toList, "Defer:7:Deliver:2:x".toList,
            "Defer:8:Deliver:100:x".toList, "Execute:7".toList])
        = .ok [⟨"XXXX".toList, 0⟩, ⟨"x".toList, 10⟩]
    ∧ Except.map (fun p => p.connection.firstResource)
        (receive_all 3 { zero_filled with freshResource := ⟨[], 7⟩ }
          (started ["depot".toList, "A".toList] "40000".toList)
          ["Defer:7:Deliver:1:x".toList, "Defer:7:Deliver:2:x".toList,
            "Defer:8:Deliver:100:x".toList, "Execute:7".toList, "Execute:7".toList])
        = .ok [⟨"XXXX".toList, 0⟩, ⟨"x".toList, 10⟩]
    ∧ Except.map (fun p => p.connection.firstResource)
        (receive_all 3 { zero_filled with freshResource := ⟨[], 7⟩ }
          (started ["depot".toList, "A".toList] "40000".toList)
          ["Defer:7:Deliver:1:x".toList, "Defer:7:Deliver:2:x".toList,
            "Defer:8:Deliver:100:x".toList, "Execute:7".toList, "Execute:7".toList,
            "Execute:8".toList])
        = .ok [⟨"XXXX".toList, 0⟩, ⟨"x".toList, 110⟩]
    ∧ Except.map (fun p => p.connection.firstResource)
        (receive_all 3 zero_filled (started ["depot".toList, "A".toList] "40000".toList)
          ["Defer:7:Deliver:1:x".toList, "Defer:7:Deliver:2:x".toList,
            "Defer:8:Deliver:100:x".toList, "Execute:7".toList, "Execute:7".toList,
            "Execute:8".toList])
        = .ok [⟨"XXXX".toList, 0⟩, ⟨"x".toList, 103⟩] := by
  decide

/-- C8: in every deferral table that can arise from the table `set_args` builds
(head with key -1 and `executed = true`) by `handle_defer_message`,
`handle_execute_message`, the renaming done by a starting `defer_thread` and
the dispatch done by a released one, a deferral has `executed = true` exactly when its key is -1; hence a search for
a key `k ≥ 0` only ever returns a deferral whose `executed` is still false, so
that the loop of Execute never releases a deferral a second time. -/
theorem executed_iff_key_consumed (l : List Deferral) (h : ReachableDeferrals l) :
    (∀ d ∈ l, d.executed = true ↔ d.key = -1)
    ∧ ∀ (k : Int) (i : Nat), 0 ≤ k → search_deferrals_by_key k l = some i →
        ∃ d, l.get? i = some d ∧ d.key = k ∧ d.executed = false := by
  have inv : ∀ d ∈ l, d.executed = true ↔ d.key = -1 := by
    induction h with
    | init argv thisDepot firstResource firstDeferral fresh =>
      intro d hd
      unfold set_args at hd
      split at hd <;> simp only [List.mem_singleton] at hd <;> rw [hd] <;> simp
    | defer message connection after fresh _ hrun ih =>
      refine handle_defer_message_keeps (fun d => d.executed = true ↔ d.key = -1) ?_
        message connection after fresh ih hrun
      intro name op k hk
      simp only [Bool.false_eq_true, false_iff]
      omega
    | execute fuel message firstDeferral after dataLock lock _ hrun ih =>
      exact handle_execute_message_keeps (fun d => d.executed = true ↔ d.key = -1)
        (fun d => by simp) fuel message firstDeferral after dataLock lock ih hrun
    | claim connection after claimed _ hrun ih =>
      exact defer_thread_claim_keeps (fun d => d.executed = true ↔ d.key = -1)
        (fun d hd => hd) connection after claimed ih hrun
    | dispatch deferral connection after env _ hrun ih =>
      exact defer_thread_dispatch_keeps (fun d => d.executed = true ↔ d.key = -1)
        (fun d op hd => hd) deferral connection after env ih hrun
  refine ⟨inv, ?_⟩
  intro k i hk hs
  obtain ⟨pre, d, post, hl, hi, hd, _⟩ := search_deferrals_by_key_some k l i hs
  refine ⟨d, by rw [hl, hi, get?_at], hd, ?_⟩
  have hmem : d ∈ l := by rw [hl]; simp
  have hiff := inv d hmem
  cases he : d.executed with
  | false => rfl
  | true =>
    have := hiff.mp he
    omega

/-- Witness of C8: the table of `depot A` after `Defer:7:Deliver:1:x`. -/
theorem executed_iff_key_consumed_witness :
    (∀ d ∈ [(⟨"first".toList, none, -1, true⟩ : Deferral),
        ⟨"new".toList, some "Deliver:1:x".toList, 7, false⟩], d.executed = true ↔ d.key = -1)
    ∧ ∀ (k : Int) (i : Nat), 0 ≤ k →
        search_deferrals_by_key k [(⟨"first".toList, none, -1, true⟩ : Deferral),
          ⟨"new".toList, some "Deliver:1:x".toList, 7, false⟩] = some i →
        ∃ d, [(⟨"first".toList, none, -1, true⟩ : Deferral),
          ⟨"new".toList, some "Deliver:1:x".toList, 7, false⟩].get? i = some d ∧ d.key = k
          ∧ d.executed = false :=
  executed_iff_key_consumed _
    (ReachableDeferrals.defer "Defer:7:Deliver:1:x".toList
      ⟨[⟨"A".toList, none, none⟩], [⟨"XXXX".toList, 0⟩], [⟨"first".toList, none, -1, true⟩],
        false, 0⟩
      ⟨[⟨"A".toList, none, none⟩], [⟨"XXXX".toList, 0⟩], [⟨"first".toList, none, -1, true⟩,
        ⟨"new".toList, some "Deliver:1:x".toList, 7, false⟩], false, 1⟩
      ⟨[], none, 0, false⟩
      (ReachableDeferrals.init ["depot".toList, "A".toList] ⟨[], none, none⟩ ⟨[], 0⟩
        ⟨[], none, 0, false⟩ ⟨[], 0⟩)
      (by decide))

/-- C9: a line that consists of `Defer:`, a key `k` of one or more digits with
value at most `2^31 - 1`, a colon and any text `op` (empty, with colons, or not
a message at all) makes `handle_defer_message`, called with the lock free on a
table that has its head, append one deferral named `new` with that key,
`executed = false` and `op` itself as operation; the table is otherwise as
before, the lock is released and one `defer_thread` is created. -/
theorem defer_appends_one_deferral (ks op : List Char) (c : ConnectionWrapper)
    (fresh : Deferral) (hq : ks ≠ []) (hd : ∀ c ∈ ks, '0' ≤ c ∧ c ≤ '9')
    (h2 : decimal ks ≤ 2147483647) (hl : c.firstDeferral ≠ []) (hlock : c.dataLock = false) :
    handle_defer_message ("Defer:".toList ++ ks ++ ":".toList ++ op) c fresh
      = .ok { thisDepot := c.thisDepot
              firstResource := c.firstResource
              firstDeferral :=
                c.firstDeferral ++ [⟨"new".toList, some op, (decimal ks : Int), false⟩]
              dataLock := false
              created := c.created + 1 } :=
  handle_defer_message_appends ks op c fresh hq hd h2 hl hlock

/-- Witness of C9: `Defer:7:` followed by text that is no message. -/
theorem defer_appends_one_deferral_witness :
    handle_defer_message "Defer:7:no:such:message".toList
        ⟨[⟨"A".toList, none, none⟩], [⟨"XXXX".toList, 0⟩], [⟨"first".toList, none, -1, true⟩],
          false, 0⟩ ⟨[], none, 0, false⟩
      = .ok ⟨[⟨"A".toList, none, none⟩], [⟨"XXXX".toList, 0⟩],
          [⟨"first".toList, none, -1, true⟩,
            ⟨"new".toList, some "no:such:message".toList, 7, false⟩],
          false, 1⟩ := by
  have h := defer_appends_one_deferral "7".toList "no:such:message".toList
    ⟨[⟨"A".toList, none, none⟩], [⟨"XXXX".toList, 0⟩], [⟨"first".toList, none, -1, true⟩],
      false, 0⟩ ⟨[], none, 0, false⟩ (by decide) (by decide) (by decide) (by decide) rfl
  simpa [decimal] using h

/-- Counterexample to C10: a released deferral that holds `Execute:7` changes
nothing, whereas `Execute:7` received as a line releases the deferral with key
7; a released deferral that holds `Deliver:1:x` adds 1 to `x` and is left with
the operation `Deliver`, whereas the line `Deliver:1:x` leaves the deferrals as
they are, and is dropped when a byte other than NUL follows the three bytes
copied for the comparison with `Del`. -/
theorem dispatch_differs_from_inbound_line :
    defer_thread_dispatch 1
        ⟨[⟨"A".toList, some "40000".toList, none⟩], [⟨"XXXX".toList, 0⟩],
          [⟨"first".toList, none, -1, true⟩, ⟨"ready".toList, some "Execute:7".toList, -1, true⟩,
            ⟨"ready".toList, some "Deliver:1:x".toList, 7, false⟩], false, 0⟩ zero_filled
      = .ok ⟨[⟨"A".toList, some "40000".toList, none⟩], [⟨"XXXX".toList, 0⟩],
          [⟨"first".toList, none, -1, true⟩, ⟨"ready".toList, some "Execute:7".toList, -1, true⟩,
            ⟨"ready".toList, some "Deliver:1:x".toList, 7, false⟩], false, 0⟩
    ∧ handle_messages 3 "Execute:7".toList
        ⟨[⟨"A".toList, some "40000".toList, none⟩], [⟨"XXXX".toList, 0⟩],
          [⟨"first".toList, none, -1, true⟩, ⟨"ready".toList, some "Execute:7".toList, -1, true⟩,
            ⟨"ready".toList, some "Deliver:1:x".toList, 7, false⟩], false, 0⟩ zero_filled
      = .ok ⟨[⟨"A".toList, some "40000".toList, none⟩], [⟨"XXXX".toList, 0⟩],
          [⟨"first".toList, none, -1, true⟩, ⟨"ready".toList, some "Execute:7".toList, -1, true⟩,
            ⟨"ready".toList, some "Deliver:1:x".toList, -1, true⟩], false, 0⟩
    ∧ defer_thread_dispatch 1
        ⟨[⟨"A".toList, some "40000".toList, none⟩], [⟨"XXXX".toList, 0⟩],
          [⟨"first".toList, none, -1, true⟩,
            ⟨"ready".toList, some "Deliver:1:x".toList, -1, true⟩], false, 0⟩ zero_filled
      = .ok ⟨[⟨"A".toList, some "40000".toList, none⟩],
          [⟨"XXXX".toList, 0⟩, ⟨"x".toList, 1⟩],
          [⟨"first".toList, none, -1, true⟩,
            ⟨"ready".toList, some "Deliver".toList, -1, true⟩], false, 0⟩
    ∧ handle_messages 3 "Deliver:1:x".toList
        ⟨[⟨"A".toList, some "40000".toList, none⟩], [⟨"XXXX".toList, 0⟩],
          [⟨"first".toList, none, -1, true⟩,
            ⟨"ready".toList, some "Deliver:1:x".toList, -1, true⟩], false, 0⟩ zero_filled
      = .ok ⟨[⟨"A".toList, some "40000".toList, none⟩],
          [⟨"XXXX".toList, 0⟩, ⟨"x".toList, 1⟩],
          [⟨"first".toList, none, -1, true⟩,
            ⟨"ready".toList, some "Deliver:1:x".toList, -1, true⟩], false, 0⟩
    ∧ handle_messages 3 "Deliver:1:x".toList
        ⟨[⟨"A".toList, some "40000".toList, none⟩], [⟨"XXXX".toList, 0⟩],
          [⟨"first".toList, none, -1, true⟩,
            ⟨"ready".toList, some "Deliver:1:x".toList, -1, true⟩], false, 0⟩
        { zero_filled with blockTail := "x".toList }
      = .ok ⟨[⟨"A".toList, some "40000".toList, none⟩], [⟨"XXXX".toList, 0⟩],
          [⟨"first".toList, none, -1, true⟩,
            ⟨"ready".toList, some "Deliver:1:x".toList, -1, true⟩], false, 0⟩ := by
  decide

/-- C10 as amended: for a released deferral that holds the operation `op`, the
dispatch by `defer_thread` returns what `handle_messages` returns for the line
`op`, with the operation of the deferral replaced by what the handler leaves of
the string (cut at its first colon when `op` passes the validation), in three
cases: `op` begins with `W`; `op` begins with `T`; `op` begins with `Del` and
NUL follows the three bytes `handle_messages` copies.  For an operation that
begins with none of `D`, `W`, `T` the dispatch changes nothing. -/
theorem dispatch_agrees_with_inbound_line (fuel : Nat) (op : List Char) (deferral : Nat)
    (node : Deferral) (c : ConnectionWrapper) (env : Env)
    (hnode : c.firstDeferral.get? deferral = some node) (hop : node.operation = some op) :
    (first_letter op = 'W' →
      defer_thread_dispatch deferral c env
        = (handle_messages fuel op c env).map (fun after => { after with
            firstDeferral := assign (fun d => { d with
              operation := some (deliver_withdraw_line_after op WITHDRAW) })
              deferral after.firstDeferral }))
    ∧ (first_letter op = 'T' →
      defer_thread_dispatch deferral c env
        = (handle_messages fuel op c env).map (fun after => { after with
            firstDeferral := assign (fun d => { d with
              operation := some (transfer_line_after op) })
              deferral after.firstDeferral }))
    ∧ (op.take 3 = "Del".toList → env.blockTail = [] →
      defer_thread_dispatch deferral c env
        = (handle_messages fuel op c env).map (fun after => { after with
            firstDeferral := assign (fun d => { d with
              operation := some (deliver_withdraw_line_after op DELIVER) })
              deferral after.firstDeferral }))
    ∧ (first_letter op ≠ 'D' → first_letter op ≠ 'W' → first_letter op ≠ 'T' →
      defer_thread_dispatch deferral c env = .ok c) := by
  have hWC : ¬ ('W' = 'C') := by decide
  have hWD : ¬ ('W' = 'D') := by decide
  have hTC : ¬ ('T' = 'C') := by decide
  have hTD : ¬ ('T' = 'D') := by decide
  have hTW : ¬ ('T' = 'W') := by decide
  have hDC : ¬ ('D' = 'C') := by decide
  refine ⟨?_, ?_, ?_, ?_⟩
  · intro hW
    unfold defer_thread_dispatch handle_messages
    simp only [hnode, hop, deref, hW, if_neg hWC, if_neg hWD, if_true]
    cases handle_deliver_withdraw_message op c.firstResource c.dataLock WITHDRAW
        env.freshResource with
    | error e => rfl
    | ok result => rfl
  · intro hT
    unfold defer_thread_dispatch handle_messages
    simp only [hnode, hop, deref, hT, if_neg hTC, if_neg hTD, if_neg hTW, if_true]
    cases handle_transfer_message op c.firstResource c.thisDepot c.dataLock
        env.freshResource env.destIsName with
    | error e => rfl
    | ok result => rfl
  · intro hDel htail
    have hD : first_letter op = 'D' := by
      cases op with
      | nil => simp at hDel
      | cons x rest =>
        have hx : x = 'D' := by
          cases rest with
          | nil => simp at hDel
          | cons y rest =>
            have := congrArg List.head? hDel
            simpa using this
        rw [hx]
        rfl
    have hlen : ¬ op.length < 3 := by
      have := congrArg List.length hDel
      simp only [List.length_take] at this
      have h3 : "Del".toList.length = 3 := by decide
      omega
    have hcmp : strcmp ("Del".toList ++ []) "Del".toList = 0 := by decide
    unfold defer_thread_dispatch handle_messages
    simp only [hnode, hop, deref, hD, if_neg hDC, if_true, if_neg hlen, hDel, htail, hcmp]
    cases handle_deliver_withdraw_message op c.firstResource c.dataLock DELIVER
        env.freshResource with
    | error e => rfl
    | ok result => rfl
  · intro hD hW hT
    unfold defer_thread_dispatch
    simp only [hnode, hop, deref, if_neg hD, if_neg hW, if_neg hT]

/-- Witness of C10 as amended: the released deferral holds `Withdraw:1:x`. -/
theorem dispatch_agrees_with_inbound_line_witness :
    defer_thread_dispatch 1
        ⟨[⟨"A".toList, some "40000".toList, none⟩], [⟨"XXXX".toList, 0⟩, ⟨"x".toList, 5⟩],
          [⟨"first".toList, none, -1, true⟩,
            ⟨"ready".toList, some "Withdraw:1:x".toList, -1, true⟩], false, 0⟩ zero_filled
      = .ok ⟨[⟨"A".toList, some "40000".toList, none⟩],
          [⟨"XXXX".toList, 0⟩, ⟨"x".toList, 4⟩],
          [⟨"first".toList, none, -1, true⟩,
            ⟨"ready".toList, some "Withdraw".toList, -1, true⟩], false, 0⟩ := by
  have h := (dispatch_agrees_with_inbound_line 3 "Withdraw:1:x".toList 1
    ⟨"ready".toList, some "Withdraw:1:x".toList, -1, true⟩
    ⟨[⟨"A".toList, some "40000".toList, none⟩], [⟨"XXXX".toList, 0⟩, ⟨"x".toList, 5⟩],
      [⟨"first".toList, none, -1, true⟩,
        ⟨"ready".toList, some "Withdraw:1:x".toList, -1, true⟩], false, 0⟩ zero_filled
    rfl rfl).1 (by decide)
  rw [h]
  decide

/-- C11: when `check_im_message` rejects the first line that the action worker
takes from the channel, the worker handles none of the lines that follow: the
depot data after `action_thread` (inventory, depot list with its streams,
deferrals, lock) are the data before it, whatever those lines are. -/
theorem rejected_handshake_silences_peer (fuel : Nat) (string : List Char)
    (rest : List (List Char)) (c : ConnectionWrapper) (env : Env)
    (h : check_im_message string = .ok false) :
    action_thread fuel (string :: rest) c env = .ok c := by
  have him : handle_im_message string c = .ok (c, false) := by
    unfold handle_im_message
    simp only [h]
  unfold action_thread
  simp only [him, Bool.false_eq_true, if_false]

/-- Witness of C11: the first line is `Hello`, followed by Deliver and Defer lines. -/
theorem rejected_handshake_silences_peer_witness :
    action_thread 3 ["Hello".toList, "Deliver:99:x".toList, "Defer:1:Deliver:1:x".toList]
        ⟨[⟨"A".toList, some "40000".toList, none⟩,
            ⟨"new".toList, none, some "IM:40000:A\n".toList⟩],
          [⟨"XXXX".toList, 0⟩], [⟨"first".toList, none, -1, true⟩], false, 0⟩ zero_filled
      = .ok ⟨[⟨"A".toList, some "40000".toList, none⟩,
            ⟨"new".toList, none, some "IM:40000:A\n".toList⟩],
          [⟨"XXXX".toList, 0⟩], [⟨"first".toList, none, -1, true⟩], false, 0⟩ :=
  rejected_handshake_silences_peer 3 "Hello".toList _ _ zero_filled (by decide)

/-- Counterexample to C12: with two nodes named `new` in the depot list, the
line `IM:40001:B` names the first of them, the one added earlier, and leaves
the last one, the most recently added, as it is. -/
theorem handshake_does_not_fill_last_placeholder :
    handle_im_message "IM:40001:B".toList
        ⟨[⟨"A".toList, some "40000".toList, none⟩, ⟨"new".toList, none, some "x".toList⟩,
            ⟨"new".toList, none, some "y".toList⟩], [], [], false, 0⟩
      = .ok (⟨[⟨"A".toList, some "40000".toList, none⟩,
            ⟨"B".toList, some "40001".toList, some "x".toList⟩,
            ⟨"new".toList, none, some "y".toList⟩], [], [], false, 0⟩, true)
    ∧ handle_im_message "IM:40001:B".toList
        ⟨[⟨"A".toList, some "40000".toList, none⟩, ⟨"new".toList, none, some "x".toList⟩,
            ⟨"new".toList, none, some "y".toList⟩], [], [], false, 0⟩
      ≠ .ok (⟨[⟨"A".toList, some "40000".toList, none⟩,
            ⟨"new".toList, none, some "x".toList⟩,
            ⟨"B".toList, some "40001".toList, some "y".toList⟩], [], [], false, 0⟩, true) := by
  decide

/-- C12 as amended: a valid line `IM:port:name` (port one or more digits, name
valid), handled with the lock free, gives `name` and `port` to the first node
of the depot list that is named `new` and leaves every other node and the rest
of the depot data as they are; when no node is named `new` nothing changes.
The call returns true in both cases. -/
theorem handshake_fills_first_placeholder (port name : List Char) (c : ConnectionWrapper)
    (hp : port ≠ []) (hd : ∀ c ∈ port, '0' ≤ c ∧ c ≤ '9')
    (hn : name ≠ []) (hc : ∀ c ∈ name, c ≠ ' ' ∧ c ≠ '\n' ∧ c ≠ '\r' ∧ c ≠ ':')
    (hlock : c.dataLock = false) :
    (∀ (pre post : List DepotNode) (d : DepotNode),
      c.thisDepot = pre ++ d :: post → (∀ n ∈ pre, n.name ≠ "new".toList) →
      d.name = "new".toList →
      handle_im_message ("IM:".toList ++ port ++ ":".toList ++ name) c
        = .ok ({ c with thisDepot := pre ++ { d with name := name, port := some port } :: post },
            true))
    ∧ ((∀ n ∈ c.thisDepot, n.name ≠ "new".toList) →
      handle_im_message ("IM:".toList ++ port ++ ":".toList ++ name) c = .ok (c, true)) := by
  have key := handle_im_message_fills port name c hp hd hn hc hlock
  have hc' : ({ c with dataLock := false } : ConnectionWrapper) = c := by
    cases c; simp only at hlock; simp [hlock]
  constructor
  · intro pre post d hl hpre hname
    rw [key, hl, search_list_by_name_first DepotNode.name _ pre post d hpre hname]
    simp only [assign_at, hlock]
  · intro habs
    rw [key, search_list_by_name_none DepotNode.name _ _ habs]
    simp only [hc']

/-- Witness of C12 as amended: depot `A` with one placeholder. -/
theorem handshake_fills_first_placeholder_witness :
    handle_im_message "IM:40001:B".toList
        ⟨[⟨"A".toList, some "40000".toList, none⟩,
            ⟨"new".toList, none, some "IM:40000:A\n".toList⟩], [], [], false, 0⟩
      = .ok (⟨[⟨"A".toList, some "40000".toList, none⟩,
            ⟨"B".toList, some "40001".toList, some "IM:40000:A\n".toList⟩], [], [], false, 0⟩,
          true) := by
  have h := (handshake_fills_first_placeholder "40001".toList "B".toList
    ⟨[⟨"A".toList, some "40000".toList, none⟩,
        ⟨"new".toList, none, some "IM:40000:A\n".toList⟩], [], [], false, 0⟩
    (by decide) (by decide) (by decide) (by decide) rfl).1
    [⟨"A".toList, some "40000".toList, none⟩] []
    ⟨"new".toList, none, some "IM:40000:A\n".toList⟩ rfl (by decide) rfl
  simpa using h

/-- C13: the depot started as `2310depot new` (a name `check_args` accepts) has
a head node named `new`; the first `IM:40001:B` it receives names the head node
`B` with port 40001 and leaves the placeholder of the connection as it is. -/
theorem handshake_overwrites_head_named_new :
    check_args ["2310depot".toList, "new".toList] = 0
    ∧ handle_im_message "IM:40001:B".toList
        ⟨[⟨"new".toList, some "40000".toList, none⟩,
            ⟨"new".toList, none, some "IM:40000:new\n".toList⟩],
          [⟨"XXXX".toList, 0⟩], [⟨"first".toList, none, -1, true⟩], false, 0⟩
      = .ok (⟨[⟨"B".toList, some "40001".toList, none⟩,
            ⟨"new".toList, none, some "IM:40000:new\n".toList⟩],
          [⟨"XXXX".toList, 0⟩], [⟨"first".toList, none, -1, true⟩], false, 0⟩, true) := by
  decide

/-- C14: for every sequence of `write_queue` and `read_queue` calls on a new
queue, the calls return what the same calls return on the bounded FIFO list of
the specification (capacity 50) started empty: a write is accepted exactly when
the list accepts the item, and a read returns the oldest item of the list, so
that the values read are the values written, in order, each once.  After the
calls the queue holds the items of the list; a read returns false exactly when
the list is empty, and then leaves the queue as it is. -/
theorem queue_refines_fifo {α : Type} (memory : Int → α) (calls : List (QueueCall α)) :
    (queue_calls (new_queue memory) calls).2 = (fifo_calls 50 [] calls).2
    ∧ Holds (queue_calls (new_queue memory) calls).1 (fifo_calls 50 [] calls).1
    ∧ (read_queue (queue_calls (new_queue memory) calls).1).2
        = (fifo_calls 50 [] calls).1.head?
    ∧ ((read_queue (queue_calls (new_queue memory) calls).1).2 = none
        ↔ (fifo_calls 50 [] calls).1 = [])
    ∧ ((read_queue (queue_calls (new_queue memory) calls).1).2 = none →
        (read_queue (queue_calls (new_queue memory) calls).1).1
          = (queue_calls (new_queue memory) calls).1) := by
  obtain ⟨hres, hholds⟩ := queue_calls_refine calls (new_queue memory) [] (holds_new_queue memory)
  have hread := (read_queue_holds _ _ hholds).1
  have hpop : ∀ l : List α, (fifo_pop l).2 = l.head? := by
    intro l; cases l <;> rfl
  refine ⟨hres, hholds, by rw [hread, hpop], ?_, read_queue_empty _⟩
  rw [hread, hpop]
  cases (fifo_calls 50 [] calls).1 <;> simp

/-- C15: after any sequence of calls on a new queue, `write_queue` returns false
if and only if the queue holds 50 items, that is, 50 more writes than reads have
returned true; and on a new queue 50 writes in a row return true and the 51st
returns false. -/
theorem write_refused_iff_fifty_unread {α : Type} (memory : Int → α)
    (calls : List (QueueCall α)) (x : α) :
    ((write_queue (queue_calls (new_queue memory) calls).1 x).2 = false
      ↔ unread (queue_calls (new_queue memory) calls).2 = 50)
    ∧ (queue_calls (new_queue memory) (List.replicate 51 (QueueCall.write x))).2
        = List.replicate 50 (QueueResult.wrote true) ++ [QueueResult.wrote false] := by
  obtain ⟨hres, hholds⟩ := queue_calls_refine calls (new_queue memory) [] (holds_new_queue memory)
  have hlen := fifo_calls_length 50 calls ([] : List α)
  rw [← hres] at hlen
  have hw := (write_queue_holds _ _ x hholds).1
  constructor
  · rw [hw]
    unfold fifo_push
    by_cases h50 : (fifo_calls 50 [] calls).1.length = 50
    · simp only [if_pos h50, true_iff]
      rw [h50] at hlen
      simp only [List.length_nil] at hlen
      omega
    · simp only [if_neg h50, Bool.true_eq_false, false_iff]
      intro hu
      rw [hu] at hlen
      simp only [List.length_nil] at hlen
      omega
  · have h := (queue_calls_refine (List.replicate 51 (QueueCall.write x)) (new_queue memory) []
      (holds_new_queue memory)).1
    rw [h]
    have hmap : List.replicate 51 (QueueCall.write x)
        = (List.replicate 51 x).map QueueCall.write := by simp
    rw [hmap, fifo_writes 50 _ [] (by simp)]
    simp

/-- Counterexample to C16: on a new queue 50 writes in a row all return true,
the 50th included. -/
theorem fiftieth_write_is_accepted :
    (queue_calls (new_queue (fun _ => (0 : Nat))) (List.replicate 50 (QueueCall.write 0))).2
      = List.replicate 50 (QueueResult.wrote true)
    ∧ (queue_calls (new_queue (fun _ => (0 : Nat)))
        (List.replicate 50 (QueueCall.write 0))).2.get? 49 = some (QueueResult.wrote true) := by
  set_option maxRecDepth 100000 in decide

/-- C16 as amended: the queue has QUEUE_CAPACITY = 50 usable slots.  From a
queue that holds no item (as many reads as writes have returned true) and with
no read in between, the first 50 writes return true and every later one
returns false. -/
theorem empty_queue_takes_fifty_writes {α : Type} (memory : Int → α)
    (calls : List (QueueCall α)) (xs : List α)
    (hempty : unread (queue_calls (new_queue memory) calls).2 = 0) :
    (queue_calls (queue_calls (new_queue memory) calls).1 (xs.map QueueCall.write)).2
      = List.replicate (min xs.length 50) (QueueResult.wrote true)
        ++ List.replicate (xs.length - 50) (QueueResult.wrote false) := by
  obtain ⟨hres, hholds⟩ := queue_calls_refine calls (new_queue memory) [] (holds_new_queue memory)
  have hlen := fifo_calls_length 50 calls ([] : List α)
  rw [← hres, hempty] at hlen
  have hnil : (fifo_calls 50 [] calls).1 = [] := by
    apply List.eq_nil_of_length_eq_zero
    simp only [List.length_nil] at hlen
    omega
  rw [hnil] at hholds
  rw [(queue_calls_refine (xs.map QueueCall.write) _ [] hholds).1, fifo_writes 50 xs [] (by simp)]
  simp

/-- Witness of C16 as amended: a write and a read, then 51 writes. -/
theorem empty_queue_takes_fifty_writes_witness :
    (queue_calls (queue_calls (new_queue (fun _ => (0 : Nat)))
        [QueueCall.write 1, QueueCall.read]).1
        ((List.replicate 51 7).map QueueCall.write)).2
      = List.replicate 50 (QueueResult.wrote true) ++ [QueueResult.wrote false] := by
  have h := empty_queue_takes_fifty_writes (fun _ => (0 : Nat))
    [QueueCall.write 1, QueueCall.read] (List.replicate 51 7) (by decide)
  simpa using h

/-- C17: a `write_queue` that returns false leaves the queue as it is, array,
`readEnd` and `writeEnd` (for any queue whatever, last part); and when this
happens after a sequence of calls on a new queue, the 50 items the queue holds
are then read back in the order in which they were written. -/
theorem refused_write_changes_nothing {α : Type} (memory : Int → α)
    (calls : List (QueueCall α)) (x : α)
    (h : (write_queue (queue_calls (new_queue memory) calls).1 x).2 = false) :
    (write_queue (queue_calls (new_queue memory) calls).1 x).1
      = (queue_calls (new_queue memory) calls).1
    ∧ (fifo_calls 50 [] calls).1.length = 50
    ∧ (queue_calls (write_queue (queue_calls (new_queue memory) calls).1 x).1
        (List.replicate 50 QueueCall.read)).2
      = (fifo_calls 50 [] calls).1.map (fun v => QueueResult.got (some v))
    ∧ ∀ (q : Queue α) (y : α), (write_queue q y).2 = false → (write_queue q y).1 = q := by
  obtain ⟨_, hholds⟩ := queue_calls_refine calls (new_queue memory) [] (holds_new_queue memory)
  have hw := (write_queue_holds _ _ x hholds).1
  have h50 : (fifo_calls 50 [] calls).1.length = 50 := by
    rw [hw] at h
    unfold fifo_push at h
    by_cases hl : (fifo_calls 50 [] calls).1.length = 50
    · exact hl
    · rw [if_neg hl] at h
      simp at h
  refine ⟨write_queue_refused _ x h, h50, ?_, fun q y hq => write_queue_refused q y hq⟩
  rw [write_queue_refused _ x h,
    (queue_calls_refine (List.replicate 50 QueueCall.read) _ _ hholds).1]
  have := fifo_reads 50 (fifo_calls 50 [] calls).1
  rw [h50] at this
  exact this

/-- Witness of C17: the items 0 to 49 are written, the write of 99 is refused. -/
theorem refused_write_changes_nothing_witness :
    (write_queue (queue_calls (new_queue (fun _ => (0 : Nat)))
        ((List.range 50).map QueueCall.write)).1 99).1
      = (queue_calls (new_queue (fun _ => (0 : Nat))) ((List.range 50).map QueueCall.write)).1
    ∧ (fifo_calls 50 [] ((List.range 50).map (QueueCall.write (α := Nat)))).1.length = 50
    ∧ (queue_calls (write_queue (queue_calls (new_queue (fun _ => (0 : Nat)))
        ((List.range 50).map QueueCall.write)).1 99).1 (List.replicate 50 QueueCall.read)).2
      = (fifo_calls 50 [] ((List.range 50).map QueueCall.write)).1.map
          (fun v => QueueResult.got (some v))
    ∧ ∀ (q : Queue Nat) (y : Nat), (write_queue q y).2 = false → (write_queue q y).1 = q :=
  refused_write_changes_nothing (fun _ => (0 : Nat)) ((List.range 50).map QueueCall.write) 99
    (by set_option maxRecDepth 100000 in decide)

/-- Counterexample to C18: every validator accepts a line in which its word is
followed by another character instead of the colon. -/
theorem validators_accept_longer_words :
    check_im_message "IMX:12:ab".toList = .ok true
    ∧ check_connect_message "Connects:1234".toList = .ok true
    ∧ check_deliver_withdraw_message "DeliverX:5:apple".toList "Deliver".toList = .ok true
    ∧ check_deliver_withdraw_message "Withdrawn:5:apple".toList "Withdraw".toList = .ok true
    ∧ check_transfer_message "Transfers:1:a:B".toList = true
    ∧ check_defer_message "Deferx:7:op".toList = .ok true
    ∧ check_execute_message "Executed:7".toList = .ok true := by
  decide

/-- C18 as amended: every line a validator accepts begins with the word of its
message (`IM`, `Connect`, `Deliver` or `Withdraw`, `Transfer`, `Defer`,
`Execute`); that a colon follows the word is not checked. -/
theorem validators_accept_only_their_word (m : List Char) :
    (check_im_message m = .ok true → ∃ rest, m = "IM".toList ++ rest)
    ∧ (check_connect_message m = .ok true → ∃ rest, m = "Connect".toList ++ rest)
    ∧ (check_deliver_withdraw_message m "Deliver".toList = .ok true →
        ∃ rest, m = "Deliver".toList ++ rest)
    ∧ (check_deliver_withdraw_message m "Withdraw".toList = .ok true →
        ∃ rest, m = "Withdraw".toList ++ rest)
    ∧ (check_transfer_message m = true → ∃ rest, m = "Transfer".toList ++ rest)
    ∧ (check_defer_message m = .ok true → ∃ rest, m = "Defer".toList ++ rest)
    ∧ (check_execute_message m = .ok true → ∃ rest, m = "Execute".toList ++ rest) :=
  ⟨fun h => check_string_match_begins _ _ (check_im_message_word m h).1,
    fun h => check_string_match_begins _ _ (check_connect_message_word m h).1,
    fun h => check_string_match_begins _ _ (check_deliver_withdraw_message_word m _ h).1,
    fun h => check_string_match_begins _ _ (check_deliver_withdraw_message_word m _ h).1,
    fun h => check_string_match_begins _ _ (check_transfer_message_word m h).1,
    fun h => check_string_match_begins _ _ (check_defer_message_word m h),
    fun h => check_string_match_begins _ _ (check_execute_message_word m h)⟩

/-- Witness of C18 as amended: the accepted line `Execute:7`. -/
theorem validators_accept_only_their_word_witness :
    ∃ rest, "Execute:7".toList = "Execute".toList ++ rest :=
  (validators_accept_only_their_word "Execute:7".toList).2.2.2.2.2.2 (by decide)

/-- C19: `check_execute_message` accepts `Execute:7:junk`, a line with two
colons, and the handler then releases the deferrals with key 7. -/
theorem execute_with_extra_field_is_accepted :
    count_symbol "Execute:7:junk".toList ':' = 2
    ∧ check_execute_message "Execute:7:junk".toList = .ok true
    ∧ handle_execute_message 2 "Execute:7:junk".toList
        [⟨"first".toList, none, -1, true⟩, ⟨"ready".toList, some "Deliver:1:x".toList, 7, false⟩] false
      = .ok ([⟨"first".toList, none, -1, true⟩,
          ⟨"ready".toList, some "Deliver:1:x".toList, -1, true⟩], false) := by
  decide

/-- C20: depot `A` with `apple 10` and the peer `B`.  `Transfer:-5:apple:B`
raises `apple` to 15 and sends `Deliver:-5:apple`; `Transfer:0:apple:B` sends
`Deliver:0:apple`; `Transfer:abc:a b:B` adds the entry `a b` to the inventory
and sends `Deliver:abc:a b`. -/
theorem malformed_transfer_is_carried_out :
    handle_transfer_message "Transfer:-5:apple:B".toList
        [⟨"XXXX".toList, 0⟩, ⟨"apple".toList, 10⟩]
        [⟨"A".toList, some "40000".toList, none⟩, ⟨"B".toList, some "40001".toList, some []⟩]
        false ⟨[], 0⟩ false
      = .ok ([⟨"XXXX".toList, 0⟩, ⟨"apple".toList, 15⟩],
          [⟨"A".toList, some "40000".toList, none⟩,
            ⟨"B".toList, some "40001".toList, some "Deliver:-5:apple\n".toList⟩], false)
    ∧ handle_transfer_message "Transfer:0:apple:B".toList
        [⟨"XXXX".toList, 0⟩, ⟨"apple".toList, 10⟩]
        [⟨"A".toList, some "40000".toList, none⟩, ⟨"B".toList, some "40001".toList, some []⟩]
        false ⟨[], 0⟩ false
      = .ok ([⟨"XXXX".toList, 0⟩, ⟨"apple".toList, 10⟩],
          [⟨"A".toList, some "40000".toList, none⟩,
            ⟨"B".toList, some "40001".toList, some "Deliver:0:apple\n".toList⟩], false)
    ∧ handle_transfer_message "Transfer:abc:a b:B".toList
        [⟨"XXXX".toList, 0⟩, ⟨"apple".toList, 10⟩]
        [⟨"A".toList, some "40000".toList, none⟩, ⟨"B".toList, some "40001".toList, some []⟩]
        false ⟨[], 0⟩ false
      = .ok ([⟨"XXXX".toList, 0⟩, ⟨"apple".toList, 10⟩, ⟨"a b".toList, 0⟩],
          [⟨"A".toList, some "40000".toList, none⟩,
            ⟨"B".toList, some "40001".toList, some "Deliver:abc:a b\n".toList⟩], false) := by
  decide

/-- C21: take a line with exactly two colons, `a:q:t`, read as a Deliver or as a
Withdraw line.  If the quantity field `q` holds a character that is no digit, or
is a number of value 0, or if the type field `t` holds one of the characters
space, newline, carriage return and colon, then `check_deliver_withdraw_message`
returns false and `handle_deliver_withdraw_message` returns with the inventory
and the lock as they were, in every state. -/
theorem malformed_deliver_withdraw_is_ignored (a q t : List Char) (inv : List Resource)
    (dataLock : Bool) (fresh : Resource)
    (ha : ∀ c ∈ a, c ≠ ':') (hq : ∀ c ∈ q, c ≠ ':')
    (hbad : (∃ c ∈ q, ¬ ('0' ≤ c ∧ c ≤ '9'))
      ∨ (q ≠ [] ∧ (∀ c ∈ q, '0' ≤ c ∧ c ≤ '9') ∧ decimal q = 0)
      ∨ (∃ c ∈ t, c = ' ' ∨ c = '\n' ∨ c = '\r' ∨ c = ':')) :
    check_deliver_withdraw_message (a ++ ":".toList ++ q ++ ":".toList ++ t) "Deliver".toList
      = .ok false
    ∧ check_deliver_withdraw_message (a ++ ":".toList ++ q ++ ":".toList ++ t) "Withdraw".toList
      = .ok false
    ∧ handle_deliver_withdraw_message (a ++ ":".toList ++ q ++ ":".toList ++ t) inv dataLock
        DELIVER fresh = .ok (inv, dataLock)
    ∧ handle_deliver_withdraw_message (a ++ ":".toList ++ q ++ ":".toList ++ t) inv dataLock
        WITHDRAW fresh = .ok (inv, dataLock) := by
  have hline : a ++ ":".toList ++ q ++ ":".toList ++ t = a ++ ':' :: (q ++ ':' :: t) := by simp
  have hD := check_deliver_withdraw_message_rejects "Deliver".toList a q t (by decide)
    (by decide) ha hq hbad
  have hW := check_deliver_withdraw_message_rejects "Withdraw".toList a q t (by decide)
    (by decide) ha hq hbad
  have hH := handle_deliver_withdraw_message_ignores a q t inv dataLock fresh ha hq hbad
  rw [hline]
  exact ⟨hD, hW, hH.1, hH.2⟩

/-- Witness of C21: `Deliver:0:apple`. -/
theorem malformed_deliver_withdraw_is_ignored_witness :
    check_deliver_withdraw_message "Deliver:0:apple".toList "Deliver".toList = .ok false
    ∧ handle_deliver_withdraw_message "Deliver:0:apple".toList
        [⟨"XXXX".toList, 0⟩, ⟨"apple".toList, 3⟩] false DELIVER ⟨[], 0⟩
      = .ok ([⟨"XXXX".toList, 0⟩, ⟨"apple".toList, 3⟩], false) := by
  have h := malformed_deliver_withdraw_is_ignored "Deliver".toList "0".toList "apple".toList
    [⟨"XXXX".toList, 0⟩, ⟨"apple".toList, 3⟩] false ⟨[], 0⟩ (by decide) (by decide)
    (Or.inr (Or.inl ⟨by decide, by decide, by decide⟩))
  exact ⟨by simpa using h.1, by simpa using h.2.2.1⟩

/-- Counterexample to C22: `Connect:80` and `Connect:9999` are rejected. -/
theorem connect_rejects_short_ports :
    check_connect_message "Connect:80".toList = .ok false
    ∧ check_connect_message "Connect:9999".toList = .ok false
    ∧ check_connect_message "Connect:123456".toList = .ok false := by
  decide

/-- C22 as amended: a line `Connect:<port>` whose port is one or more digits is
accepted exactly when the line is 13 characters long, that is, when the port
has five digits. -/
theorem connect_accepts_five_digit_ports (port : List Char) (hp : port ≠ [])
    (hd : ∀ c ∈ port, '0' ≤ c ∧ c ≤ '9') :
    check_connect_message ("Connect:".toList ++ port) = .ok (decide (port.length = 5)) := by
  have hcs : ∀ c ∈ "Connect".toList, c ≠ ':' := by decide
  have hline : "Connect:".toList ++ port = "Connect".toList ++ ':' :: port := by simp
  have h7 : "Connect".toList.length = 7 := by decide
  rw [hline]
  unfold check_connect_message
  by_cases h5 : port.length = 5
  · have hlen : ¬ ("Connect".toList ++ ':' :: port).length ≠ MAX_CONNECT_MSG_SIZE := by
      simp only [List.length_append, List.length_cons, h7, MAX_CONNECT_MSG_SIZE, h5]
      decide
    have hcount : count_symbol ("Connect".toList ++ ':' :: port) ':' = 1 := by
      rw [count_symbol_append, count_symbol_cons, count_symbol_absent _ ':' hcs,
        count_symbol_absent port ':' (digit_ne_colon port hd)]
      simp
    rw [if_neg hlen, check_string_match_start, hcount,
      strtok_r_token "Connect".toList port (by decide) hcs]
    simp only [strtok_r_last port hp (digit_ne_colon port hd), deref,
      is_a_number_digits port hd, h5]
    simp
  · have hlen : ("Connect".toList ++ ':' :: port).length ≠ MAX_CONNECT_MSG_SIZE := by
      simp only [List.length_append, List.length_cons, h7, MAX_CONNECT_MSG_SIZE]
      omega
    rw [if_pos hlen]
    simp [h5]

/-- Witness of C22 as amended: `Connect:40123`. -/
theorem connect_accepts_five_digit_ports_witness :
    check_connect_message "Connect:40123".toList = .ok true := by
  have h := connect_accepts_five_digit_ports "40123".toList (by decide) (by decide)
  simpa using h

/-- C23: when the inventory holds an entry named `t` (the first one with an
`int` quantity `v`), `q` is a number from 1 to `2^31 - 1` and `t` is not empty,
`Deliver:q:t` followed by `Withdraw:q:t` returns the inventory to what it was
before the two lines, names and quantities, in `int` arithmetic modulo 2^32. -/
theorem deliver_then_withdraw_restores (pre post : List Resource) (v : Int)
    (qs t : List Char) (fresh : Resource)
    (hq : qs ≠ []) (hd : ∀ c ∈ qs, '0' ≤ c ∧ c ≤ '9')
    (h1 : 1 ≤ decimal qs) (h2 : decimal qs ≤ 2147483647)
    (ht : t ≠ []) (hpre : ∀ r ∈ pre, r.name ≠ t)
    (hv1 : -2147483648 ≤ v) (hv2 : v ≤ 2147483647) :
    ∃ mid, handle_deliver_withdraw_message ("Deliver:".toList ++ qs ++ ":".toList ++ t)
        (pre ++ ⟨t, v⟩ :: post) false DELIVER fresh = .ok (mid, false)
      ∧ handle_deliver_withdraw_message ("Withdraw:".toList ++ qs ++ ":".toList ++ t)
        mid false WITHDRAW fresh = .ok (pre ++ ⟨t, v⟩ :: post, false) := by
  by_cases hc : ∀ c ∈ t, c ≠ ' ' ∧ c ≠ '\n' ∧ c ≠ '\r' ∧ c ≠ ':'
  · refine ⟨_, handle_deliver_found pre post v qs t fresh hq hd h1 h2 ht hc hpre, ?_⟩
    rw [handle_withdraw_found pre post _ qs t fresh hq hd h1 h2 ht hc hpre]
    have hback : toInt32 (toInt32 (v + (decimal qs : Int)) - (decimal qs : Int)) = v := by
      unfold toInt32
      omega
    rw [hback]
  · have hbad : ∃ c ∈ t, c = ' ' ∨ c = '\n' ∨ c = '\r' ∨ c = ':' := by
      by_contra hno
      apply hc
      intro c hmem
      refine ⟨?_, ?_, ?_, ?_⟩ <;> intro hch <;> exact hno ⟨c, hmem, by simp [hch]⟩
    have hD := (handle_deliver_withdraw_message_ignores "Deliver".toList qs t
      (pre ++ ⟨t, v⟩ :: post) false fresh (by decide) (digit_ne_colon qs hd)
      (Or.inr (Or.inr hbad))).1
    have hW := (handle_deliver_withdraw_message_ignores "Withdraw".toList qs t
      (pre ++ ⟨t, v⟩ :: post) false fresh (by decide) (digit_ne_colon qs hd)
      (Or.inr (Or.inr hbad))).2
    have hlineD : "Deliver:".toList ++ qs ++ ":".toList ++ t
        = "Deliver".toList ++ ':' :: (qs ++ ':' :: t) := by simp
    have hlineW : "Withdraw:".toList ++ qs ++ ":".toList ++ t
        = "Withdraw".toList ++ ':' :: (qs ++ ':' :: t) := by simp
    rw [hlineD, hlineW]
    exact ⟨_, hD, hW⟩

/-- Witness of C23: `apple` at `2^31 - 1`, where the delivery wraps around. -/
theorem deliver_then_withdraw_restores_witness :
    ∃ mid, handle_deliver_withdraw_message "Deliver:5:apple".toList
        [⟨"XXXX".toList, 0⟩, ⟨"apple".toList, 2147483647⟩] false DELIVER ⟨[], 0⟩
        = .ok (mid, false)
      ∧ handle_deliver_withdraw_message "Withdraw:5:apple".toList mid false WITHDRAW ⟨[], 0⟩
        = .ok ([⟨"XXXX".toList, 0⟩, ⟨"apple".toList, 2147483647⟩], false) := by
  obtain ⟨mid, h1, h2⟩ := deliver_then_withdraw_restores [⟨"XXXX".toList, 0⟩] [] 2147483647
    "5".toList "apple".toList ⟨[], 0⟩ (by decide) (by decide) (by decide) (by decide)
    (by decide) (by decide) (by decide) (by decide)
  exact ⟨mid, by simpa using h1, by simpa using h2⟩

/-- C27: a line whose first byte is none of `C`, `D`, `W`, `T`, `E` (the empty
line, whose first byte is NUL, and a line that begins with `I` among them) is
dropped by `handle_messages`: the depot data, streams and lock included, are
returned as they were. -/
theorem other_first_byte_is_dropped (fuel : Nat) (message : List Char)
    (c : ConnectionWrapper) (env : Env)
    (hC : first_letter message ≠ 'C') (hD : first_letter message ≠ 'D')
    (hW : first_letter message ≠ 'W') (hT : first_letter message ≠ 'T')
    (hE : first_letter message ≠ 'E') :
    handle_messages fuel message c env = .ok c := by
  unfold handle_messages
  simp only [if_neg hC, if_neg hD, if_neg hW, if_neg hT, if_neg hE]

/-- Witness of C27: a second `IM` line and the empty line. -/
theorem other_first_byte_is_dropped_witness :
    handle_messages 1 "IM:40001:B".toList
        ⟨[⟨"A".toList, some "40000".toList, none⟩, ⟨"new".toList, none, some []⟩],
          [⟨"XXXX".toList, 0⟩], [⟨"first".toList, none, -1, true⟩], false, 0⟩ zero_filled
      = .ok ⟨[⟨"A".toList, some "40000".toList, none⟩, ⟨"new".toList, none, some []⟩],
          [⟨"XXXX".toList, 0⟩], [⟨"first".toList, none, -1, true⟩], false, 0⟩
    ∧ handle_messages 1 []
        ⟨[⟨"A".toList, some "40000".toList, none⟩], [⟨"XXXX".toList, 0⟩],
          [⟨"first".toList, none, -1, true⟩], false, 0⟩ zero_filled
      = .ok ⟨[⟨"A".toList, some "40000".toList, none⟩], [⟨"XXXX".toList, 0⟩],
          [⟨"first".toList, none, -1, true⟩], false, 0⟩ :=
  ⟨other_first_byte_is_dropped 1 "IM:40001:B".toList _ zero_filled (by decide) (by decide)
      (by decide) (by decide) (by decide),
    other_first_byte_is_dropped 1 [] _ zero_filled (by decide) (by decide) (by decide)
      (by decide) (by decide)⟩

/-- Counterexample to C30: the message for status 1 names the program
`2310depot`, not `depot`. -/
theorem usage_message_names_2310depot :
    display_err 1 ≠ "Usage: depot name {goods qty}\n".toList := by
  decide

/-- C30 as amended: `display_err` writes `Usage: 2310depot name {goods qty}` for
status 1, `Invalid name(s)` for status 2 and `Invalid quantity` for status 3,
each followed by a newline. -/
theorem display_err_messages :
    display_err 1 = "Usage: 2310depot name {goods qty}\n".toList
    ∧ display_err 2 = "Invalid name(s)\n".toList
    ∧ display_err 3 = "Invalid quantity\n".toList := by
  decide

/-- Counterexample to C24: in `2310depot A apple 3000000000` the depot name and
the good are valid names and the quantity is a non-empty string of decimal
digits, and `check_args` returns 3: `atoi` converts the quantity to a negative
`int`. -/
theorem large_quantity_is_refused :
    spec_valid_command_line
        ["2310depot".toList, "A".toList, "apple".toList, "3000000000".toList] = true
    ∧ check_args ["2310depot".toList, "A".toList, "apple".toList, "3000000000".toList] = 3
    ∧ atoi "3000000000".toList = -1294967296 := by
  decide

/-- C24 as amended: `check_args` returns 0 if and only if a depot name is
present, not empty and free of space, newline, carriage return and colon, the
remaining arguments are complete (good, qty) pairs of such a name and of a
non-empty string of decimal digits, and `atoi` converts every qty to an `int`
that is not negative; the value returned is always one of 0, 1, 2 and 3.  A qty
of decimal digits with a value of at most `2^31 - 1` is converted to that
value, which is not negative. -/
theorem check_args_accepts_valid_command_lines (argv : List (List Char)) :
    (check_args argv = 0
      ↔ spec_valid_command_line argv = true
        ∧ ∀ qty ∈ quantities (argv.drop 2), 0 ≤ atoi qty)
    ∧ (check_args argv = 0 ∨ check_args argv = 1 ∨ check_args argv = 2
      ∨ check_args argv = 3)
    ∧ ∀ qty ∈ quantities (argv.drop 2), spec_valid_quantity qty = true →
        decimal qty ≤ 2147483647 → atoi qty = (decimal qty : Int) ∧ 0 ≤ atoi qty := by
  have h1 : NUM_ARG_ERR = 1 := rfl
  have h2 : NAME_ERR = 2 := rfl
  have h3 : QUANTITY_ERR = 3 := rfl
  have hfits : ∀ qty ∈ quantities (argv.drop 2), spec_valid_quantity qty = true →
      decimal qty ≤ 2147483647 → atoi qty = (decimal qty : Int) ∧ 0 ≤ atoi qty := by
    intro qty _ hvalid hfit
    rw [spec_valid_quantity_eq] at hvalid
    simp only [Bool.and_eq_true, decide_eq_true_eq] at hvalid
    have hval := atoi_digits qty hvalid.1 (is_a_number_true qty hvalid.2) hfit
    rw [hval]
    exact ⟨rfl, Int.natCast_nonneg _⟩
  refine ⟨?_, ?_, hfits⟩
  · match argv with
    | [] => simp [check_args, spec_valid_command_line, MIN_ARGS, h1]
    | [_] => simp [check_args, spec_valid_command_line, MIN_ARGS, h1]
    | [_, name] =>
      by_cases hn : name = []
      · simp [check_args, spec_valid_command_line, spec_valid_pairs, spec_valid_name_eq,
          MIN_ARGS, h1, hn, quantities]
      · cases hc : check_characters name invalid <;>
          simp [check_args, spec_valid_command_line, spec_valid_pairs, spec_valid_name_eq,
            MIN_ARGS, h1, h2, hn, hc, quantities]
    | prog :: name :: good :: rest =>
      have hlen2 : ¬ (prog :: name :: good :: rest).length < MIN_ARGS := by
        simp [MIN_ARGS]
      have hlen3 : (prog :: name :: good :: rest).length > 2 := by simp
      simp only [check_args, if_neg hlen2, if_pos hlen3, List.getD_cons_succ,
        List.getD_cons_zero, List.drop_succ_cons, List.drop_zero, spec_valid_command_line,
        spec_valid_name_eq, h1, h2, h3]
      by_cases hn : name = []
      · simp [hn]
      · cases hc : check_characters name invalid with
        | false => simp [hn]
        | true =>
          by_cases hg : good = []
          · subst hg
            have hno : spec_valid_pairs ([] :: rest) = false := by
              cases rest with
              | nil => rfl
              | cons qty rest => simp [spec_valid_pairs, spec_valid_name_eq]
            simp [hn, hno]
          · by_cases hodd : (prog :: name :: good :: rest).length % 2 ≠ 0
            · have hno : spec_valid_pairs (good :: rest) = false := by
                cases hv : spec_valid_pairs (good :: rest) with
                | false => rfl
                | true =>
                  have := spec_valid_pairs_even _ hv
                  simp only [List.length_cons] at this hodd
                  omega
              simp only [if_neg hn, if_neg hg, if_pos hodd, hno]
              simp
            · have heven : (good :: rest).length % 2 = 0 := by
                simp only [List.length_cons] at hodd ⊢
                omega
              have hloop := check_args_loop_accepts (good :: rest) 2 rfl heven
              simp only [if_neg hn, if_neg hg, if_neg hodd]
              simpa [hn] using hloop
  · unfold check_args
    split
    · exact Or.inr (Or.inl rfl)
    · split
      · exact Or.inr (Or.inl rfl)
      · split
        · exact Or.inr (Or.inr (Or.inl rfl))
        · split
          · split
            · exact Or.inr (Or.inl rfl)
            · split
              · exact Or.inr (Or.inr (Or.inr rfl))
              · rcases check_args_loop_range (argv.drop 2) 2 with h | h | h
                · exact Or.inl h
                · exact Or.inr (Or.inr (Or.inl h))
                · exact Or.inr (Or.inr (Or.inr h))
          · exact Or.inl rfl

/-- Witness of C24 as amended: `2310depot A apple 3 pear 0` is accepted. -/
theorem check_args_accepts_valid_command_lines_witness :
    check_args ["2310depot".toList, "A".toList, "apple".toList, "3".toList, "pear".toList,
      "0".toList] = 0 :=
  (check_args_accepts_valid_command_lines ["2310depot".toList, "A".toList, "apple".toList,
    "3".toList, "pear".toList, "0".toList]).1.mpr ⟨by decide, by decide⟩

/-- Counterexample to C25: in `2310depot A apple 1 "" 2` no name holds an invalid
character, the second good name is empty, and the status is 2, not 1. -/
theorem empty_later_good_name_gives_two :
    check_args ["2310depot".toList, "A".toList, "apple".toList, "1".toList, [], "2".toList] = 2
    ∧ ∀ arg ∈ ["2310depot".toList, "A".toList, "apple".toList, "1".toList, [], "2".toList],
        ∀ c ∈ arg, c ≠ ' ' ∧ c ≠ '\n' ∧ c ≠ '\r' ∧ c ≠ ':' := by
  decide

/-- C25 as amended: whenever `check_args` returns 2, the depot name or a good
name (`argv[i]` with `i = 1` or `i` even) holds one of the characters space,
newline, carriage return and colon, or a good name after the first (`i ≥ 4`) is
empty; an empty depot name is reported with status 1, and so is an empty first
good name after a depot name without such a character. -/
theorem name_error_means (argv : List (List Char)) :
    (check_args argv = 2 →
      ∃ i, 1 ≤ i ∧ i < argv.length ∧ (i = 1 ∨ i % 2 = 0)
        ∧ ((∃ c ∈ argv.getD i [], c = ' ' ∨ c = '\n' ∨ c = '\r' ∨ c = ':')
          ∨ (4 ≤ i ∧ argv.getD i [] = [])))
    ∧ (argv.getD 1 [] = [] → check_args argv = 1)
    ∧ (2 < argv.length → argv.getD 2 [] = [] → check_characters (argv.getD 1 []) invalid = true →
        check_args argv = 1) := by
  have h12 : NUM_ARG_ERR ≠ 2 := by decide
  have h32 : QUANTITY_ERR ≠ 2 := by decide
  refine ⟨?_, ?_, ?_⟩
  · intro h
    unfold check_args at h
    split at h
    · exact absurd h h12
    · rename_i hlen
      split at h
      · exact absurd h h12
      · split at h
        · rename_i hchk
          have hfalse : check_characters (argv.getD 1 []) invalid = false := by simpa using hchk
          exact ⟨1, le_refl 1, by simp only [MIN_ARGS] at hlen; omega, Or.inl rfl,
            Or.inl (check_characters_bad _ hfalse)⟩
        · split at h
          · rename_i hlen3
            split at h
            · exact absurd h h12
            · rename_i hgood
              split at h
              · exact absurd h h32
              · obtain ⟨j, hj, hpar, hbad⟩ := check_args_loop_name_err (argv.drop 2) 2 h
                have hget : (argv.drop 2).getD j [] = argv.getD (2 + j) [] := by
                  simp [List.getD_eq_getElem?_getD, List.getElem?_drop]
                rw [hget] at hbad
                rw [List.length_drop] at hj
                refine ⟨2 + j, by omega, by omega, Or.inr hpar, ?_⟩
                rcases hbad with hempty | hchar
                · by_cases hj0 : j = 0
                  · subst hj0
                    exact absurd hempty hgood
                  · exact Or.inr ⟨by omega, hempty⟩
                · exact Or.inl hchar
          · exact absurd h (by decide)
  · intro hname
    unfold check_args
    split
    · rfl
    · rfl
  · intro hlen hgood hchk
    unfold check_args
    split
    · rfl
    · split
      · rfl
      · rw [hchk]
        simp only [Bool.not_true, Bool.false_eq_true, if_false, if_pos hlen, if_pos hgood]
        rfl

/-- Witness of C25 as amended: `2310depot A "a b" 1` has status 2 and a space in
`argv[2]`; `2310depot "" apple 1` and `2310depot A "" 1` have status 1. -/
theorem name_error_means_witness :
    (∃ i, 1 ≤ i ∧ i < 4 ∧ (i = 1 ∨ i % 2 = 0)
        ∧ ((∃ c ∈ ["2310depot".toList, "A".toList, "a b".toList, "1".toList].getD i [],
              c = ' ' ∨ c = '\n' ∨ c = '\r' ∨ c = ':')
          ∨ (4 ≤ i ∧ ["2310depot".toList, "A".toList, "a b".toList, "1".toList].getD i [] = [])))
    ∧ check_args ["2310depot".toList, [], "apple".toList, "1".toList] = 1
    ∧ check_args ["2310depot".toList, "A".toList, [], "1".toList] = 1 :=
  ⟨(name_error_means ["2310depot".toList, "A".toList, "a b".toList, "1".toList]).1 (by decide),
    (name_error_means ["2310depot".toList, [], "apple".toList, "1".toList]).2.1 (by decide),
    (name_error_means ["2310depot".toList, "A".toList, [], "1".toList]).2.2 (by decide)
      (by decide) (by decide)⟩

/-- C26: the depot started with `2310depot A apple 3 apple 5` holds the entries
`apple 3` and `apple 5`, and `display_depot_data` prints `apple 3` twice: each
sorted name is looked up again with `search_list_by_name`, which finds the
first entry of that name. -/
theorem repeated_good_prints_first_entry_twice :
    (started ["2310depot".toList, "A".toList, "apple".toList, "3".toList, "apple".toList,
        "5".toList] "40000".toList).connection.firstResource
      = [⟨"apple".toList, 3⟩, ⟨"apple".toList, 5⟩]
    ∧ display_depot_data
        (started ["2310depot".toList, "A".toList, "apple".toList, "3".toList, "apple".toList,
          "5".toList] "40000".toList).connection.thisDepot
        (started ["2310depot".toList, "A".toList, "apple".toList, "3".toList, "apple".toList,
          "5".toList] "40000".toList).connection.firstResource
      = .ok "Goods:\napple 3\napple 3\nNeighbours:\n".toList := by
  decide

/-- Counterexample to C31: `is_a_number` returns true for the empty string. -/
theorem is_a_number_accepts_empty_string : is_a_number [] = true := by
  decide

/-- C31 as amended: `is_a_number` returns true if and only if every character of
the string is a decimal digit; the empty string, which has no character, is
accepted. -/
theorem is_a_number_iff_all_digits (s : List Char) :
    is_a_number s = true ↔ ∀ c ∈ s, '0' ≤ c ∧ c ≤ '9' :=
  ⟨is_a_number_true s, is_a_number_digits s⟩

/-- C32: a peer has connected to the depot started as `2310depot A` on port
40000 and has not sent its `IM` line yet, so that the peer table holds the
entry of the depot and an entry named `new` whose port is NULL.  On the line
`Connect:40001` the scan of `handle_connect_message` reaches the entry with the
NULL port and stays on it: the call does not return. -/
theorem connect_scan_spins_on_unset_port :
    start_communication_threads
        (started ["2310depot".toList, "A".toList] "40000".toList).connection
        zero_filled.freshDepot
      = .ok ⟨[⟨"A".toList, some "40000".toList, none⟩,
            ⟨"new".toList, none, some "IM:40000:A\n".toList⟩],
          [⟨"XXXX".toList, 0⟩], [⟨"first".toList, none, -1, true⟩], false, 0⟩
    ∧ check_connect_message "Connect:40001".toList = .ok true
    ∧ handle_connect_message "Connect:40001".toList
        ⟨[⟨"A".toList, some "40000".toList, none⟩,
            ⟨"new".toList, none, some "IM:40000:A\n".toList⟩],
          [⟨"XXXX".toList, 0⟩], [⟨"first".toList, none, -1, true⟩], false, 0⟩ zero_filled
      = .error .hang := by
  decide

/-- C33: for an Execute line that `check_execute_message` accepts the key is
not negative, and `handle_execute_message` with the lock free returns exactly
when more searches are allowed (`fuel`) than the table has deferrals with that
key: as many passes through the loop body as there are such deferrals, each
setting one matching key to -1, and the search that finds none.  A loop run
with key -1 on a table that has a deferral with key -1 (the head that
`set_args` makes) does not end within any number of searches. -/
theorem execute_loop_runs_once_per_match (message : List Char) (l : List Deferral)
    (hacc : check_execute_message message = .ok true) :
    ∃ key, deref (strtok_r (strtok_r message [':']).2 [':']).1 = .ok key ∧ 0 ≤ atoi key
      ∧ (∀ fuel, handle_execute_message fuel message l false
          = if l.countP (fun d => decide (d.key = atoi key)) < fuel
            then .ok (l.map (fun d => if d.key = atoi key
              then { d with executed := true, key := -1 } else d), false)
            else .error .fuel)
      ∧ ((∃ d ∈ l, d.key = -1) → ∀ fuel, execute_loop (-1) fuel l = .error .fuel) := by
  obtain ⟨key, hkey, hnonneg⟩ := check_execute_message_key message hacc
  have hk : atoi key ≠ -1 := by omega
  refine ⟨key, hkey, hnonneg, ?_, fun h fuel => execute_loop_never fuel l h⟩
  intro fuel
  unfold handle_execute_message
  rw [hacc]
  simp only [hkey, Bool.false_eq_true, if_false]
  by_cases hfuel : l.countP (fun d => decide (d.key = atoi key)) < fuel
  · rw [if_pos hfuel, execute_loop_releases (atoi key) hk fuel l hfuel]
  · rw [if_neg hfuel, execute_loop_exhausts (atoi key) hk fuel l (by omega)]

/-- Witness of C33: `Execute:7` on a table with two deferrals of key 7. -/
theorem execute_loop_runs_once_per_match_witness :
    ∃ key, deref (strtok_r (strtok_r "Execute:7".toList [':']).2 [':']).1 = .ok key
      ∧ 0 ≤ atoi key
      ∧ (∀ fuel, handle_execute_message fuel "Execute:7".toList
            [⟨"first".toList, none, -1, true⟩, ⟨"ready".toList, some "Deliver:1:x".toList, 7, false⟩,
              ⟨"ready".toList, some "Deliver:2:x".toList, 7, false⟩] false
          = if ([⟨"first".toList, none, -1, true⟩, ⟨"ready".toList, some "Deliver:1:x".toList, 7, false⟩,
              ⟨"ready".toList, some "Deliver:2:x".toList, 7, false⟩] : List Deferral).countP
                (fun d => decide (d.key = atoi key)) < fuel
            then .ok (([⟨"first".toList, none, -1, true⟩,
              ⟨"ready".toList, some "Deliver:1:x".toList, 7, false⟩,
              ⟨"ready".toList, some "Deliver:2:x".toList, 7, false⟩] : List Deferral).map
                (fun d => if d.key = atoi key
                  then { d with executed := true, key := -1 } else d), false)
            else .error .fuel)
      ∧ ((∃ d ∈ ([⟨"first".toList, none, -1, true⟩,
              ⟨"ready".toList, some "Deliver:1:x".toList, 7, false⟩,
              ⟨"ready".toList, some "Deliver:2:x".toList, 7, false⟩] : List Deferral), d.key = -1) →
          ∀ fuel, execute_loop (-1) fuel
            [⟨"first".toList, none, -1, true⟩, ⟨"ready".toList, some "Deliver:1:x".toList, 7, false⟩,
              ⟨"ready".toList, some "Deliver:2:x".toList, 7, false⟩] = .error .fuel) :=
  execute_loop_runs_once_per_match "Execute:7".toList
    [⟨"first".toList, none, -1, true⟩, ⟨"ready".toList, some "Deliver:1:x".toList, 7, false⟩,
      ⟨"ready".toList, some "Deliver:2:x".toList, 7, false⟩] (by decide)

/-- C34: after every sequence of `write_queue` and `read_queue` calls on a new
queue, `writeEnd` is from 0 to 49, `readEnd` is -1 or from 0 to 49, and
`readEnd` is -1 exactly when as many reads as writes have succeeded, that is,
when the queue holds no item; so `data[writeEnd]` in `write_queue` and, when
`readEnd` is not -1, `data[readEnd]` in `read_queue` are slots of the array. -/
theorem queue_indices_stay_in_array {α : Type} (memory : Int → α)
    (calls : List (QueueCall α)) :
    0 ≤ (queue_calls (new_queue memory) calls).1.writeEnd
    ∧ (queue_calls (new_queue memory) calls).1.writeEnd < QUEUE_CAPACITY
    ∧ ((queue_calls (new_queue memory) calls).1.readEnd = -1
      ∨ (0 ≤ (queue_calls (new_queue memory) calls).1.readEnd
        ∧ (queue_calls (new_queue memory) calls).1.readEnd < QUEUE_CAPACITY))
    ∧ ((queue_calls (new_queue memory) calls).1.readEnd = -1
      ↔ unread (queue_calls (new_queue memory) calls).2 = 0) := by
  obtain ⟨hres, hw0, hw1, _, hempty, hfull, _⟩ :=
    queue_calls_refine calls (new_queue memory) [] (holds_new_queue memory)
  have hlen := fifo_calls_length 50 calls ([] : List α)
  rw [← hres] at hlen
  simp only [List.length_nil, Nat.cast_zero, zero_add] at hlen
  refine ⟨hw0, hw1, ?_, ?_⟩
  · by_cases hl : (fifo_calls 50 ([] : List α) calls).1 = []
    · exact Or.inl (hempty hl)
    · exact Or.inr ⟨(hfull hl).1, (hfull hl).2.1⟩
  · constructor
    · intro hr
      by_cases hl : (fifo_calls 50 ([] : List α) calls).1 = []
      · rw [← hlen, hl]
        rfl
      · have := (hfull hl).1
        omega
    · intro hu
      apply hempty
      rw [← hlen] at hu
      exact List.length_eq_zero.mp (by exact_mod_cast hu)

/-- C35: with the semaphore of the channel as a counter (1 in a new channel,
one more after every `write_channel`, one less after every `read_channel`), in
every channel reached from a new one by calls that return the counter is at
least the number of items the queue holds; so while an item is queued
`read_channel` is not held by `sem_wait` and returns the oldest item.  When the
queue is empty and the counter is positive, as in a new channel where it is 1,
`read_channel` returns false with no data. -/
theorem semaphore_counts_at_least_items {α : Type} (memory : Int → α) (channel : Channel α)
    (h : ReachableChannel memory channel) :
    (∃ items, Holds channel.queue items ∧ items.length ≤ channel.signal
      ∧ (items ≠ [] → ∃ after, read_channel channel = .ok (after, items.head?))
      ∧ (items = [] → 0 < channel.signal → ∃ after, read_channel channel = .ok (after, none)))
    ∧ (new_channel memory).signal = 1
    ∧ Holds (new_channel memory).queue []
    ∧ ∃ after, read_channel (new_channel memory) = .ok (after, none) := by
  constructor
  · obtain ⟨items, hholds, hlen⟩ := reachable_channel_signal memory channel h
    refine ⟨items, hholds, hlen, ?_, ?_⟩
    · intro hne
      have hpos : 0 < items.length := List.length_pos.mpr hne
      exact read_channel_returns channel items hholds (by omega)
    · intro hnil hsignal
      obtain ⟨after, hafter⟩ := read_channel_returns channel items hholds hsignal
      rw [hnil] at hafter
      exact ⟨after, hafter⟩
  · exact ⟨rfl, holds_new_queue memory,
      read_channel_returns (new_channel memory) [] (holds_new_queue memory) Nat.one_pos⟩

/-- Witness of C35: the channel after one write holds one item and has the
counter 2. -/
theorem semaphore_counts_at_least_items_witness :
    (∃ items, Holds (write_channel (new_channel (fun _ => (0 : Nat))) 7).1.queue items
      ∧ items.length ≤ (write_channel (new_channel (fun _ => (0 : Nat))) 7).1.signal
      ∧ (items ≠ [] → ∃ after,
          read_channel (write_channel (new_channel (fun _ => (0 : Nat))) 7).1
            = .ok (after, items.head?))
      ∧ (items = [] → 0 < (write_channel (new_channel (fun _ => (0 : Nat))) 7).1.signal →
          ∃ after, read_channel (write_channel (new_channel (fun _ => (0 : Nat))) 7).1
            = .ok (after, none)))
    ∧ (new_channel (fun _ => (0 : Nat))).signal = 1
    ∧ Holds (new_channel (fun _ => (0 : Nat))).queue []
    ∧ ∃ after, read_channel (new_channel (fun _ => (0 : Nat))) = .ok (after, none) :=
  semaphore_counts_at_least_items (fun _ => (0 : Nat))
    (write_channel (new_channel (fun _ => (0 : Nat))) 7).1
    (ReachableChannel.write _ 7 ReachableChannel.new)

/-- C36: when the names of the inventory entries are pairwise distinct and
`handle_deliver_withdraw_message` or `handle_transfer_message` returns, the
names of the inventory after the call are pairwise distinct, they begin with
the names of before in the same order (no entry is removed, renamed or moved),
and at most one entry has been added. -/
theorem handlers_keep_names_distinct (message : List Char) (inv : List Resource)
    (thisDepot : List DepotNode) (dataLock : Bool) (command : Nat) (fresh : Resource)
    (destIsName : Bool) (hdistinct : (inv.map Resource.name).Nodup) :
    (∀ after lock,
      handle_deliver_withdraw_message message inv dataLock command fresh = .ok (after, lock) →
        (after.map Resource.name).Nodup ∧ inv.map Resource.name <+: after.map Resource.name
          ∧ after.length ≤ inv.length + 1)
    ∧ (∀ after depots lock,
      handle_transfer_message message inv thisDepot dataLock fresh destIsName
          = .ok (after, depots, lock) →
        (after.map Resource.name).Nodup ∧ inv.map Resource.name <+: after.map Resource.name
          ∧ after.length ≤ inv.length + 1) := by
  constructor
  · intro after lock h
    have hstep := names_step_distinct _ _ hdistinct
      (handle_deliver_withdraw_message_names message inv after dataLock lock command fresh h)
    simpa using hstep
  · intro after depots lock h
    have hstep := names_step_distinct _ _ hdistinct
      (handle_transfer_message_names message inv after thisDepot depots dataLock lock fresh
        destIsName h)
    simpa using hstep

/-- Witness of C36: `Deliver:5:pear` on the inventory `XXXX`, `apple` adds the
entry `pear`, and `Transfer:2:plum:B` adds the entry `plum`. -/
theorem handlers_keep_names_distinct_witness :
    (["XXXX".toList, "apple".toList, "pear".toList].Nodup
      ∧ ["XXXX".toList, "apple".toList] <+: ["XXXX".toList, "apple".toList, "pear".toList]
      ∧ 3 ≤ 2 + 1)
    ∧ (["XXXX".toList, "apple".toList, "plum".toList].Nodup
      ∧ ["XXXX".toList, "apple".toList] <+: ["XXXX".toList, "apple".toList, "plum".toList]
      ∧ 3 ≤ 2 + 1) :=
  ⟨(handlers_keep_names_distinct "Deliver:5:pear".toList
      [⟨"XXXX".toList, 0⟩, ⟨"apple".toList, 3⟩] [] false DELIVER ⟨[], 0⟩ false
      (by decide)).1 [⟨"XXXX".toList, 0⟩, ⟨"apple".toList, 3⟩, ⟨"pear".toList, 5⟩] false
      (by decide),
    (handlers_keep_names_distinct "Transfer:2:plum:B".toList
      [⟨"XXXX".toList, 0⟩, ⟨"apple".toList, 3⟩]
      [⟨"A".toList, some "40000".toList, none⟩, ⟨"B".toList, some "40001".toList, some []⟩]
      false DELIVER ⟨[], 0⟩ false (by decide)).2
      [⟨"XXXX".toList, 0⟩, ⟨"apple".toList, 3⟩, ⟨"plum".toList, -2⟩]
      [⟨"A".toList, some "40000".toList, none⟩,
        ⟨"B".toList, some "40001".toList, some "Deliver:2:plum\n".toList⟩] false
      (by decide)⟩

end Depot
